import Mathlib

/-! Verification development for `server.js` (Android device telemetry classifier).

Shallow embedding of the classification engine, the netstat address parser, the CPU
cluster labelling and the aggregate scan of `src/server.js`, followed by theorems about them.

Conventions of the embedding.

* JavaScript strings are modelled by Lean `String`s and processed as `List Char`.
* A regular-expression literal is an abstract syntax tree `Regex`; `Regex.run` enumerates
  the outcomes of the ECMAScript backtracking matcher in priority order, so the head of
  the enumeration is the match the JavaScript engine reports.
* The `i` flag is a boolean argument.  Every pattern of the source is ASCII, and for an
  ASCII pattern character ECMAScript canonicalisation coincides with ASCII upper-casing.
-/

set_option autoImplicit false

namespace AndroidSlim

/-! ## String primitives -/

/-- `s.startsWith(t)`. -/
def startsWith (s t : String) : Bool := t.data.isPrefixOf s.data

/-- `s.endsWith(t)`. -/
def endsWith (s t : String) : Bool := t.data.isSuffixOf s.data

/-- Does `t` occur in the list as a contiguous block. -/
def includesList {α : Type} [DecidableEq α] (t : List α) : List α → Bool
  | [] => t.isEmpty
  | c :: cs => t.isPrefixOf (c :: cs) || includesList t cs

/-- `s.includes(t)`. -/
def includes (s t : String) : Bool := includesList t.data s.data

/-! ## Regular expressions -/

/-- Abstract syntax of the regular-expression literals used by the source. -/
inductive Regex where
  /-- the empty pattern -/
  | empty : Regex
  /-- a literal character -/
  | chr (c : Char) : Regex
  /-- a character class given by inclusive ranges, possibly negated -/
  | cls (neg : Bool) (ranges : List (Char × Char)) : Regex
  /-- the dot: any character but a line terminator -/
  | any : Regex
  /-- the assertion `^` (no `m` flag) -/
  | bos : Regex
  /-- the assertion `$` (no `m` flag) -/
  | eos : Regex
  /-- concatenation -/
  | seq (a b : Regex) : Regex
  /-- alternation `a|b` -/
  | alt (a b : Regex) : Regex
  /-- repetition `a*` (greedy) or `a*?` (lazy) -/
  | star (greedy : Bool) (a : Regex) : Regex
  /-- capture group number `i` -/
  | group (i : Nat) (a : Regex) : Regex
  deriving Repr, DecidableEq

namespace Regex

/-- A literal string, character by character. -/
def lit (s : String) : Regex := s.data.foldr (fun c r => seq (chr c) r) empty

/-- Concatenation of a list of patterns. -/
def cat (rs : List Regex) : Regex := rs.foldr seq empty

/-- The quantifier `a+`. -/
def plus (a : Regex) : Regex := seq a (star true a)

/-- The quantifier `a?`. -/
def opt (a : Regex) : Regex := alt a empty

/-- At least `n` repetitions: `a{n,}`. -/
def atLeast : Nat → Regex → Regex
  | 0, a => star true a
  | n + 1, a => seq a (atLeast n a)

/-- The class escape `\d`. -/
def digit : Regex := cls false [('0', '9')]

/-- Capture-group numbers occurring in a pattern. -/
def groups : Regex → List Nat
  | seq a b => groups a ++ groups b
  | alt a b => groups a ++ groups b
  | star _ a => groups a
  | group i a => i :: groups a
  | _ => []

end Regex

/-- State of the matcher: index into the subject, the text still to be read, captures. -/
structure MState where
  pos : Nat
  rest : List Char
  caps : List (Nat × List Char)
  deriving Repr, DecidableEq

/-- Line terminators, which the dot does not match. -/
def isLineTerminator (c : Char) : Bool :=
  c == '\n' || c == '\r' || c == Char.ofNat 0x2028 || c == Char.ofNat 0x2029

/-- Canonical form of a character under the `i` flag: its upper-case form, as a code
point.  Only ASCII letters are folded.  (A character outside ASCII never canonicalises to
an ASCII one in ECMAScript, so comparisons against the ASCII patterns of the source are
exact.) -/
def canon (c : Char) : Nat :=
  if 97 ≤ c.toNat ∧ c.toNat ≤ 122 then c.toNat - 32 else c.toNat

/-- The other case variant of an ASCII letter, as a code point. -/
def swapCase (c : Char) : Nat :=
  if 97 ≤ c.toNat ∧ c.toNat ≤ 122 then c.toNat - 32
  else if 65 ≤ c.toNat ∧ c.toNat ≤ 90 then c.toNat + 32 else c.toNat

/-- Character comparison, through canonicalisation when the `i` flag is set. -/
def chrEq (ic : Bool) (p c : Char) : Bool :=
  if ic then canon p == canon c else p == c

/-- Membership of a code point in a list of inclusive ranges. -/
def inRanges (ranges : List (Char × Char)) (n : Nat) : Bool :=
  ranges.any (fun r => decide (r.1.toNat ≤ n) && decide (n ≤ r.2.toNat))

/-- Class membership; with the `i` flag a character belongs to the class when one of its
case variants does. -/
def clsMatch (ic neg : Bool) (ranges : List (Char × Char)) (c : Char) : Bool :=
  let hit := inRanges ranges c.toNat || (ic && inRanges ranges (swapCase c))
  if neg then !hit else hit

/-- Consume one character satisfying `p`. -/
def stepChar (p : Char → Bool) (s : MState) : List MState :=
  match s.rest with
  | [] => []
  | c :: cs => if p c then [{ s with pos := s.pos + 1, rest := cs }] else []

/-- Record capture `i`. -/
def setCap (i : Nat) (v : List Char) (caps : List (Nat × List Char)) : List (Nat × List Char) :=
  (i, v) :: caps.filter (fun kv => kv.1 != i)

/-- Forget the captures numbered in `gs` (done at the start of each iteration of a
quantified pattern). -/
def clearCaps (gs : List Nat) (caps : List (Nat × List Char)) : List (Nat × List Char) :=
  caps.filter (fun kv => !gs.contains kv.1)

/-- Iteration of a quantified pattern.  `step` matches the body once; an iteration that
consumes nothing is rejected; `fuel` bounds the number of iterations by the length of the
remaining text.  Greedy: longer first.  Lazy: shorter first. -/
def starLoop (greedy : Bool) (gs : List Nat) (step : MState → List MState) :
    Nat → MState → List MState
  | 0, s => [s]
  | fuel + 1, s =>
    let more := ((step { s with caps := clearCaps gs s.caps }).filter
        (fun s1 => decide (s1.rest.length < s.rest.length))).flatMap
        (starLoop greedy gs step fuel)
    if greedy then more ++ [s] else s :: more

/-- All outcomes of matching a pattern at a state, in backtracking priority order. -/
def Regex.run (ic : Bool) : Regex → MState → List MState
  | .empty => fun s => [s]
  | .chr p => fun s => stepChar (chrEq ic p) s
  | .cls neg ranges => fun s => stepChar (clsMatch ic neg ranges) s
  | .any => fun s => stepChar (fun c => !isLineTerminator c) s
  | .bos => fun s => if s.pos = 0 then [s] else []
  | .eos => fun s => if s.rest.isEmpty then [s] else []
  | .seq a b => fun s => (Regex.run ic a s).flatMap (Regex.run ic b)
  | .alt a b => fun s => Regex.run ic a s ++ Regex.run ic b s
  | .star greedy a => fun s => starLoop greedy a.groups (Regex.run ic a) s.rest.length s
  | .group i a => fun s =>
      (Regex.run ic a s).map
        (fun s1 => { s1 with caps := setCap i (s.rest.take (s1.pos - s.pos)) s1.caps })

/-- Result of a successful search: where it starts, the matched text, the captures. -/
structure MatchResult where
  index : Nat
  matched : List Char
  caps : List (Nat × List Char)
  deriving Repr, DecidableEq

/-- Match attempt at one start position. -/
def matchAt (ic : Bool) (r : Regex) (pos : Nat) (rest : List Char) : Option MatchResult :=
  ((r.run ic ⟨pos, rest, []⟩).head?).map
    (fun s1 => ⟨pos, rest.take (s1.pos - pos), s1.caps⟩)

/-- Leftmost search from position `pos` on. -/
def searchFrom (ic : Bool) (r : Regex) : Nat → List Char → Option MatchResult
  | pos, [] => matchAt ic r pos []
  | pos, c :: cs =>
    match matchAt ic r pos (c :: cs) with
    | some m => some m
    | none => searchFrom ic r (pos + 1) cs

/-- A regular-expression literal: pattern and `i` flag. -/
structure RegExp where
  ignoreCase : Bool
  pattern : Regex
  deriving Repr, DecidableEq

/-- `s.match(re)` for a literal without the `g` flag (`re.exec(s)`). -/
def RegExp.exec (re : RegExp) (s : String) : Option MatchResult :=
  searchFrom re.ignoreCase re.pattern 0 s.data

/-- `re.test(s)`. -/
def RegExp.test (re : RegExp) (s : String) : Bool := (re.exec s).isSome

/-- Value of capture `i` of a match (`m[i]`), `none` when the group did not take part. -/
def MatchResult.cap (m : MatchResult) (i : Nat) : Option String :=
  (m.caps.find? (fun kv => kv.1 == i)).map (fun kv => String.mk kv.2)

/-! ## Domain classification (`analyzeDomainForC2`) -/

/-- An entry of `suspiciousDomainPatterns`. -/
structure DomainPattern where
  pattern : RegExp
  category : String
  risk : String
  desc : String
  deriving Repr, DecidableEq

open Regex in
/-- Known suspicious/C2 domain patterns, in source order. -/
def suspiciousDomainPatterns : List DomainPattern := [
  -- Xiaomi/MIUI tracking/telemetry
  ⟨⟨true, cat [lit "tracking.", star true (any), lit "xiaomi"]⟩, "telemetry", "high", "Xiaomi Tracking"⟩,
  ⟨⟨true, lit "data.mistat"⟩, "telemetry", "high", "Xiaomi Analytics"⟩,
  ⟨⟨true, lit "logupload"⟩, "telemetry", "high", "Log Upload Service"⟩,
  ⟨⟨true, cat [lit "feedback", star true (any), lit "xiaomi"]⟩, "telemetry", "medium", "Feedback Service"⟩,
  ⟨⟨true, lit "stats.xiaomi"⟩, "telemetry", "high", "Xiaomi Statistics"⟩,
  ⟨⟨true, lit "abtest"⟩, "telemetry", "medium", "A/B Testing"⟩,
  ⟨⟨true, alt (lit "xmpush") (lit "mipush")⟩, "push", "high", "Xiaomi Push"⟩,
  ⟨⟨true, lit "resolver.msg.xiaomi"⟩, "push", "high", "Xiaomi Message Resolver"⟩,
  ⟨⟨true, lit "register.xmpush"⟩, "push", "high", "Push Registration"⟩,
  ⟨⟨true, lit "app.chat.xiaomi"⟩, "push", "high", "Xiaomi Chat Service"⟩,
  ⟨⟨true, lit "account.xiaomi"⟩, "account", "high", "Xiaomi Account"⟩,
  ⟨⟨true, lit "passport.xiaomi"⟩, "account", "high", "Xiaomi Auth"⟩,
  ⟨⟨true, cat [lit "find.", star true (any), lit "miui"]⟩, "remote", "critical", "Find Device (Remote Lock)"⟩,
  ⟨⟨true, lit "i.mi.com"⟩, "cloud", "high", "Mi Cloud"⟩,
  ⟨⟨true, cat [lit "ad", opt (cls false [('s', 's')]), lit ".xiaomi"]⟩, "ads", "medium", "Xiaomi Ads"⟩,
  ⟨⟨true, lit "adv.sec.miui"⟩, "ads", "medium", "MIUI Ads"⟩,
  -- Oppo/ColorOS/Realme telemetry
  ⟨⟨true, lit ".oppo.com"⟩, "telemetry", "high", "Oppo Services"⟩,
  ⟨⟨true, lit ".coloros.com"⟩, "telemetry", "high", "ColorOS Services"⟩,
  ⟨⟨true, lit ".heytap.com"⟩, "telemetry", "high", "HeyTap Services"⟩,
  ⟨⟨true, lit ".nearme.com.cn"⟩, "telemetry", "high", "Nearme (Oppo)"⟩,
  ⟨⟨true, lit "push.oplus"⟩, "push", "high", "Oplus Push"⟩,
  ⟨⟨true, lit ".realme.com"⟩, "telemetry", "high", "Realme Services"⟩,
  -- OnePlus telemetry
  ⟨⟨true, lit ".oneplus.com"⟩, "telemetry", "medium", "OnePlus Services"⟩,
  ⟨⟨true, lit ".oneplus.cn"⟩, "telemetry", "high", "OnePlus China"⟩,
  ⟨⟨true, lit "open.oneplus"⟩, "telemetry", "medium", "OnePlus Open Platform"⟩,
  -- Samsung telemetry
  ⟨⟨true, lit "samsungcloud"⟩, "cloud", "medium", "Samsung Cloud"⟩,
  ⟨⟨true, lit "samsungapps"⟩, "store", "low", "Samsung Apps"⟩,
  ⟨⟨true, lit "samsungdm"⟩, "telemetry", "high", "Samsung Device Manager"⟩,
  ⟨⟨true, lit "samsungcloudsolution"⟩, "cloud", "medium", "Samsung Cloud Solution"⟩,
  ⟨⟨true, lit "findmymobile"⟩, "remote", "critical", "Find My Mobile (Samsung)"⟩,
  -- Generic vendor patterns
  ⟨⟨true, lit "finddevice"⟩, "remote", "critical", "Find Device Service"⟩,
  ⟨⟨true, lit "sdkconfig.ad"⟩, "ads", "medium", "Ad SDK Config"⟩,
  ⟨⟨true, lit "globalapi.ad"⟩, "ads", "medium", "Global Ad API"⟩,
  ⟨⟨true, lit "globalconnect"⟩, "push", "high", "Global Connect Service"⟩,
  -- Cloud providers (often used for telemetry)
  ⟨⟨true, lit ".aliyuncs.com"⟩, "cloud", "medium", "Alibaba Cloud"⟩,
  ⟨⟨true, lit ".alicdn.com"⟩, "cdn", "low", "Alibaba CDN"⟩,
  ⟨⟨true, lit ".tencent.com"⟩, "cloud", "medium", "Tencent Cloud"⟩,
  ⟨⟨true, lit ".qq.com"⟩, "telemetry", "medium", "Tencent/QQ Services"⟩,
  -- Suspicious generic patterns
  ⟨⟨true, alt (lit "c2.") (alt (lit "cmd.") (lit "command."))⟩, "c2", "critical", "Possible C2 Server"⟩,
  ⟨⟨true, cat [lit "update", star true (any), lit ".cn", eos]⟩, "update", "high", "China Update Server"⟩,
  ⟨⟨true, cat [lit "config", star true (any), lit ".cn", eos]⟩, "config", "high", "China Config Server"⟩,
  ⟨⟨true, cat [lit "api", star true (any), lit ".cn", eos]⟩, "api", "medium", "China API"⟩,
  -- DGA-like patterns (random-looking domains)
  ⟨⟨true, cat [bos, atLeast 20 (cls false [('a', 'z'), ('0', '9')]), chr '.']⟩, "dga", "critical", "Possible DGA Domain"⟩
]

open Regex in
/-- Known legitimate domains to exclude from suspicion. -/
def legitimateDomains : List RegExp := [
  ⟨true, cat [lit "google.com", eos]⟩,
  ⟨true, cat [lit "googleapis.com", eos]⟩,
  ⟨true, cat [lit "gstatic.com", eos]⟩,
  ⟨true, cat [lit "android.com", eos]⟩,
  ⟨true, cat [lit "cloudflare.com", eos]⟩,
  ⟨true, lit "akamai"⟩,
  ⟨true, cat [lit "microsoft.com", eos]⟩,
  ⟨true, cat [lit "windows.com", eos]⟩,
  ⟨true, cat [lit "apple.com", eos]⟩,
  ⟨true, cat [lit "mozilla.", group 1 (alt (lit "org") (lit "com")), eos]⟩
]

/-- An IP-ownership record.  Every field is optional because callers also pass the empty
object `{}`; `none` stands for `undefined`. -/
structure IpInfo where
  range : Option String := none
  owner : Option String := none
  country : Option String := none
  risk : Option String := none
  desc : Option String := none
  deriving Repr, DecidableEq

/-- A row of `knownIpRanges`: all five fields present. -/
def IpInfo.entry (range owner country risk desc : String) : IpInfo :=
  { range := some range, owner := some owner, country := some country,
    risk := some risk, desc := some desc }

/-- Rendering of a possibly undefined string inside a template literal. -/
def templ (v : Option String) : String := v.getD "undefined"

/-- The verdict object returned by `analyzeDomainForC2`; `reason = none` is `null`. -/
structure Verdict where
  isSuspicious : Bool
  reason : Option String
  category : String
  risk : String
  deriving Repr, DecidableEq

/-- The loop over `legitimateDomains`: has some pattern matched. -/
def anyLegit (domain : String) : List RegExp → Bool
  | [] => false
  | legit :: more => if legit.test domain then true else anyLegit domain more

/-- The loop over `suspiciousDomainPatterns`: verdict of the first pattern that matches. -/
def firstSuspicious (domain : String) : List DomainPattern → Option Verdict
  | [] => none
  | pattern :: more =>
    if pattern.pattern.test domain then
      some { isSuspicious := pattern.risk == "high" || pattern.risk == "critical",
             reason := some pattern.desc,
             category := pattern.category,
             risk := pattern.risk }
    else firstSuspicious domain more

/-- `analyzeDomainForC2(domain, ip, ipInfo)`; `ipInfo = none` is a null argument. -/
def analyzeDomainForC2 (domain : String) (_ip : String) (ipInfo : Option IpInfo) : Verdict :=
  -- Skip obviously legitimate domains
  if anyLegit domain legitimateDomains then
    { isSuspicious := false, reason := none, category := "legitimate", risk := "none" }
  else
    -- Check against suspicious patterns
    match firstSuspicious domain suspiciousDomainPatterns with
    | some v => v
    | none =>
      -- Check IP-based suspicion
      match ipInfo.filter (fun info => info.risk == some "high") with
      | some info =>
        { isSuspicious := true,
          reason := some ("Resolves to " ++ templ info.owner ++ " (" ++ templ info.country ++ ")"),
          category := "ip-based", risk := "medium" }
      | none =>
        -- Check for .cn TLD
        if endsWith domain ".cn" then
          { isSuspicious := true, reason := some "Chinese TLD", category := "geo", risk := "medium" }
        else
          { isSuspicious := false, reason := none, category := "unknown", risk := "unknown" }

/-! ## IP classification (`getKnownIpInfo`) -/

/-- Known IP ranges and their owners (for network analysis), in source order. -/
def knownIpRanges : List IpInfo := [
  -- Xiaomi
  IpInfo.entry "110.43." "Xiaomi" "CN" "high" "Xiaomi Cloud Services",
  IpInfo.entry "120.92." "Xiaomi" "CN" "high" "Xiaomi Beijing",
  IpInfo.entry "42.62." "Xiaomi" "CN" "high" "Xiaomi Infrastructure",
  IpInfo.entry "58.83." "Xiaomi" "CN" "high" "Xiaomi Services",
  IpInfo.entry "161.117." "Xiaomi/Alibaba" "SG" "high" "Xiaomi Singapore",
  -- Alibaba Cloud (often used by Xiaomi)
  IpInfo.entry "8.219." "Alibaba Cloud" "SG" "high" "Alibaba Singapore",
  IpInfo.entry "47.236." "Alibaba Cloud" "SG" "high" "Alibaba Singapore",
  IpInfo.entry "47.88." "Alibaba Cloud" "US" "medium" "Alibaba US West",
  IpInfo.entry "47.89." "Alibaba Cloud" "US" "medium" "Alibaba US East",
  IpInfo.entry "47.74." "Alibaba Cloud" "SG" "high" "Alibaba Singapore",
  IpInfo.entry "47.91." "Alibaba Cloud" "DE" "medium" "Alibaba Frankfurt",
  IpInfo.entry "149.129." "Alibaba Cloud" "ID" "medium" "Alibaba Indonesia",
  -- Tencent
  IpInfo.entry "111.161." "Tencent" "CN" "high" "Tencent Cloud",
  IpInfo.entry "203.205." "Tencent" "CN" "high" "Tencent Services",
  IpInfo.entry "183.3." "Tencent" "CN" "high" "Tencent Shenzhen",
  -- Google
  IpInfo.entry "142.250." "Google" "US" "low" "Google Services",
  IpInfo.entry "172.217." "Google" "US" "low" "Google Services",
  IpInfo.entry "216.58." "Google" "US" "low" "Google Services",
  IpInfo.entry "74.125." "Google" "US" "low" "Google Services",
  IpInfo.entry "173.194." "Google" "US" "low" "Google Services",
  IpInfo.entry "209.85." "Google" "US" "low" "Google Services",
  IpInfo.entry "108.177." "Google" "US" "low" "Google Services",
  IpInfo.entry "64.233." "Google" "US" "low" "Google Services",
  -- Facebook/Meta
  IpInfo.entry "157.240." "Meta" "US" "medium" "Facebook/Meta",
  IpInfo.entry "31.13." "Meta" "US" "medium" "Facebook/Meta",
  IpInfo.entry "179.60." "Meta" "US" "medium" "Facebook/Meta",
  -- Microsoft
  IpInfo.entry "13.107." "Microsoft" "US" "low" "Microsoft Azure",
  IpInfo.entry "52." "Microsoft" "US" "low" "Microsoft Azure",
  IpInfo.entry "40." "Microsoft" "US" "low" "Microsoft Azure",
  IpInfo.entry "20." "Microsoft" "US" "low" "Microsoft Azure",
  IpInfo.entry "204.79." "Microsoft" "US" "low" "Microsoft Services",
  -- Amazon AWS
  IpInfo.entry "54." "Amazon AWS" "US" "low" "AWS",
  IpInfo.entry "52." "Amazon AWS" "US" "low" "AWS",
  IpInfo.entry "3." "Amazon AWS" "US" "low" "AWS",
  -- Cloudflare
  IpInfo.entry "104.16." "Cloudflare" "US" "low" "Cloudflare CDN",
  IpInfo.entry "172.67." "Cloudflare" "US" "low" "Cloudflare CDN",
  IpInfo.entry "1.1.1." "Cloudflare" "US" "low" "Cloudflare DNS",
  -- Akamai
  IpInfo.entry "23." "Akamai" "US" "low" "Akamai CDN",
  IpInfo.entry "104." "Akamai" "US" "low" "Akamai CDN",
  -- Local/Private
  IpInfo.entry "127." "Localhost" "LOCAL" "none" "Loopback",
  IpInfo.entry "10." "Private" "LOCAL" "none" "Private Network",
  IpInfo.entry "192.168." "Private" "LOCAL" "none" "Private Network",
  IpInfo.entry "172.16." "Private" "LOCAL" "none" "Private Network",
  IpInfo.entry "172.169." "Private" "LOCAL" "none" "Private Network",
  IpInfo.entry "0.0.0.0" "Any" "LOCAL" "none" "All interfaces"
]

/-- JavaScript white space and line terminators (what `trim` and `parseInt` skip). -/
def isJsWhitespace (c : Char) : Bool :=
  let n := c.toNat
  n == 9 || n == 10 || n == 11 || n == 12 || n == 13 || n == 32 || n == 0xA0 || n == 0x1680 ||
  (decide (0x2000 ≤ n) && decide (n ≤ 0x200A)) || n == 0x2028 || n == 0x2029 || n == 0x202F ||
  n == 0x205F || n == 0x3000 || n == 0xFEFF

/-- Value of a character as a digit in the given radix (10 or 16). -/
def digitValue (radix : Nat) (c : Char) : Option Nat :=
  let n := c.toNat
  if 48 ≤ n ∧ n ≤ 57 then some (n - 48)
  else if radix = 16 ∧ 97 ≤ n ∧ n ≤ 102 then some (n - 87)
  else if radix = 16 ∧ 65 ≤ n ∧ n ≤ 70 then some (n - 55)
  else none

/-- Longest prefix of digits, read as a number; `none` when there is no digit. -/
def readDigits (radix : Nat) : List Char → Option Nat → Option Nat
  | [], acc => acc
  | c :: cs, acc =>
    match digitValue radix c with
    | some d => readDigits radix cs (some (acc.getD 0 * radix + d))
    | none => acc

/-- `parseInt(s)` without a radix argument; `none` is `NaN`.  The value is the exact
integer, which is the JavaScript number whenever it is below `2^53` in magnitude. -/
def parseInt (s : String) : Option Int :=
  let t := s.data.dropWhile isJsWhitespace
  let signed : Bool × List Char :=
    match t with
    | '-' :: r => (true, r)
    | '+' :: r => (false, r)
    | r => (false, r)
  let body : Nat × List Char :=
    match signed.2 with
    | '0' :: 'x' :: r => (16, r)
    | '0' :: 'X' :: r => (16, r)
    | r => (10, r)
  (readDigits body.1 body.2 none).map (fun n => if signed.1 then - (n : Int) else (n : Int))

/-- `s.split(sep)[0]` for a one-character separator: the text before its first occurrence. -/
def firstField (sep : Char) (s : String) : String := String.mk (s.data.takeWhile (fun c => c != sep))

/-- First octets the source treats as a likely Chinese range. -/
def chinaFirstOctets : List Int :=
  [1, 14, 27, 36, 39, 42, 49, 58, 59, 60, 61, 101, 106, 110, 111, 112, 113, 114, 115, 116,
   117, 118, 119, 120, 121, 122, 123, 124, 125, 139, 140, 144, 150, 153, 163, 180, 182, 183,
   202, 203, 210, 211, 218, 219, 220, 221, 222, 223]

/-- The loop `for (const entry of knownIpRanges) if (ip.startsWith(entry.range)) return entry`. -/
def firstRange (ip : String) : List IpInfo → Option IpInfo
  | [] => none
  | entry :: more =>
    if startsWith ip (templ entry.range) then some entry else firstRange ip more

/-- `getKnownIpInfo(ip)`. -/
def getKnownIpInfo (ip : String) : IpInfo :=
  if ip = "" ∨ ip = "*" ∨ ip = "::" then
    { owner := some "Any", country := some "LOCAL", risk := some "none",
      desc := some "Listening on all interfaces" }
  else
    match firstRange ip knownIpRanges with
    | some entry => entry
    | none =>
      -- Check if it's a Chinese IP range (common pattern)
      let firstOctet := parseInt (firstField '.' ip)
      if (match firstOctet with | some n => chinaFirstOctets.contains n | none => false) then
        { owner := some "Unknown (China range)", country := some "CN", risk := some "medium",
          desc := some "Likely Chinese IP" }
      else
        { owner := some "Unknown", country := some "??", risk := some "unknown",
          desc := some "Not in database" }

/-! ## Package criticality (`packageDependencies`) -/

/-- A value of the `criticalDependencies` object.  Fields are optional: `impact` is absent
from some rows, and a property inherited from `Object.prototype` has none of them. -/
structure DepInfo where
  description : Option String := none
  dependents : Option (List String) := none
  safeToRemove : Option Bool := none
  impact : Option String := none
  deriving Repr, DecidableEq

/-- Known critical dependencies map for Xiaomi/Android system. -/
def criticalDependencies : List (String × DepInfo) := [
  ("com.google.android.gms",
    { description := some "Google Play Services - Core for Google APIs",
      dependents := some ["Most Google apps", "Apps using Google Sign-In", "Apps using FCM push", "Apps using Google Maps"],
      safeToRemove := some false, impact := none }),
  ("com.google.android.gsf",
    { description := some "Google Services Framework - Core for Play Store",
      dependents := some ["Google Play Store", "Google Play Services", "All Google apps"],
      safeToRemove := some false, impact := none }),
  ("com.xiaomi.xmsf",
    { description := some "Xiaomi Service Framework - Push notifications",
      dependents := some ["MIUI apps using push notifications", "Mi Cloud", "Find Device"],
      safeToRemove := some true, impact := some "Push notifications for Xiaomi apps may stop working" }),
  ("com.miui.securitycenter",
    { description := some "MIUI Security Center - Core security features",
      dependents := some ["Permission manager", "Battery saver", "Cleaner", "App lock"],
      safeToRemove := some false, impact := some "Many MIUI features will break" }),
  ("com.lbe.security.miui",
    { description := some "Permission/Privacy manager",
      dependents := some ["Security Center", "Permission popups"],
      safeToRemove := some false, impact := some "Permission management will break" }),
  ("com.miui.daemon",
    { description := some "MIUI background service daemon",
      dependents := some ["Various MIUI system features", "Push service"],
      safeToRemove := some true, impact := some "Some MIUI background features may stop" }),
  ("com.xiaomi.finddevice",
    { description := some "Find Device / Remote lock/wipe",
      dependents := some [],
      safeToRemove := some true, impact := some "Cannot remotely locate/lock/wipe device" }),
  ("com.miui.cloudservice",
    { description := some "Mi Cloud sync service",
      dependents := some ["Cloud backup", "Photo sync", "Contact sync"],
      safeToRemove := some true, impact := some "Mi Cloud features will stop" }),
  ("com.miui.analytics",
    { description := some "MIUI telemetry/analytics",
      dependents := some [],
      safeToRemove := some true, impact := some "None - just stops sending data to Xiaomi" }),
  ("com.miui.msa.global",
    { description := some "MIUI System Ads",
      dependents := some [],
      safeToRemove := some true, impact := some "Ads in MIUI apps will stop" }),
  ("com.xiaomi.account",
    { description := some "Mi Account service",
      dependents := some ["Mi Cloud", "Find Device", "Mi Store purchases", "Theme store"],
      safeToRemove := some true, impact := some "Mi Account features will not work" }),
  ("com.miui.home",
    { description := some "MIUI Launcher",
      dependents := some ["Home screen", "App drawer", "Widgets"],
      safeToRemove := some false, impact := some "No home screen - must install alternative first!" }),
  ("com.miui.powerkeeper",
    { description := some "Battery/Power management",
      dependents := some ["Battery optimization", "App standby"],
      safeToRemove := some true, impact := some "Battery optimization features will use AOSP defaults" }),
  ("com.miui.guardprovider",
    { description := some "Antivirus/Guard service",
      dependents := some ["Security Center antivirus"],
      safeToRemove := some true, impact := some "Built-in antivirus will stop" })
]

/-- Property names every object literal inherits from `Object.prototype`; each holds a
truthy value that has none of the fields of a table row. -/
def objectPrototypeKeys : List String :=
  ["constructor", "__defineGetter__", "__defineSetter__", "hasOwnProperty",
   "__lookupGetter__", "__lookupSetter__", "isPrototypeOf", "propertyIsEnumerable",
   "toString", "valueOf", "__proto__", "toLocaleString"]

/-- Own-property lookup in a table written as an object literal. -/
def ownLookup {α : Type} (key : String) : List (String × α) → Option α
  | [] => none
  | (k, v) :: more => if k = key then some v else ownLookup key more

/-- `criticalDependencies[pkg] || null`: an own row, else a value inherited from
`Object.prototype` (a truthy object without any field of a row), else `null`. -/
def packageDependencies.knownInfo (pkg : String) : Option DepInfo :=
  match ownLookup pkg criticalDependencies with
  | some row => some row
  | none => if objectPrototypeKeys.contains pkg then some {} else none

/-- `a || b` on possibly undefined strings: `a` when it is a non-empty string. -/
def orElse (a b : Option String) : Option String :=
  match a with
  | some v => if v = "" then b else some v
  | none => b

/-- The pair `(safetyLevel, safetyReason)` computed by `packageDependencies` for `pkg`
(the block "Determine overall safety"); a reason `none` is `undefined`. -/
def packageDependencies.safety (pkg : String) : String × Option String :=
  match packageDependencies.knownInfo pkg with
  | some knownInfo =>
    (if knownInfo.safeToRemove = some true then "safe" else "dangerous",
     orElse knownInfo.impact knownInfo.description)
  | none =>
    if includes pkg "google.android" then
      ("caution", some "Google system package - may affect Google services")
    else if includes pkg "miui" || includes pkg "xiaomi" then
      ("caution", some "Xiaomi system package - may affect MIUI features")
    else if includes pkg "android." && !includes pkg "com.android." then
      ("dangerous", some "Core Android system package")
    else
      ("unknown", some "No dependency information available for this package")

/-- The variable `safetyLevel` of `packageDependencies`. -/
def packageDependencies.safetyLevel (pkg : String) : String := (packageDependencies.safety pkg).1

/-- The variable `safetyReason` of `packageDependencies`. -/
def packageDependencies.safetyReason (pkg : String) : Option String :=
  (packageDependencies.safety pkg).2

/-! ## Address parsing (`parseAddress` inside `netstat`) -/

open Regex in
/-- The literal `/::ffff:(\d+\.\d+\.\d+\.\d+):(\d+)/i`. -/
def reIpv6Mapped : RegExp :=
  ⟨true, cat [lit "::ffff:", group 1 (cat [plus (digit), chr '.', plus (digit), chr '.', plus (digit), chr '.', plus (digit)]), chr ':', group 2 (plus (digit))]⟩

open Regex in
/-- The literal `/(\d+\.\d+\.\d+\.\d+):(\d+)/`. -/
def reIpv4 : RegExp :=
  ⟨false, cat [group 1 (cat [plus (digit), chr '.', plus (digit), chr '.', plus (digit), chr '.', plus (digit)]), chr ':', group 2 (plus (digit))]⟩

open Regex in
/-- The literal `/\[([^\]]+)\]:(\d+)/`. -/
def reIpv6Bracket : RegExp :=
  ⟨false, cat [chr '[', group 1 (plus (cls true [(']', ']')])), lit "]:", group 2 (plus (digit))]⟩

/-- The object `{ ip, port }`; a field `none` is `undefined`. -/
structure Endpoint where
  ip : Option String
  port : Option String
  deriving Repr, DecidableEq

/-- Index of the last occurrence of `c`, scanning from index `i`; `best` is the answer so far. -/
def lastIndexFrom (c : Char) : List Char → Nat → Int → Int
  | [], _, best => best
  | d :: ds, i, best => lastIndexFrom c ds (i + 1) (if d = c then (i : Int) else best)

/-- `s.lastIndexOf(c)` for a one-character needle; `-1` when absent. -/
def lastIndexOf (s : String) (c : Char) : Int := lastIndexFrom c s.data 0 (-1)

/-- `s.substring(i, j)` for `i ≤ j`. -/
def substring (s : String) (i j : Nat) : String := String.mk ((s.data.take j).drop i)

/-- `s.substring(i)`. -/
def substringFrom (s : String) (i : Nat) : String := String.mk (s.data.drop i)

/-- `parseAddress(addr)`. -/
def parseAddress (addr : String) : Endpoint :=
  if addr = "" then { ip := some "", port := some "" }
  else
    -- Handle IPv6-mapped IPv4: ::ffff:1.2.3.4:port
    match reIpv6Mapped.exec addr with
    | some ipv6MappedMatch => { ip := ipv6MappedMatch.cap 1, port := ipv6MappedMatch.cap 2 }
    | none =>
      -- Handle pure IPv4: 1.2.3.4:port
      match reIpv4.exec addr with
      | some ipv4Match => { ip := ipv4Match.cap 1, port := ipv4Match.cap 2 }
      | none =>
        -- Handle IPv6 with brackets: [::1]:port
        match reIpv6Bracket.exec addr with
        | some ipv6BracketMatch => { ip := ipv6BracketMatch.cap 1, port := ipv6BracketMatch.cap 2 }
        | none =>
          -- Fallback: last colon separates port
          let lastColon := lastIndexOf addr ':'
          if lastColon > 0 then
            { ip := some (substring addr 0 lastColon.toNat),
              port := some (substringFrom addr (lastColon.toNat + 1)) }
          else { ip := some addr, port := some "" }

/-! ## CPU cluster labelling (`cpuInfo`) -/

/-- A per-core record of `cpuInfo`. -/
structure Core where
  id : Nat
  name : String
  cluster : String
  clusterName : String
  usage : Int
  userPct : Int
  systemPct : Int
  iowaitPct : Int
  frequency : Int
  maxFrequency : Int
  minFrequency : Int
  deriving Repr, DecidableEq

/-- Round to the nearest integer, ties to the even one. -/
def roundHalfEven (x : ℚ) : ℤ :=
  if x - ⌊x⌋ < 1 / 2 then ⌊x⌋
  else if 1 / 2 < x - ⌊x⌋ then ⌊x⌋ + 1
  else if ⌊x⌋ % 2 = 0 then ⌊x⌋ else ⌊x⌋ + 1

/-- Scale `y * 2^e` by powers of two until the magnitude of `y` lies in `[2^52, 2^53)`. -/
def scaleToMantissa : Nat → ℚ → ℤ → ℚ × ℤ
  | 0, y, e => (y, e)
  | fuel + 1, y, e =>
    if |y| < 2 ^ 52 then scaleToMantissa fuel (y * 2) (e - 1)
    else if 2 ^ 53 ≤ |y| then scaleToMantissa fuel (y / 2) (e + 1)
    else (y, e)

/-- The IEEE-754 binary64 number nearest to `x`, ties to even: what a JavaScript
arithmetic operation returns when its exact result is `x`.  Outside the normal range
(magnitude below `2^-1022`, or `2^1024` and more) `x` is returned as it is; the operations
embedded here do not leave that range on numbers of fewer than 300 digits. -/
def fl64 (x : ℚ) : ℚ :=
  let m := scaleToMantissa 2200 x 0
  if x ≠ 0 ∧ 2 ^ 52 ≤ |m.1| ∧ |m.1| < 2 ^ 53 ∧ -1074 ≤ m.2 ∧ m.2 ≤ 971 then
    (roundHalfEven m.1 : ℚ) * 2 ^ m.2
  else x

/-- `Math.round(x)`: the nearest integer, ties upwards. -/
def Math.round (x : ℚ) : ℤ := ⌊x + 1 / 2⌋

/-- The JavaScript number that stands for the integer `z`: the nearest double, itself an
integer.  It is `z` for a magnitude up to `2^53`. -/
def toNumber (z : Int) : Int := ⌊fl64 (z : ℚ)⌋

/-- `a + b` on integer-valued numbers. -/
def addNumber (a b : Int) : Int := toNumber (a + b)

/-- `Math.round(x / d)` for integer-valued numbers `x` and `d`, `d` not zero: the quotient
is rounded to the nearest double before `Math.round` is applied (ties go up). -/
def roundDiv (x : Int) (d : Int) : Int := Math.round (fl64 ((x : ℚ) / (d : ℚ)))

/-- `Math.round(maxFreq / 100000) * 100000`, the product rounded to the nearest double. -/
def freqBucket (core : Core) : Int := toNumber (roundDiv core.maxFrequency 100000 * 100000)

/-- `Math.round(core.maxFrequency / 1000)`. -/
def maxMHz (core : Core) : Int := roundDiv core.maxFrequency 1000

/-- The object `freqGroups`: for each bucket, the cores filed under it.  Cores are
referred to by their position in the array `cores`, since the object holds references
to the very records of that array. -/
abbrev FreqGroups := List (Int × List Nat)

/-- `if (!freqGroups[b]) freqGroups[b] = []; freqGroups[b].push(core)`. -/
def addToGroup (b : Int) (i : Nat) : FreqGroups → FreqGroups
  | [] => [(b, [i])]
  | (k, members) :: more =>
    if k = b then (k, members ++ [i]) :: more else (k, members) :: addToGroup b i more

/-- The loop `cores.forEach(core => ...)` that fills `freqGroups`; `i` is the position of
the first core of the list. -/
def collectGroups : Nat → List Core → FreqGroups → FreqGroups
  | _, [], groups => groups
  | i, core :: more, groups => collectGroups (i + 1) more (addToGroup (freqBucket core) i groups)

/-- `freqGroups[freq]`. -/
def groupOf (freq : Int) : FreqGroups → List Nat
  | [] => []
  | (k, members) :: more => if k = freq then members else groupOf freq more

/-- `Object.keys(freqGroups).map(Number).sort((a, b) => a - b)`. -/
def sortedFreqsOf (groups : FreqGroups) : List Int :=
  (groups.map Prod.fst).insertionSort (fun a b => a ≤ b)

/-- Body of the inner `forEach` of the multi-cluster branch. -/
def setTier (isEfficiency : Bool) (core : Core) : Core :=
  { core with
    cluster := if isEfficiency then "efficiency" else "performance",
    clusterName :=
      if isEfficiency then "Efficiency (" ++ toString (maxMHz core) ++ " MHz max)"
      else "Performance (" ++ toString (maxMHz core) ++ " MHz max)" }

/-- Body of the `forEach` of the single-cluster branch. -/
def setStandard (core : Core) : Core :=
  { core with
    cluster := "standard",
    clusterName :=
      if maxMHz core > 0 then "Standard (" ++ toString (maxMHz core) ++ " MHz max)"
      else "Standard" }

/-- `freqGroups[freq].forEach(core => ...)`: relabel the listed cores in place. -/
def labelGroup (isEfficiency : Bool) : List Nat → List Core → List Core
  | [], cores => cores
  | i :: more, cores => labelGroup isEfficiency more (cores.modify (setTier isEfficiency) i)

/-- `sortedFreqs.forEach((freq, idx) => ...)`, from index `idx` on. -/
def labelLoop (groups : FreqGroups) (midpoint : Nat) : Nat → List Int → List Core → List Core
  | _, [], cores => cores
  | idx, freq :: more, cores =>
    labelLoop groups midpoint (idx + 1) more
      (labelGroup (decide (idx < midpoint)) (groupOf freq groups) cores)

/-- The array `sortedFreqs` computed from the cores. -/
def sortedFreqs (cores : List Core) : List Int := sortedFreqsOf (collectGroups 0 cores [])

/-- The block "Dynamically determine clusters based on max frequency": the array `cores`
after the cluster names have been assigned. -/
def assignClusters (cores : List Core) : List Core :=
  let freqGroups := collectGroups 0 cores []
  let sortedFreqs := sortedFreqsOf freqGroups
  if sortedFreqs.length ≥ 2 then
    -- Multi-cluster CPU (big.LITTLE or similar)
    let midpoint := sortedFreqs.length / 2
    labelLoop freqGroups midpoint 0 sortedFreqs cores
  else
    -- Single cluster CPU (all cores same speed)
    cores.map setStandard

/-- An entry of `clusterInfo`. -/
structure ClusterSummary where
  name : String
  cores : List Nat
  avgUsage : Int
  maxFreqMHz : Int
  deriving Repr, DecidableEq

/-- The object `clusterInfo`; an absent key is `none`. -/
structure ClusterInfo where
  efficiency : Option ClusterSummary
  performance : Option ClusterSummary
  standard : Option ClusterSummary
  deriving Repr, DecidableEq

/-- Average usage of a cluster, `0` for an empty one. -/
def clusterAvg (cluster : List Core) : Int :=
  if cluster.length > 0 then
    roundDiv ((cluster.map (fun c => c.usage)).foldl (fun sum u => addNumber sum u) 0)
      cluster.length
  else 0

/-- One entry of `clusterInfo`, present when the cluster has a core. -/
def summarize (fallback : String) (cluster : List Core) : Option ClusterSummary :=
  match cluster with
  | [] => none
  | first :: _ =>
    some { name := if first.clusterName = "" then fallback else first.clusterName,
           cores := cluster.map (fun c => c.id),
           avgUsage := clusterAvg cluster,
           maxFreqMHz := roundDiv first.maxFrequency 1000 }

/-- The block "Build dynamic cluster info", from the labelled cores. -/
def clusterInfoOf (cores : List Core) : ClusterInfo :=
  { efficiency := summarize "Efficiency" (cores.filter (fun c => c.cluster == "efficiency")),
    performance := summarize "Performance" (cores.filter (fun c => c.cluster == "performance")),
    standard := summarize "Standard" (cores.filter (fun c => c.cluster == "standard")) }

/-! ## Aggregate scan (`fullScan`) -/

/-- A value thrown by a sub-scan (a rejection of its promise): an object whose `message`
may be undefined. -/
structure Thrown where
  message : Option String
  deriving Repr, DecidableEq

/-- Outcome of a sub-scan: the value it resolves to, or what it throws. -/
abbrev Outcome (α : Type) := Except Thrown α

/-- What `deviceInfo` resolves to. -/
inductive DeviceReport where
  | info (model android build serial manufacturer brand vendorUI vendorUIVersion : String)
  | error (message : Option String)
  deriving Repr, DecidableEq

/-- A record of `listPackages`. -/
structure PackageRecord where
  path : Option String
  pkg : String
  displayName : String
  deriving Repr, DecidableEq

/-- What `listPackages` resolves to. -/
structure PackageList where
  packages : List PackageRecord
  count : Nat
  deriving Repr, DecidableEq

/-- What `getPortInfo` returns; fields are optional for the same reason as in `DepInfo`. -/
structure PortInfo where
  service : Option String := none
  risk : Option String := none
  desc : Option String := none
  deriving Repr, DecidableEq

/-- A record of `netstat`. -/
structure Connection where
  proto : String
  «local» : String
  localIp : Option String
  localPort : Option String
  remote : String
  remoteIp : Option String
  remotePort : Option String
  state : Option String
  raw : String
  ipInfo : IpInfo
  portInfo : PortInfo
  deriving Repr, DecidableEq

/-- What `netstat` resolves to (`raw` is absent from the initial default). -/
structure NetstatResult where
  connections : List Connection
  raw : Option String
  deriving Repr, DecidableEq

/-- What `processes` resolves to, for process records of type `P`. -/
structure ProcessList (P : Type) where
  processes : List P
  count : Nat
  deriving Repr

/-- The `packages` part of the scan report. -/
structure PackagesSection where
  total : Nat
  disabled : Nat
  xiaomi : Nat
  list : List PackageRecord
  deriving Repr, DecidableEq

/-- The `network` part of the scan report. -/
structure NetworkSection where
  connections : List Connection
  suspicious : List Connection
  deriving Repr, DecidableEq

/-- The `processes` part of the scan report. -/
structure ProcessesSection (P : Type) where
  count : Nat
  list : List P
  deriving Repr

/-- The report returned by `fullScan`. -/
structure ScanReport (P : Type) where
  device : DeviceReport
  packages : PackagesSection
  network : NetworkSection
  processes : ProcessesSection P
  deriving Repr

/-- `promise.catch(handler)`: the resolved value, or the handler applied to what was thrown. -/
def catchWith {α : Type} (p : Outcome α) (handler : Thrown → α) : α :=
  match p with
  | .ok v => v
  | .error err => handler err

/-- `fullScan()`, as a function of the outcomes of its five sub-scans. -/
def fullScan {P : Type} (deviceInfoR : Outcome DeviceReport) (listAllR : Outcome PackageList)
    (listDisabledR : Outcome PackageList) (netstatR : Outcome NetstatResult)
    (processesR : Outcome (ProcessList P)) : ScanReport P :=
  -- Run all scans with error handling for each
  let deviceInfo := catchWith deviceInfoR (fun err => DeviceReport.error err.message)
  let allPackages := catchWith listAllR (fun _ => { packages := [], count := 0 })
  let disabledPackages := catchWith listDisabledR (fun _ => { packages := [], count := 0 })
  let network := catchWith netstatR (fun _ => { connections := [], raw := some "" })
  let processes := catchWith processesR (fun _ => { processes := [], count := 0 })
  -- Count Xiaomi packages
  let xiaomiPackages := allPackages.packages.filter (fun p =>
    includes p.pkg "xiaomi" || includes p.pkg "miui" || includes p.pkg "mi.")
  -- Analyze connections for suspicious IPs
  let suspiciousConnections := network.connections.filter (fun c =>
    includes c.remote "5222" || includes c.remote "161.117" ||
    includes c.remote "8.219" || includes c.remote "47.236")
  { device := deviceInfo,
    packages := { total := allPackages.count, disabled := disabledPackages.count,
                  xiaomi := xiaomiPackages.length, list := allPackages.packages },
    network := { connections := network.connections, suspicious := suspiciousConnections },
    processes := { count := processes.count, list := processes.processes.take 50 } }

/-! ## Text conditions used in the statements -/

/-- Case-insensitive (or exact) agreement of a literal with the start of the text. -/
def litPrefix (ic : Bool) : List Char → List Char → Bool
  | [], _ => true
  | _ :: _, [] => false
  | p :: ps, c :: cs => chrEq ic p c && litPrefix ic ps cs

/-- The text `s` ends with `t`, ASCII letter case ignored. -/
def endsWithCI (s t : String) : Bool := (t.data.map canon).isSuffixOf (s.data.map canon)

/-- The text `s` contains `t`, ASCII letter case ignored. -/
def includesCI (s t : String) : Bool := includesList (t.data.map canon) (s.data.map canon)

/-- The allow-list in words: the ten entries of `legitimateDomains` as text conditions. -/
def allowListed (domain : String) : Bool :=
  endsWithCI domain "google.com" || endsWithCI domain "googleapis.com" ||
  endsWithCI domain "gstatic.com" || endsWithCI domain "android.com" ||
  endsWithCI domain "cloudflare.com" || includesCI domain "akamai" ||
  endsWithCI domain "microsoft.com" || endsWithCI domain "windows.com" ||
  endsWithCI domain "apple.com" || endsWithCI domain "mozilla.org" ||
  endsWithCI domain "mozilla.com"

/-- A decimal digit `0`..`9`. -/
def isDigitChar (c : Char) : Bool := decide (48 ≤ c.toNat) && decide (c.toNat ≤ 57)

/-- A non-empty string of decimal digits. -/
def isDigits (s : String) : Bool := !s.data.isEmpty && s.data.all isDigitChar

/-- A hexadecimal digit or a colon. -/
def isHexColonChar (c : Char) : Bool :=
  isDigitChar c || (decide (97 ≤ c.toNat) && decide (c.toNat ≤ 102)) ||
  (decide (65 ≤ c.toNat) && decide (c.toNat ≤ 70)) || c == ':'

/-- A non-empty string of hexadecimal digits and colons. -/
def isHexColons (s : String) : Bool := !s.data.isEmpty && s.data.all isHexColonChar

/-- The rendering `a.b.c.d`. -/
def dottedQuad (a b c d : String) : String := a ++ "." ++ b ++ "." ++ c ++ "." ++ d

/-- The body `\d+\.\d+\.\d+\.\d+` of the address patterns. -/
def quadBody : Regex :=
  Regex.cat [Regex.plus Regex.digit, Regex.chr '.', Regex.plus Regex.digit, Regex.chr '.',
    Regex.plus Regex.digit, Regex.chr '.', Regex.plus Regex.digit]

/-- A pattern form of an address: the two captures of the leftmost match of `re`. -/
def patternForm (re : RegExp) (addr : String) : Option Endpoint :=
  (re.exec addr).map (fun m => { ip := m.cap 1, port := m.cap 2 })

/-- The last-colon fallback form; it applies when the last colon is past index 0. -/
def lastColonForm (addr : String) : Option Endpoint :=
  let lastColon := lastIndexOf addr ':'
  if lastColon > 0 then
    some { ip := some (substring addr 0 lastColon.toNat),
           port := some (substringFrom addr (lastColon.toNat + 1)) }
  else none

/-- Try the forms in the given order and return the first that matches. -/
def firstForm : List (String → Option Endpoint) → String → Option Endpoint
  | [], _ => none
  | form :: more, addr =>
    match form addr with
    | some e => some e
    | none => firstForm more addr

/-- The parser described by a priority order of forms; an address of no form is returned
whole, with an empty port. -/
def parseAddressBy (order : List (String → Option Endpoint)) (addr : String) : Endpoint :=
  (firstForm order addr).getD { ip := some addr, port := some "" }

/-- The priority order as the specification words it: IPv4 literal, IPv6-mapped IPv4,
bracketed IPv6, last colon. -/
def specOrder : List (String → Option Endpoint) :=
  [patternForm reIpv4, patternForm reIpv6Mapped, patternForm reIpv6Bracket, lastColonForm]

/-- The priority order of the source: IPv6-mapped IPv4, IPv4 literal, bracketed IPv6,
last colon. -/
def sourceOrder : List (String → Option Endpoint) :=
  [patternForm reIpv6Mapped, patternForm reIpv4, patternForm reIpv6Bracket, lastColonForm]

/-- Positions, counted from `i`, of the cores of a list whose bucket is `f`. -/
def positionsOf (f : Int) : Nat → List Core → List Nat
  | _, [] => []
  | i, core :: more =>
    (if freqBucket core = f then [i] else []) ++ positionsOf f (i + 1) more

/-- The eight cores of the example: ids 0..3 at 1800000, ids 4..7 at 2800000. -/
def exampleCores : List Core :=
  (List.range 8).map (fun i =>
    { id := i, name := "Core " ++ toString i, cluster := "unknown", clusterName := "Unknown",
      usage := 0, userPct := 0, systemPct := 0, iowaitPct := 0, frequency := 0,
      maxFrequency := if i < 4 then 1800000 else 2800000, minFrequency := 0 })

/-! ## Port classification (`getPortInfo`) -/

/-- Known suspicious ports: the object `suspiciousPorts`, keyed by port string. -/
def suspiciousPorts : List (String × PortInfo) := [
  ("5222", { service := some "XMPP/Xiaomi Push", risk := some "high",
             desc := some "Xiaomi push notification service" }),
  ("5223", { service := some "XMPP-SSL", risk := some "high",
             desc := some "Encrypted push service" }),
  ("443", { service := some "HTTPS", risk := some "low",
            desc := some "Standard secure web traffic" }),
  ("80", { service := some "HTTP", risk := some "medium",
           desc := some "Unencrypted web traffic" }),
  ("8080", { service := some "HTTP-Alt", risk := some "medium",
             desc := some "Alternative HTTP" }),
  ("53", { service := some "DNS", risk := some "low", desc := some "DNS queries" }),
  ("853", { service := some "DNS-TLS", risk := some "low", desc := some "Encrypted DNS" }),
  ("1883", { service := some "MQTT", risk := some "high",
             desc := some "IoT messaging protocol" }),
  ("8883", { service := some "MQTT-SSL", risk := some "medium",
             desc := some "Secure IoT messaging" })
]

/-- The fallback object of `getPortInfo`. -/
def unknownPort : PortInfo :=
  { service := some "Unknown", risk := some "unknown", desc := some "" }

/-- `getPortInfo(port)`, that is `suspiciousPorts[port] || {...}`.  The property read finds
an own row, else a value inherited from `Object.prototype` (truthy, with none of the
fields of a row), else `undefined`, for which the fallback object is returned. -/
def getPortInfo (port : String) : PortInfo :=
  match ownLookup port suspiciousPorts with
  | some row => row
  | none => if objectPrototypeKeys.contains port then {} else unknownPort

/-! ## Severity scale of the specification -/

/-- The graded severities in ascending order: none, low, medium, high, critical. -/
def severityScale : List String := ["none", "low", "medium", "high", "critical"]

/-- Rank of a severity on the scale; a value outside the scale has no rank. -/
def severityRank (risk : String) : Option Nat :=
  if risk ∈ severityScale then some (severityScale.indexOf risk) else none

/-- The order `none < low < medium < high < critical` on risk values. -/
def severityLt (a b : String) : Prop :=
  ∃ i j, severityRank a = some i ∧ severityRank b = some j ∧ i < j

/-! ## Command executor (`adb`) -/

/-- `s.trim()`: white space and line terminators removed at both ends. -/
def trim (s : String) : String :=
  String.mk ((s.data.dropWhile isJsWhitespace).reverse.dropWhile isJsWhitespace).reverse

/-- The error object handed to the callback of `exec`. -/
structure ExecError where
  message : String
  deriving Repr, DecidableEq

/-- What `adb` resolves to. -/
structure AdbOutput where
  stdout : String
  stderr : String
  deriving Repr, DecidableEq

/-- What `adb` rejects with. -/
structure AdbRejection where
  error : String
  stderr : String
  deriving Repr, DecidableEq

/-- `adb(command)`: how its promise settles, as a function of the outcome
`(error, stdout, stderr)` of the bridge invocation (`error = none` is `null`).  The command
selects the invocation only; the reconnect attempt and the logging that precede the
invocation do not touch the settled value. -/
def adb (error : Option ExecError) (stdout stderr : String) : Except AdbRejection AdbOutput :=
  match error with
  | some err =>
    if stdout = "" then .error { error := err.message, stderr := stderr }
    else .ok { stdout := trim stdout, stderr := trim stderr }
  | none => .ok { stdout := trim stdout, stderr := trim stderr }

/-! ## Session check (`isDeviceConnected`) -/

/-- `s.split(sep)` for a separator given as a character test: the pieces between
separator characters (empty pieces included). -/
def splitBy (p : Char → Bool) : List Char → List (List Char)
  | [] => [[]]
  | c :: cs =>
    if p c then [] :: splitBy p cs
    else
      match splitBy p cs with
      | [] => [[c]]
      | w :: ws => (c :: w) :: ws

/-- `s.split('\n')`. -/
def lines (s : String) : List String := (splitBy (fun c => c == '\n') s.data).map String.mk

/-- The resolved value of `isDeviceConnected()` (as a truth value), given the active
identifier and the standard output of the `devices` invocation. -/
def isDeviceConnected (DEVICE_ID : String) (stdout : String) : Bool :=
  stdout != "" && includes stdout DEVICE_ID && !includes stdout "offline"

/-- White-space separated fields of a line of the device list. -/
def deviceFields (line : String) : List String :=
  ((splitBy isJsWhitespace line.data).filter (fun w => !w.isEmpty)).map String.mk

/-- The condition in the words of the specification: the device list has a line whose
identifier (first field) is the active one and whose state (second field) is not
`offline`. -/
def listedNotOffline (DEVICE_ID : String) (stdout : String) : Bool :=
  (lines stdout).any (fun line =>
    match deviceFields line with
    | serial :: state :: _ => serial == DEVICE_ID && state != "offline"
    | _ => false)

/-! ## Activity log (`log`, `getLog`) -/

/-- An entry of `activityLog`. -/
structure LogEntry where
  time : String
  message : String
  type : String
  command : Option String
  deriving Repr, DecidableEq

/-- `log(message, type, command)` at clock reading `time`: the entry and the log after
the push. -/
def log (activityLog : List LogEntry) (time message type : String) (command : Option String) :
    LogEntry × List LogEntry :=
  let entry : LogEntry := { time := time, message := message, type := type, command := command }
  (entry, activityLog ++ [entry])

/-- A sequence of `log` calls, each given as the entry it builds. -/
def logAll : List LogEntry → List LogEntry → List LogEntry
  | [], activityLog => activityLog
  | call :: more, activityLog =>
    logAll more (log activityLog call.time call.message call.type call.command).2

/-- The list returned by `getLog()`: `activityLog.slice(-100)`. -/
def getLog (activityLog : List LogEntry) : List LogEntry :=
  activityLog.drop (activityLog.length - 100)

/-! ## The classification functions with their mutable surroundings made explicit -/

/-- A regular-expression object at run time: the literal it was created from, its
`global` and `sticky` flags, and the mutable property `lastIndex`. -/
structure RegExpObject where
  literal : RegExp
  global : Bool
  sticky : Bool
  lastIndex : Nat
  deriving Repr, DecidableEq

/-- The object a literal without `g` and `y` flags evaluates to. -/
def RegExpObject.ofLiteral (re : RegExp) : RegExpObject :=
  { literal := re, global := false, sticky := false, lastIndex := 0 }

/-- `re.test(s)` on an object, with the `lastIndex` protocol of the language: the search
starts at `lastIndex` only under `g` or `y`, and only then is `lastIndex` written back. -/
def RegExpObject.test (o : RegExpObject) (s : String) : Bool × RegExpObject :=
  let useLast := o.global || o.sticky
  let start := if useLast then o.lastIndex else 0
  if start > s.data.length then
    (false, if useLast then { o with lastIndex := 0 } else o)
  else
    let found :=
      if o.sticky then matchAt o.literal.ignoreCase o.literal.pattern start (s.data.drop start)
      else searchFrom o.literal.ignoreCase o.literal.pattern start (s.data.drop start)
    match found with
    | some m => (true, if useLast then { o with lastIndex := m.index + m.matched.length } else o)
    | none => (false, if useLast then { o with lastIndex := 0 } else o)

/-- An entry of `suspiciousDomainPatterns` at run time. -/
structure DomainPatternObject where
  pattern : RegExpObject
  category : String
  risk : String
  desc : String
  deriving Repr, DecidableEq

/-- The module-level data the classification functions read: the rule tables, with the
regular-expression objects they hold. -/
structure ClassifierState where
  legitimateDomains : List RegExpObject
  suspiciousDomainPatterns : List DomainPatternObject
  knownIpRanges : List IpInfo
  suspiciousPorts : List (String × PortInfo)
  deriving Repr, DecidableEq

/-- The tables as the module creates them. -/
def initialState : ClassifierState :=
  { legitimateDomains := legitimateDomains.map RegExpObject.ofLiteral,
    suspiciousDomainPatterns := suspiciousDomainPatterns.map (fun p =>
      { pattern := RegExpObject.ofLiteral p.pattern, category := p.category, risk := p.risk,
        desc := p.desc }),
    knownIpRanges := knownIpRanges,
    suspiciousPorts := suspiciousPorts }

/-- The allow-list loop on objects: the answer and the objects after the tests. -/
def anyLegitIn (domain : String) : List RegExpObject → Bool × List RegExpObject
  | [] => (false, [])
  | legit :: more =>
    let tested := legit.test domain
    if tested.1 then (true, tested.2 :: more)
    else
      let rest := anyLegitIn domain more
      (rest.1, tested.2 :: rest.2)

/-- The suspicious-pattern loop on objects. -/
def firstSuspiciousIn (domain : String) :
    List DomainPatternObject → Option Verdict × List DomainPatternObject
  | [] => (none, [])
  | pattern :: more =>
    let tested := pattern.pattern.test domain
    if tested.1 then
      (some { isSuspicious := pattern.risk == "high" || pattern.risk == "critical",
              reason := some pattern.desc,
              category := pattern.category,
              risk := pattern.risk },
       { pattern with pattern := tested.2 } :: more)
    else
      let rest := firstSuspiciousIn domain more
      (rest.1, { pattern with pattern := tested.2 } :: rest.2)

/-- `analyzeDomainForC2` reading its tables from the state and returning the state it
leaves behind. -/
def analyzeDomainForC2In (st : ClassifierState) (domain : String) (_ip : String)
    (ipInfo : Option IpInfo) : Verdict × ClassifierState :=
  let legit := anyLegitIn domain st.legitimateDomains
  let st1 := { st with legitimateDomains := legit.2 }
  if legit.1 then
    ({ isSuspicious := false, reason := none, category := "legitimate", risk := "none" }, st1)
  else
    let susp := firstSuspiciousIn domain st1.suspiciousDomainPatterns
    let st2 := { st1 with suspiciousDomainPatterns := susp.2 }
    match susp.1 with
    | some v => (v, st2)
    | none =>
      match ipInfo.filter (fun info => info.risk == some "high") with
      | some info =>
        ({ isSuspicious := true,
           reason := some ("Resolves to " ++ templ info.owner ++ " (" ++ templ info.country ++ ")"),
           category := "ip-based", risk := "medium" }, st2)
      | none =>
        if endsWith domain ".cn" then
          ({ isSuspicious := true, reason := some "Chinese TLD", category := "geo",
             risk := "medium" }, st2)
        else
          ({ isSuspicious := false, reason := none, category := "unknown", risk := "unknown" },
           st2)

/-- `getKnownIpInfo` reading `knownIpRanges` from the state. -/
def getKnownIpInfoIn (st : ClassifierState) (ip : String) : IpInfo × ClassifierState :=
  if ip = "" ∨ ip = "*" ∨ ip = "::" then
    ({ owner := some "Any", country := some "LOCAL", risk := some "none",
       desc := some "Listening on all interfaces" }, st)
  else
    match firstRange ip st.knownIpRanges with
    | some entry => (entry, st)
    | none =>
      let firstOctet := parseInt (firstField '.' ip)
      if (match firstOctet with | some n => chinaFirstOctets.contains n | none => false) then
        ({ owner := some "Unknown (China range)", country := some "CN", risk := some "medium",
           desc := some "Likely Chinese IP" }, st)
      else
        ({ owner := some "Unknown", country := some "??", risk := some "unknown",
           desc := some "Not in database" }, st)

/-- `getPortInfo` reading `suspiciousPorts` from the state. -/
def getPortInfoIn (st : ClassifierState) (port : String) : PortInfo × ClassifierState :=
  match ownLookup port st.suspiciousPorts with
  | some row => (row, st)
  | none => (if objectPrototypeKeys.contains port then {} else unknownPort, st)

/-- A call of one of the three classification functions. -/
inductive ClassifierCall where
  | analyzeDomain (domain ip : String) (ipInfo : Option IpInfo)
  | knownIp (ip : String)
  | portInfo (port : String)
  deriving Repr, DecidableEq

/-- The value such a call returns. -/
inductive ClassifierValue where
  | verdict (v : Verdict)
  | ip (info : IpInfo)
  | port (info : PortInfo)
  deriving Repr, DecidableEq

/-- Execute a call in a state: returned value and state left behind. -/
def ClassifierCall.run (st : ClassifierState) : ClassifierCall → ClassifierValue × ClassifierState
  | .analyzeDomain domain ip ipInfo =>
    let r := analyzeDomainForC2In st domain ip ipInfo
    (.verdict r.1, r.2)
  | .knownIp ip =>
    let r := getKnownIpInfoIn st ip
    (.ip r.1, r.2)
  | .portInfo port =>
    let r := getPortInfoIn st port
    (.port r.1, r.2)

/-- The state after a sequence of calls. -/
def runCalls : ClassifierState → List ClassifierCall → ClassifierState
  | st, [] => st
  | st, call :: more => runCalls (call.run st).2 more

/-- The value of a call according to the functions of the arguments alone. -/
def ClassifierCall.value : ClassifierCall → ClassifierValue
  | .analyzeDomain domain ip ipInfo => .verdict (analyzeDomainForC2 domain ip ipInfo)
  | .knownIp ip => .ip (getKnownIpInfo ip)
  | .portInfo port => .port (getPortInfo port)

/-! ## Process review (`processSecurityReview`) and package id of a process (`processes`) -/

/-- Code-point ranges of the class escape `\s`. -/
def Regex.spaceRanges : List (Char × Char) :=
  [(Char.ofNat 9, Char.ofNat 13), (' ', ' '), (Char.ofNat 0xA0, Char.ofNat 0xA0),
   (Char.ofNat 0x1680, Char.ofNat 0x1680), (Char.ofNat 0x2000, Char.ofNat 0x200A),
   (Char.ofNat 0x2028, Char.ofNat 0x2029), (Char.ofNat 0x202F, Char.ofNat 0x202F),
   (Char.ofNat 0x205F, Char.ofNat 0x205F), (Char.ofNat 0x3000, Char.ofNat 0x3000),
   (Char.ofNat 0xFEFF, Char.ofNat 0xFEFF)]

/-- The class escape `\s`. -/
def Regex.space : Regex := Regex.cls false Regex.spaceRanges

/-- The class escape `\S`. -/
def Regex.nonSpace : Regex := Regex.cls true Regex.spaceRanges

/-- `s.replace(re, '')` for a pattern without the `g` flag: the leftmost match is removed. -/
def replaceFirst (re : RegExp) (s : String) : String :=
  match re.exec s with
  | none => s
  | some m => String.mk (s.data.take m.index ++ s.data.drop (m.index + m.matched.length))

/-- Replace the first occurrence of the text `pat` in a list of characters. -/
def replaceText (pat rep : List Char) : List Char → List Char
  | [] => if pat.isEmpty then rep else []
  | c :: cs =>
    if pat.isPrefixOf (c :: cs) then rep ++ (c :: cs).drop pat.length
    else c :: replaceText pat rep cs

/-- `s.replace(pat, rep)` for a string pattern and a replacement text without `$`: the
first occurrence is replaced. -/
def replaceString (s pat rep : String) : String :=
  String.mk (replaceText pat.data rep.data s.data)

/-- The package ids of one `pm list packages` output: the lines that start with
`package:`, with that text removed, trimmed. -/
def packageLines (stdout : String) : List String :=
  ((lines stdout).filter (fun l => startsWith l "package:")).map
    (fun l => trim (replaceString l "package:" ""))

/-- `set.add(x)` on a `Set` of strings, kept as the list of its members in insertion order. -/
def setAdd (set : List String) (x : String) : List String :=
  if set.contains x then set else set ++ [x]

/-- The set `installedPackages`: the ids of the `--user 0` listing, then those of the
listing of disabled packages. -/
def installedPackages (pkgStdout disabledStdout : String) : List String :=
  (packageLines disabledStdout).foldl setAdd ((packageLines pkgStdout).foldl setAdd [])

/-- The names in `knownSystemProcesses`. -/
def knownSystemProcesses : List String := [
  "init", "kthreadd", "ksoftirqd", "kworker", "migration", "watchdog",
  "cpuhp", "netns", "rcu_", "khelper", "kdevtmpfs", "khungtaskd",
  "oom_reaper", "writeback", "kcompactd", "ksmd", "khugepaged",
  "kswapd", "vmstat", "fsnotify", "kthrotld", "irq/", "acpi_",
  "scsi_", "bioset", "kblockd", "ata_sff", "md", "devfreq_wq",
  "watchdogd", "kauditd", "nfsiod", "cifsoplockd", "cifsd",
  "rpciod", "xprtiod", "kworker/", "kswapd0", "zygote", "zygote64",
  "system_server", "surfaceflinger", "servicemanager", "vold", "netd",
  "logd", "adbd", "installd", "lmkd", "healthd", "storaged",
  "thermalserviced", "perfprofd", "tombstoned", "traced", "traced_probes",
  "hwservicemanager", "vndservicemanager", "cameraserver", "mediaserver",
  "audioserver", "mediadrmserver", "drmserver", "keystore", "gatekeeperd",
  "fingerprintd", "wificond", "hostapd", "wpa_supplicant", "rild",
  "vendor.", "android.", "media.", "hal_", "cnss", "qti", "ueventd",
  "debuggerd", "incidentd", "statsd", "gpuservice", "sensors", "thermal",
  "charger", "recovery", "update_engine", "apexd", "linker", "app_process",
  "miuicamera", "MiuiCamera", "process-tracker", "logcat", "sh", "ps",
  "top", "cat", "grep", "dumpsys"
]

/-- An entry of `suspiciousPatterns`. -/
structure SuspiciousPattern where
  pattern : RegExp
  reason : String
  severity : String
  deriving Repr, DecidableEq

open Regex in
/-- The table `suspiciousPatterns`, in source order. -/
def suspiciousPatterns : List SuspiciousPattern := [
  ⟨⟨true, cat [bos, lit "/data/local/tmp"]⟩, "Running from temp directory", "high"⟩,
  ⟨⟨true, cat [bos, lit "/sdcard"]⟩, "Running from sdcard", "high"⟩,
  ⟨⟨true, lit "busybox"⟩, "Busybox binary (potential root tool)", "medium"⟩,
  ⟨⟨true, cat [lit "su", eos]⟩, "Superuser binary", "high"⟩,
  ⟨⟨true, lit "magisk"⟩, "Magisk detected", "info"⟩,
  ⟨⟨true, lit "xposed"⟩, "Xposed framework", "medium"⟩,
  ⟨⟨true, lit "frida"⟩, "Frida (instrumentation tool)", "high"⟩,
  ⟨⟨true, lit "inject"⟩, "Possible code injection", "high"⟩,
  ⟨⟨true, lit "hide"⟩, "Process hiding attempt", "medium"⟩,
  ⟨⟨true, cat [lit ".tmp", eos]⟩, "Temporary executable", "high"⟩,
  ⟨⟨true, lit "deleted"⟩, "Running from deleted file", "critical"⟩,
  ⟨⟨true, lit "memfd:"⟩, "Running from memory (fileless)", "critical"⟩
]

open Regex in
/-- The literal `/^\s*(\d+)\s+(\S+)\s+(\S+)\s*(.*)?$/`.  (When the text after the third
column is empty, group 4 is recorded here as the empty text where ECMAScript leaves it
undefined; the source reads it only through `cmdline || name`, which treats both alike.) -/
def reProcessLine : RegExp :=
  ⟨false, cat [bos, star true (space), group 1 (plus (digit)), plus (space),
    group 2 (plus (nonSpace)), plus (space), group 3 (plus (nonSpace)), star true (space),
    opt (group 4 (star true (any))), eos]⟩

open Regex in
/-- The literal `/^(com\.[^:]+|org\.[^:]+|net\.[^:]+|io\.[^:]+)/`. -/
def rePackagePrefix : RegExp :=
  ⟨false, cat [bos, group 1 (alt (cat [lit "com.", plus (cls true [(':', ':')])])
    (alt (cat [lit "org.", plus (cls true [(':', ':')])])
    (alt (cat [lit "net.", plus (cls true [(':', ':')])])
    (cat [lit "io.", plus (cls true [(':', ':')])]))))]⟩

open Regex in
/-- The literal `/\.(persistent|unstable|remote|process|isolated|ui)$/i`. -/
def reMarkerSuffix : RegExp :=
  ⟨true, cat [chr '.', group 1 (alt (lit "persistent") (alt (lit "unstable") (alt (lit "remote")
    (alt (lit "process") (alt (lit "isolated") (lit "ui")))))), eos]⟩

open Regex in
/-- The literal `/\.isolated\d+$/i`. -/
def reIsolatedSuffix : RegExp :=
  ⟨true, cat [lit ".isolated", plus (digit), eos]⟩

open Regex in
/-- The literal `/\.[a-z_]+_process$/i`. -/
def reUnderscoredSuffix : RegExp :=
  ⟨true, cat [chr '.', plus (cls false [('a', 'z'), ('_', '_')]), lit "_process", eos]⟩

open Regex in
/-- The literal `/_(zygote|sandboxed|privileged)\d*$/i`. -/
def reZygoteSuffix : RegExp :=
  ⟨true, cat [chr '_', group 1 (alt (lit "zygote") (alt (lit "sandboxed") (lit "privileged"))),
    star true (digit), eos]⟩

/-- The chain of four `.replace(re, '')` calls that removes process suffixes which are not
part of a package id; the same chain stands in `processes` and in
`processSecurityReview`. -/
def stripProcessSuffixes (s : String) : String :=
  replaceFirst reZygoteSuffix (replaceFirst reUnderscoredSuffix
    (replaceFirst reIsolatedSuffix (replaceFirst reMarkerSuffix s)))

/-- The value of `pkg` that `processes` derives from a process name (`none` is `null`). -/
def processes.packageOf (name : String) : Option String :=
  if name != "" && includes name "." then some (stripProcessSuffixes (firstField ':' name))
  else none

/-- The value of `packageName` that `processSecurityReview` derives from a process name
(`none` is `null`).  Group 1 takes part in every match of the pattern. -/
def processSecurityReview.packageName (name : String) : Option String :=
  match rePackagePrefix.exec name with
  | none => none
  | some packageMatch => some (stripProcessSuffixes ((packageMatch.cap 1).getD ""))

/-- The array `packageNameVariants` for a derived package id. -/
def processSecurityReview.packageNameVariants (packageName : Option String) : List String :=
  match packageName with
  | none => []
  | some p =>
    if startsWith p "com.android." then [p, replaceString p "com.android." "com.google.android."]
    else [p]

/-- An element of `processInfo.flags`. -/
structure Flag where
  type : String
  severity : String
  reason : String
  deriving Repr, DecidableEq

/-- The object `processInfo` as it stands at the end of a loop iteration; `pid = none` is
`NaN`, `packageName = none` is `null`. -/
structure ProcessInfo where
  pid : Option Int
  user : String
  name : String
  cmdline : String
  packageName : Option String
  isRegistered : Bool
  flags : List Flag
  deriving Repr, DecidableEq

/-- The columns `[, pid, user, name, cmdline]` of a matched process line; `cmdline = none`
is `undefined`. -/
structure ProcessColumns where
  pid : String
  user : String
  name : String
  cmdline : Option String
  deriving Repr, DecidableEq

/-- The destructured result of `line.trim().match(re)`, `none` when the line does not
match.  Groups 1 to 3 take part in every match. -/
def parseProcessLine (line : String) : Option ProcessColumns :=
  match reProcessLine.exec (trim line) with
  | none => none
  | some m =>
    some { pid := (m.cap 1).getD "", user := (m.cap 2).getD "", name := (m.cap 3).getD "",
           cmdline := m.cap 4 }

/-- Truthiness of a possibly null string. -/
def truthy (s : Option String) : Bool :=
  match s with
  | some v => v != ""
  | none => false

/-- `isKnownSystem` for a process name. -/
def isKnownSystem (name : String) : Bool :=
  knownSystemProcesses.any (fun known => startsWith name known || includes name known)

/-- The flag pushed for a process whose package id is not registered. -/
def unregisteredFlag (packageName : Option String) : Flag :=
  { type := "unregistered", severity := "warning",
    reason := "Package " ++ templ packageName ++ " not found in installed packages" }

/-- The body of the loop of `processSecurityReview` for one matched line: the final
`processInfo` of that iteration. -/
def reviewProcess (installedPackages : List String) (cols : ProcessColumns) : ProcessInfo :=
  let fullCmd := (orElse cols.cmdline (some cols.name)).getD cols.name
  let packageName := processSecurityReview.packageName cols.name
  let packageNameVariants := processSecurityReview.packageNameVariants packageName
  -- Check if it looks like a package name but isn't registered
  let isPackageRegistered :=
    packageNameVariants.any (fun variant => installedPackages.contains variant)
  let unregistered := truthy packageName && !isPackageRegistered
  let flags :=
    (if unregistered then [unregisteredFlag packageName] else []) ++
    -- Check for suspicious patterns
    ((suspiciousPatterns.filter (fun p => p.pattern.test fullCmd || p.pattern.test cols.name)).map
      (fun p => ({ type := "suspicious", severity := p.severity, reason := p.reason } : Flag))) ++
    -- Check for processes running as root that shouldn't be
    (if cols.user == "root" && truthy packageName then
      [{ type := "privilege", severity := "warning", reason := "App process running as root" }]
     else []) ++
    -- Check for shell user processes that aren't expected
    (if cols.user == "shell" && !isKnownSystem cols.name && !includes fullCmd "adb" then
      [{ type := "shell", severity := "info", reason := "Process running as shell user" }]
     else [])
  { pid := parseInt cols.pid, user := cols.user, name := cols.name, cmdline := fullCmd,
    packageName := packageName, isRegistered := !unregistered, flags := flags }

/-- The three arrays filled by the loop. -/
structure ReviewLists where
  allProcesses : List ProcessInfo
  unregisteredProcesses : List ProcessInfo
  suspiciousProcesses : List ProcessInfo
  deriving Repr, DecidableEq

/-- The loop `for (const line of lines)`. -/
def reviewLoop (installedPackages : List String) : List String → ReviewLists → ReviewLists
  | [], acc => acc
  | line :: more, acc =>
    match parseProcessLine line with
    | none => reviewLoop installedPackages more acc
    | some cols =>
      let processInfo := reviewProcess installedPackages cols
      reviewLoop installedPackages more
        { allProcesses := acc.allProcesses ++ [processInfo],
          unregisteredProcesses :=
            if !processInfo.isRegistered then acc.unregisteredProcesses ++ [processInfo]
            else acc.unregisteredProcesses,
          suspiciousProcesses :=
            if decide (processInfo.flags.length > 0) && !isKnownSystem cols.name then
              acc.suspiciousProcesses ++ [processInfo]
            else acc.suspiciousProcesses }

/-- `a.pid === b.pid` on numbers: `NaN` equals nothing. -/
def samePid (a b : ProcessInfo) : Bool :=
  match a.pid, b.pid with
  | some x, some y => x == y
  | _, _ => false

/-- The array `uniqueSuspicious`. -/
def uniqueSuspicious (unregisteredProcesses suspiciousProcesses : List ProcessInfo) :
    List ProcessInfo :=
  suspiciousProcesses.filter (fun p =>
    !unregisteredProcesses.any (fun u => samePid u p) ||
      p.flags.any (fun f => f.type != "unregistered"))

/-- The table `severityOrder`. -/
def severityOrder : List (String × Nat) :=
  [("critical", 0), ("high", 1), ("warning", 2), ("medium", 3), ("info", 4)]

/-- The sort key `Math.min(...flags.map(f => severityOrder[f.severity] ?? 5))`; the value
`Infinity` of an empty flag list is rendered as 6, above every rank.  (Flags carry only the
severities written in the source, none of which is an inherited property name.) -/
def severityKey (p : ProcessInfo) : Nat :=
  (p.flags.map (fun f => (ownLookup f.severity severityOrder).getD 5)).foldl min 6

/-- Insertion of an element into a list sorted by `severityKey`, behind the elements with
the same key. -/
def insertBySeverity (p : ProcessInfo) : List ProcessInfo → List ProcessInfo
  | [] => [p]
  | q :: qs => if severityKey q ≤ severityKey p then q :: insertBySeverity p qs else p :: q :: qs

/-- `array.sort(sortBySeverity)`: a stable sort by `severityKey`. -/
def sortBySeverity (l : List ProcessInfo) : List ProcessInfo :=
  l.foldl (fun sorted p => insertBySeverity p sorted) []

/-- The object `summary`. -/
structure ReviewSummary where
  totalProcesses : Nat
  registeredPackages : Nat
  unregisteredCount : Nat
  suspiciousCount : Nat
  criticalCount : Nat
  highCount : Nat
  deriving Repr, DecidableEq

/-- The object returned by a completed review. -/
structure ReviewReport where
  summary : ReviewSummary
  unregisteredProcesses : List ProcessInfo
  suspiciousProcesses : List ProcessInfo
  timestamp : String
  deriving Repr, DecidableEq

/-- What `processSecurityReview` resolves to: a report, or `{ error: e.message }`. -/
inductive ReviewResult where
  | report (r : ReviewReport)
  | error (message : Option String)
  deriving Repr, DecidableEq

/-- The review computed from the three standard outputs. -/
def reviewReport (pkgStdout disabledStdout psStdout timestamp : String) : ReviewReport :=
  let installed := installedPackages pkgStdout disabledStdout
  let lists := reviewLoop installed ((lines psStdout).drop 1) ⟨[], [], []⟩
  let unique := uniqueSuspicious lists.unregisteredProcesses lists.suspiciousProcesses
  let unregisteredSorted := sortBySeverity lists.unregisteredProcesses
  let uniqueSorted := sortBySeverity unique
  { summary :=
      { totalProcesses := lists.allProcesses.length,
        registeredPackages := installed.length,
        unregisteredCount := unregisteredSorted.length,
        suspiciousCount := uniqueSorted.length,
        criticalCount := ((unregisteredSorted ++ uniqueSorted).filter (fun p =>
          p.flags.any (fun f => f.severity == "critical"))).length,
        highCount := ((unregisteredSorted ++ uniqueSorted).filter (fun p =>
          p.flags.any (fun f => f.severity == "high"))).length },
    unregisteredProcesses := unregisteredSorted,
    suspiciousProcesses := uniqueSorted,
    timestamp := timestamp }

/-- `processSecurityReview()`, as a function of how its three `adb` calls settle and of
the clock.  The calls are made in turn; the first rejection is caught, and as the rejected
value of `adb` has no `message` member the caught `e.message` is undefined. -/
def processSecurityReview (pkgResult disabledResult psResult : Except AdbRejection AdbOutput)
    (timestamp : String) : ReviewResult :=
  match pkgResult with
  | .error _ => .error none
  | .ok pkg =>
    match disabledResult with
    | .error _ => .error none
    | .ok disabled =>
      match psResult with
      | .error _ => .error none
      | .ok ps => .report (reviewReport pkg.stdout disabled.stdout ps.stdout timestamp)

/-- Can the pattern read the character `c` at all (at any place of any match). -/
def canConsume (ic : Bool) : Regex → Char → Bool
  | .empty, _ => false
  | .chr p, c => chrEq ic p c
  | .cls neg ranges, c => clsMatch ic neg ranges c
  | .any, c => !isLineTerminator c
  | .bos, _ => false
  | .eos, _ => false
  | .seq a b, c => canConsume ic a c || canConsume ic b c
  | .alt a b, c => canConsume ic a c || canConsume ic b c
  | .star _ a, c => canConsume ic a c
  | .group _ a, c => canConsume ic a c

/-- What an outcome has read: a prefix of the text, as long as the position moved. -/
def Reads (P : Char → Prop) (s s1 : MState) : Prop :=
  ∃ consumed, s.rest = consumed ++ s1.rest ∧ s1.pos = s.pos + consumed.length ∧
    ∀ c ∈ consumed, P c

/-- The variants of a package id in the words of the specification: the id itself and,
when it begins with `com.android.`, the id with that prefix replaced by
`com.google.android.`. -/
def variantsOf (p : String) : List String :=
  if startsWith p "com.android." then
    [p, "com.google.android." ++ String.mk (p.data.drop "com.android.".length)]
  else [p]

/-- The markers `s` of the suffix `.s` named by the specification. -/
def suffixMarkers : List String :=
  ["persistent", "unstable", "remote", "process", "isolated", "ui"]

/-- The markers `w` of the suffix `_w<digits>` named by the specification. -/
def zygoteMarkers : List String := ["zygote", "sandboxed", "privileged"]

/-- The alternatives `(persistent|unstable|remote|process|isolated|ui)`. -/
def markerAlternatives : Regex :=
  Regex.alt (Regex.lit "persistent") (Regex.alt (Regex.lit "unstable")
    (Regex.alt (Regex.lit "remote") (Regex.alt (Regex.lit "process")
    (Regex.alt (Regex.lit "isolated") (Regex.lit "ui")))))

/-- The alternatives `(zygote|sandboxed|privileged)`. -/
def zygoteAlternatives : Regex :=
  Regex.alt (Regex.lit "zygote") (Regex.alt (Regex.lit "sandboxed") (Regex.lit "privileged"))

/-- The marker pattern after its leading dot, without the closing `$`. -/
def markerBody : List Regex := [Regex.group 1 markerAlternatives]

/-- The numbered pattern after its leading dot, without the closing `$`. -/
def isolatedBody : List Regex := [Regex.lit "isolated", Regex.plus Regex.digit]

/-- The underscored-process pattern after its leading dot, without the closing `$`. -/
def underscoredBody : List Regex :=
  [Regex.plus (Regex.cls false [('a', 'z'), ('_', '_')]), Regex.lit "_process"]

/-- The last pattern after its leading underscore, without the closing `$`. -/
def zygoteBody : List Regex := [Regex.group 1 zygoteAlternatives, Regex.star true Regex.digit]

/-- The ten decimal digits. -/
def digitChars : List Char := ['0', '1', '2', '3', '4', '5', '6', '7', '8', '9']

/-- The name-space prefixes a package id begins with. -/
def packagePrefixes : List String := ["com.", "org.", "net.", "io."]

/-! ## Removal recommendations (`_getRemovalRecommendation`) -/

/-- An element of the list returned by `_getRemovalRecommendation`. -/
structure Recommendation where
  action : String
  reason : String
  icon : String
  deriving Repr, DecidableEq

/-- `_getRemovalRecommendation(pkg, knownInfo, safetyLevel)`; `knownInfo = none` is `null`. -/
def _getRemovalRecommendation (pkg : String) (knownInfo : Option DepInfo)
    (safetyLevel : String) : List Recommendation :=
  (if safetyLevel = "dangerous" then
    [{ action := "DO NOT REMOVE", reason := "This package is critical for system operation",
       icon := "" }]
  else if safetyLevel = "safe" then
    [{ action := "Safe to disable/remove",
       reason := (orElse (knownInfo.bind (fun info => info.impact))
         (some "No critical dependencies")).getD "No critical dependencies",
       icon := "" }]
  else if safetyLevel = "caution" then
    [{ action := "Disable first, test before removing",
       reason := "May affect some system features", icon := "" }]
  else []) ++
  -- Add specific recommendations based on package type
  (if includes pkg "analytics" || includes pkg "msa" || includes pkg "joyose" then
    [{ action := "Recommended to remove", reason := "Telemetry/advertising package",
       icon := "" }]
  else []) ++
  (if includes pkg "finddevice" then
    [{ action := "Consider implications",
       reason := "Removing disables remote lock/wipe capability", icon := "" }]
  else [])

/-- The field `recommendations` of the object returned by `packageDependencies`. -/
def packageDependencies.recommendations (pkg : String) : List Recommendation :=
  _getRemovalRecommendation pkg (packageDependencies.knownInfo pkg)
    (packageDependencies.safetyLevel pkg)

/-! ## Network observations (`dnsAnalysis`) -/

/-- At most `n` repetitions, as many as possible first: `a{0,n}`. -/
def Regex.upTo : Nat → Regex → Regex
  | 0, _ => Regex.empty
  | n + 1, a => Regex.opt (Regex.seq a (Regex.upTo n a))

/-- Exactly `n` repetitions, then `rest`. -/
def Regex.times : Nat → Regex → Regex → Regex
  | 0, _, rest => rest
  | n + 1, a, rest => Regex.seq a (Regex.times n a rest)

/-- The quantifier `a{lo,hi}`. -/
def Regex.between (lo hi : Nat) (a : Regex) : Regex := Regex.times lo a (Regex.upTo (hi - lo) a)

/-- Code-point ranges of the class escape `\w`. -/
def Regex.wordRanges : List (Char × Char) := [('a', 'z'), ('A', 'Z'), ('0', '9'), ('_', '_')]

/-- The class escape `\w`. -/
def Regex.word : Regex := Regex.cls false Regex.wordRanges

/-- The matches of `s.match(re)` for a pattern with the `g` flag, from position `pos` on:
the search is resumed where the last match ended (one character further after an empty
match).  `fuel` bounds the number of matches by the length of the text left. -/
def matchAllFrom (ic : Bool) (r : Regex) : Nat → Nat → List Char → List (List Char)
  | 0, _, _ => []
  | fuel + 1, pos, rest =>
    match searchFrom ic r pos rest with
    | none => []
    | some m =>
      let step := m.index - pos + (if m.matched.isEmpty then 1 else m.matched.length)
      m.matched :: (if step ≤ rest.length then
        matchAllFrom ic r fuel (pos + step) (rest.drop step) else [])

/-- `s.match(re)` for a pattern with the `g` flag: all matched texts, in order (the empty
list stands for `null`). -/
def RegExp.matchAll (re : RegExp) (s : String) : List String :=
  (matchAllFrom re.ignoreCase re.pattern (s.data.length + 1) 0 s.data).map String.mk

/-- `s.toLowerCase()` on ASCII letters.  (The source applies it to texts matched by
patterns whose classes and literals are ASCII.) -/
def toLowerCase (s : String) : String :=
  String.mk (s.data.map (fun c =>
    if 65 ≤ c.toNat ∧ c.toNat ≤ 90 then Char.ofNat (c.toNat + 32) else c))

open Regex in
/-- The literal
`/([a-zA-Z0-9][-a-zA-Z0-9]*\.(?:xiaomi|miui|mi|alibaba|aliyun|qq|tencent|weixin|com\.cn|net\.cn)[a-zA-Z0-9.]*)/gi`. -/
def reConnectivityDomain : RegExp :=
  ⟨true, group 1 (cat [cls false [('a', 'z'), ('A', 'Z'), ('0', '9')],
    star true (cls false [('-', '-'), ('a', 'z'), ('A', 'Z'), ('0', '9')]), chr '.',
    alt (lit "xiaomi") (alt (lit "miui") (alt (lit "mi") (alt (lit "alibaba")
      (alt (lit "aliyun") (alt (lit "qq") (alt (lit "tencent") (alt (lit "weixin")
      (alt (lit "com.cn") (lit "net.cn"))))))))),
    star true (cls false [('a', 'z'), ('A', 'Z'), ('0', '9'), ('.', '.')])])⟩

open Regex in
/-- The literal
`/(\d{1,3}\.\d{1,3}\.\d{1,3}\.\d{1,3}):(\d+)\s+(\d{1,3}\.\d{1,3}\.\d{1,3}\.\d{1,3}):(\d+)\s+(\w+)/`. -/
def reNetstatLine : RegExp :=
  ⟨false, cat [group 1 (cat [between 1 3 (digit), chr '.', between 1 3 (digit), chr '.',
      between 1 3 (digit), chr '.', between 1 3 (digit)]), chr ':', group 2 (plus (digit)),
    plus (space),
    group 3 (cat [between 1 3 (digit), chr '.', between 1 3 (digit), chr '.',
      between 1 3 (digit), chr '.', between 1 3 (digit)]), chr ':', group 4 (plus (digit)),
    plus (space), group 5 (plus (word))]⟩

open Regex in
/-- The literal
`/([a-zA-Z0-9][-a-zA-Z0-9]{2,}\.(?:xiaomi|miui|mi|alibaba|aliyun|qq|tencent|com|net|org|cn)[a-zA-Z0-9.]*)/gi`. -/
def reLogDomain : RegExp :=
  ⟨true, group 1 (cat [cls false [('a', 'z'), ('A', 'Z'), ('0', '9')],
    atLeast 2 (cls false [('-', '-'), ('a', 'z'), ('A', 'Z'), ('0', '9')]), chr '.',
    alt (lit "xiaomi") (alt (lit "miui") (alt (lit "mi") (alt (lit "alibaba")
      (alt (lit "aliyun") (alt (lit "qq") (alt (lit "tencent") (alt (lit "com")
      (alt (lit "net") (alt (lit "org") (lit "cn")))))))))),
    star true (cls false [('a', 'z'), ('A', 'Z'), ('0', '9'), ('.', '.')])])⟩

/-- An element of `cacheEntries`. -/
structure CacheEntry where
  domain : String
  ip : String
  ipInfo : IpInfo
  suspicious : Verdict
  source : String
  deriving Repr, DecidableEq

/-- An element of `activeConnections`. -/
structure ActiveConnection where
  localIp : String
  localPort : String
  remoteIp : String
  remotePort : String
  state : String
  ipInfo : IpInfo
  portInfo : PortInfo
  deriving Repr, DecidableEq

/-- The entry pushed for a domain found in the connectivity dump or in the network log. -/
def domainEntry (d source : String) : CacheEntry :=
  { domain := d, ip := "N/A",
    ipInfo := { owner := some "Unknown", country := some "??", risk := some "unknown" },
    suspicious := analyzeDomainForC2 d "" (some {}),
    source := source }

/-- The body of the inner loop over the domains matched on a line of the connectivity
dump. -/
def pushConnectivityDomain (cacheEntries : List CacheEntry) (domain : String) :
    List CacheEntry :=
  let d := toLowerCase domain
  if !cacheEntries.any (fun e => e.domain == d) then
    cacheEntries ++ [domainEntry d "connectivity"]
  else cacheEntries

/-- The loop over the lines of the connectivity dump. -/
def connectivityLoop : List String → List CacheEntry → List CacheEntry
  | [], cacheEntries => cacheEntries
  | line :: more, cacheEntries =>
    connectivityLoop more
      ((reConnectivityDomain.matchAll line).foldl pushConnectivityDomain cacheEntries)

/-- The two arrays filled by the loop over the lines of `netstat`. -/
structure NetstatLists where
  cacheEntries : List CacheEntry
  activeConnections : List ActiveConnection
  deriving Repr, DecidableEq

/-- The loop over the lines of `netstat`.  (Every value of `getKnownIpInfo` has a risk, so
the default in `risk` is never used.) -/
def netstatLoop : List String → NetstatLists → NetstatLists
  | [], acc => acc
  | line :: more, acc =>
    match reNetstatLine.exec line with
    | none => netstatLoop more acc
    | some m =>
      let localIp := (m.cap 1).getD ""
      let localPort := (m.cap 2).getD ""
      let remoteIp := (m.cap 3).getD ""
      let remotePort := (m.cap 4).getD ""
      let state := (m.cap 5).getD ""
      let ipInfo := getKnownIpInfo remoteIp
      let portInfo := getPortInfo remotePort
      netstatLoop more
        { activeConnections := acc.activeConnections ++
            [{ localIp := localIp, localPort := localPort, remoteIp := remoteIp,
               remotePort := remotePort, state := state, ipInfo := ipInfo,
               portInfo := portInfo }],
          cacheEntries :=
            -- If this is a suspicious IP, add as a "resolved domain"
            if ipInfo.risk == some "high" || ipInfo.country == some "CN" then
              acc.cacheEntries ++
                [{ domain := "[" ++ remoteIp ++ "]", ip := remoteIp, ipInfo := ipInfo,
                   suspicious :=
                     { isSuspicious := true,
                       reason := some ("Active connection to " ++ templ ipInfo.owner ++ " (" ++
                         templ ipInfo.country ++ ")"),
                       category := "active-connection",
                       risk := ipInfo.risk.getD "unknown" },
                   source := "netstat" }]
            else acc.cacheEntries }

/-- The body of the inner loop over the domains matched on a line of the network log. -/
def pushLogDomain (cacheEntries : List CacheEntry) (domain : String) : List CacheEntry :=
  let d := toLowerCase domain
  if !cacheEntries.any (fun e => e.domain == d) && decide (d.data.length > 5) then
    cacheEntries ++ [domainEntry d "logcat"]
  else cacheEntries

/-- The loop over the lines of the network log. -/
def logLoop : List String → List CacheEntry → List CacheEntry
  | [], cacheEntries => cacheEntries
  | line :: more, cacheEntries =>
    logLoop more ((reLogDomain.matchAll line).foldl pushLogDomain cacheEntries)

/-- The loop over `activeConnections` that adds connections on a high-risk port. -/
def portLoop : List ActiveConnection → List CacheEntry → List CacheEntry
  | [], cacheEntries => cacheEntries
  | conn :: more, cacheEntries =>
    portLoop more
      (if conn.portInfo.risk == some "high" && !cacheEntries.any (fun e => e.ip == conn.remoteIp)
       then
        cacheEntries ++
          [{ domain := "[Connection:" ++ conn.remotePort ++ "]", ip := conn.remoteIp,
             ipInfo := conn.ipInfo,
             suspicious :=
               { isSuspicious := true,
                 reason := some (templ conn.portInfo.service ++ ": " ++ templ conn.portInfo.desc),
                 category := "suspicious-port", risk := "high" },
             source := "netstat" }]
       else cacheEntries)

/-- The array `cacheEntries` at the end of `dnsAnalysis`, as a function of the standard
outputs of the connectivity dump, of `netstat` and of the log query (each is the empty
text when its command fails). -/
def dnsAnalysis.cacheEntries (connectivity netstat networkLogs : String) : List CacheEntry :=
  let afterConnectivity := connectivityLoop (lines connectivity) []
  let afterNetstat := netstatLoop (lines netstat) ⟨afterConnectivity, []⟩
  let afterLogs := logLoop (lines networkLogs) afterNetstat.cacheEntries
  portLoop afterNetstat.activeConnections afterLogs

/-- The field `cache.entries` of the result: the first hundred entries. -/
def dnsAnalysis.entries (connectivity netstat networkLogs : String) : List CacheEntry :=
  (dnsAnalysis.cacheEntries connectivity netstat networkLogs).take 100

/-- The domains found in the connectivity dump, in order of observation, in lower case. -/
def observedInConnectivity (connectivity : String) : List String :=
  (lines connectivity).flatMap (fun line =>
    (reConnectivityDomain.matchAll line).map toLowerCase)

/-- The domains found in the network log, in order of observation, in lower case. -/
def observedInLog (networkLogs : String) : List String :=
  (lines networkLogs).flatMap (fun line => (reLogDomain.matchAll line).map toLowerCase)

/-- The common form of the two domain loops: an entry is pushed for a domain that is not
yet the `domain` of an entry and passes the guard. -/
def pushDomain (source : String) (guard : String → Bool) (cacheEntries : List CacheEntry)
    (d : String) : List CacheEntry :=
  if !cacheEntries.any (fun e => e.domain == d) && guard d then
    cacheEntries ++ [domainEntry d source]
  else cacheEntries

/-! ## Per-core usage and frequency (`cpuInfo`) -/

/-- The number `parseInt(s)` for a text of digits (`none`, that is `NaN`, does not occur
for such a text). -/
def parseCounter (s : Option String) : ℚ := fl64 (((s.bind parseInt).getD 0 : ℤ) : ℚ)

/-- A value of the object `stats`: the seven counters of a line of `/proc/stat` with their
total and busy sums, as JavaScript numbers. -/
structure CpuStat where
  user : ℚ
  nice : ℚ
  system : ℚ
  idle : ℚ
  iowait : ℚ
  irq : ℚ
  softirq : ℚ
  total : ℚ
  busy : ℚ
  deriving Repr, DecidableEq

/-- The record `parseCpuStats` stores for seven counters. -/
def statOf (user nice system idle iowait irq softirq : ℚ) : CpuStat :=
  let total := fl64 (fl64 (fl64 (fl64 (fl64 (fl64 (user + nice) + system) + idle) + iowait) +
    irq) + softirq)
  let busy := fl64 (fl64 (total - idle) - iowait)
  { user := user, nice := nice, system := system, idle := idle, iowait := iowait, irq := irq,
    softirq := softirq, total := total, busy := busy }

open Regex in
/-- The literal `/^(cpu\d*)\s+(\d+)\s+(\d+)\s+(\d+)\s+(\d+)\s+(\d+)\s+(\d+)\s+(\d+)/`. -/
def reCpuStat : RegExp :=
  ⟨false, cat [bos, group 1 (cat [lit "cpu", star true (digit)]), plus (space),
    group 2 (plus (digit)), plus (space), group 3 (plus (digit)), plus (space),
    group 4 (plus (digit)), plus (space), group 5 (plus (digit)), plus (space),
    group 6 (plus (digit)), plus (space), group 7 (plus (digit)), plus (space),
    group 8 (plus (digit))]⟩

/-- `stats[name] = value` on the object `stats`, kept as the list of its members. -/
def setStat (name : String) (value : CpuStat) : List (String × CpuStat) → List (String × CpuStat)
  | [] => [(name, value)]
  | (k, v) :: more => if k = name then (k, value) :: more else (k, v) :: setStat name value more

/-- The loop of `parseCpuStats` over the lines of the output. -/
def parseCpuStatsLoop : List String → List (String × CpuStat) → List (String × CpuStat)
  | [], stats => stats
  | line :: more, stats =>
    match reCpuStat.exec line with
    | none => parseCpuStatsLoop more stats
    | some m =>
      parseCpuStatsLoop more
        (setStat ((m.cap 1).getD "")
          (statOf (parseCounter (m.cap 2)) (parseCounter (m.cap 3)) (parseCounter (m.cap 4))
            (parseCounter (m.cap 5)) (parseCounter (m.cap 6)) (parseCounter (m.cap 7))
            (parseCounter (m.cap 8))) stats)

/-- `parseCpuStats(output)`. -/
def parseCpuStats (output : String) : List (String × CpuStat) :=
  parseCpuStatsLoop (lines output) []

/-- `deltaTotal > 0 ? Math.round((delta / deltaTotal) * 100) : 0`. -/
def percentOf (delta deltaTotal : ℚ) : ℤ :=
  if deltaTotal > 0 then Math.round (fl64 (fl64 (delta / deltaTotal) * 100)) else 0

/-- The record pushed for core `i` from its two samples. -/
def coreRecord (i : Nat) (s1 s2 : CpuStat) : Core :=
  let deltaTotal := fl64 (s2.total - s1.total)
  let deltaBusy := fl64 (s2.busy - s1.busy)
  let deltaIowait := fl64 (s2.iowait - s1.iowait)
  let deltaSystem := fl64 (s2.system - s1.system)
  let deltaUser := fl64 (s2.user - s1.user)
  { id := i, name := "Core " ++ toString i,
    cluster := "unknown", -- Will be determined by frequency analysis
    clusterName := "Unknown",
    usage := percentOf deltaBusy deltaTotal,
    userPct := percentOf deltaUser deltaTotal,
    systemPct := percentOf deltaSystem deltaTotal,
    iowaitPct := percentOf deltaIowait deltaTotal,
    frequency := 0, maxFrequency := 0, minFrequency := 0 }

/-- `numCores`: `parseInt(stdout.trim()) || 8`. -/
def numCoresOf (stdout : String) : Int :=
  match parseInt (trim stdout) with
  | some n => if n = 0 then 8 else n
  | none => 8

/-- The loop `for (let i = 0; i < numCores; i++)` that builds `cores`: a record for each
core that occurs in both samples. -/
def buildCores (numCores : Int) (stats1 stats2 : List (String × CpuStat)) : List Core :=
  (List.range numCores.toNat).filterMap (fun i =>
    match ownLookup ("cpu" ++ toString i) stats1, ownLookup ("cpu" ++ toString i) stats2 with
    | some s1, some s2 => some (coreRecord i s1 s2)
    | _, _ => none)

open Regex in
/-- The literal `/CPU(\d+)/`. -/
def reCpuHeader : RegExp := ⟨false, cat [lit "CPU", group 1 (plus (digit))]⟩

/-- The variables of the loop over the frequency lines. -/
structure FreqState where
  cores : List Core
  currentCore : Int
  freqIndex : Nat
  deriving Repr, DecidableEq

/-- `cores[k] = f(cores[k])`, for `k` inside the array. -/
def updateAt (f : Core → Core) : Nat → List Core → List Core
  | _, [] => []
  | 0, core :: more => f core :: more
  | k + 1, core :: more => core :: updateAt f k more

/-- The body of the loop over the frequency lines. -/
def freqStep (st : FreqState) (line : String) : FreqState :=
  match reCpuHeader.exec line with
  | some coreMatch =>
    { st with
      currentCore := toNumber (((coreMatch.cap 1).bind parseInt).getD 0), freqIndex := 0 }
  | none =>
    if 0 ≤ st.currentCore ∧ st.currentCore < st.cores.length then
      let freq := toNumber ((parseInt (trim line)).getD 0)
      { st with
        cores :=
          if st.freqIndex = 0 then
            updateAt (fun c => { c with frequency := freq }) st.currentCore.toNat st.cores
          else if st.freqIndex = 1 then
            updateAt (fun c => { c with maxFrequency := freq }) st.currentCore.toNat st.cores
          else if st.freqIndex = 2 then
            updateAt (fun c => { c with minFrequency := freq }) st.currentCore.toNat st.cores
          else st.cores,
        freqIndex := st.freqIndex + 1 }
    else st

/-- The array `cores` after the loop over the frequency lines. -/
def parseFrequencies (freqLines : List String) (cores : List Core) : List Core :=
  (freqLines.foldl freqStep { cores := cores, currentCore := -1, freqIndex := 0 }).cores

/-- The array `cores` of `cpuInfo`, as a function of the standard outputs of the core
count, of the two `/proc/stat` samples and of the frequency listing. -/
def cpuInfo.cores (coreCount stat1 stat2 freqResult : String) : List Core :=
  assignClusters (parseFrequencies (lines freqResult)
    (buildCores (numCoresOf coreCount) (parseCpuStats stat1) (parseCpuStats stat2)))

/-- The values listed under the header `CPU i` of the frequency listing: the lines between
that header and the next one, read as numbers. -/
def listedUnder (i : Nat) (freqLines : List String) : List Int :=
  (((freqLines.dropWhile (fun line => line != "CPU" ++ toString i)).drop 1).takeWhile
    (fun line => !(reCpuHeader.test line))).map (fun line => (parseInt (trim line)).getD 0)

/-- Every capture group `i` of the pattern reads only characters with `Q i`. -/
def GroupsRead (ic : Bool) (Q : Nat → Char → Prop) : Regex → Prop
  | .seq a b => GroupsRead ic Q a ∧ GroupsRead ic Q b
  | .alt a b => GroupsRead ic Q a ∧ GroupsRead ic Q b
  | .star _ a => GroupsRead ic Q a
  | .group i a => (∀ c, canConsume ic a c = true → Q i c) ∧ GroupsRead ic Q a
  | _ => True

/-- Every recorded capture `i` holds only characters with `Q i`. -/
def CapsRead (Q : Nat → Char → Prop) (caps : List (Nat × List Char)) : Prop :=
  ∀ kv ∈ caps, ∀ c ∈ kv.2, Q kv.1 c

/-- A counter as `parseInt` returns it: a non-negative integer. -/
def IsCounter (q : ℚ) : Prop := ∃ w : ℤ, 0 ≤ w ∧ q = w

/-- A record as `parseCpuStats` stores it: built by `statOf` from seven counters. -/
def IsParsedStat (s : CpuStat) : Prop :=
  ∃ q1 q2 q3 q4 q5 q6 q7 : ℚ, IsCounter q1 ∧ IsCounter q2 ∧ IsCounter q3 ∧ IsCounter q4 ∧
    IsCounter q5 ∧ IsCounter q6 ∧ IsCounter q7 ∧ s = statOf q1 q2 q3 q4 q5 q6 q7

/-- The record `c` carries the id and the four percentages of the record `c0`. -/
def SameUsage (c0 c : Core) : Prop :=
  c.id = c0.id ∧ c.usage = c0.usage ∧ c.userPct = c0.userPct ∧ c.systemPct = c0.systemPct ∧
    c.iowaitPct = c0.iowaitPct

/-! # Theorems -/

/-! ## Matcher lemmas -/

theorem run_seq (ic : Bool) (a b : Regex) (s : MState) :
    (Regex.seq a b).run ic s = (a.run ic s).flatMap (b.run ic) := rfl

theorem run_alt (ic : Bool) (a b : Regex) (s : MState) :
    (Regex.alt a b).run ic s = a.run ic s ++ b.run ic s := rfl

theorem run_empty (ic : Bool) (s : MState) : Regex.empty.run ic s = [s] := rfl

theorem run_eos (ic : Bool) (s : MState) :
    Regex.eos.run ic s = if s.rest.isEmpty then [s] else [] := rfl

theorem run_chr (ic : Bool) (p : Char) (s : MState) :
    (Regex.chr p).run ic s = stepChar (chrEq ic p) s := rfl

theorem run_group (ic : Bool) (i : Nat) (a : Regex) (s : MState) :
    (Regex.group i a).run ic s = (a.run ic s).map
      (fun s1 => { s1 with caps := setCap i (s.rest.take (s1.pos - s.pos)) s1.caps }) := rfl

theorem run_litChars (ic : Bool) (ps : List Char) (s : MState) :
    (ps.foldr (fun c r => Regex.seq (Regex.chr c) r) Regex.empty).run ic s =
      if litPrefix ic ps s.rest then
        [{ s with pos := s.pos + ps.length, rest := s.rest.drop ps.length }]
      else [] := by
  induction ps generalizing s with
  | nil => simp [litPrefix, run_empty]
  | cons p ps ih =>
    obtain ⟨pos, rest, caps⟩ := s
    cases rest with
    | nil => simp [List.foldr, run_seq, run_chr, stepChar, litPrefix]
    | cons c cs =>
      simp only [List.foldr, run_seq, run_chr, stepChar, litPrefix]
      by_cases h : chrEq ic p c = true
      · simp [h, ih, Nat.add_assoc, Nat.add_comm 1]
      · simp [h]

theorem run_lit (ic : Bool) (t : String) (s : MState) :
    (Regex.lit t).run ic s =
      if litPrefix ic t.data s.rest then
        [{ s with pos := s.pos + t.data.length, rest := s.rest.drop t.data.length }]
      else [] := run_litChars ic t.data s

theorem litPrefix_of_canon (ps cs rest : List Char) (h : cs.map canon = ps.map canon) :
    litPrefix true ps (cs ++ rest) = true := by
  induction ps generalizing cs with
  | nil => simp [litPrefix]
  | cons p ps ih =>
    cases cs with
    | nil => simp at h
    | cons c cs =>
      simp only [List.map_cons, List.cons.injEq] at h
      simp [litPrefix, chrEq, h.1, ih cs h.2]

theorem matchAt_isSome_iff (ic : Bool) (r : Regex) (pos : Nat) (rest : List Char) :
    (matchAt ic r pos rest).isSome = true ↔ r.run ic ⟨pos, rest, []⟩ ≠ [] := by
  unfold matchAt
  cases r.run ic ⟨pos, rest, []⟩ <;> simp

theorem searchFrom_isSome (ic : Bool) (r : Regex) (pre suf : List Char) (pos : Nat)
    (h : (matchAt ic r (pos + pre.length) suf).isSome = true) :
    (searchFrom ic r pos (pre ++ suf)).isSome = true := by
  induction pre generalizing pos with
  | nil =>
    simp only [List.length_nil, Nat.add_zero, List.nil_append] at h ⊢
    cases suf with
    | nil => simpa [searchFrom] using h
    | cons c cs =>
      simp only [searchFrom]
      cases hm : matchAt ic r pos (c :: cs) with
      | none => simp [hm] at h
      | some m => simp
  | cons p pre ih =>
    simp only [List.cons_append, searchFrom]
    cases hm : matchAt ic r pos (p :: (pre ++ suf)) with
    | some m => simp
    | none =>
      simp only
      apply ih
      simpa [Nat.add_assoc, Nat.add_comm 1] using h

/-- A pattern matches somewhere as soon as it matches at the start of a suffix. -/
theorem test_of_suffix (re : RegExp) (d : String) (pre suf : List Char)
    (hd : d.data = pre ++ suf)
    (h : re.pattern.run re.ignoreCase ⟨pre.length, suf, []⟩ ≠ []) : re.test d = true := by
  unfold RegExp.test RegExp.exec
  rw [hd]
  apply searchFrom_isSome
  rw [matchAt_isSome_iff]
  simpa using h

theorem canon_split_suffix (cs : List Char) (t : List Nat)
    (h : t.isSuffixOf (cs.map canon) = true) :
    ∃ pre suf, cs = pre ++ suf ∧ suf.map canon = t := by
  rw [List.isSuffixOf_iff_suffix] at h
  obtain ⟨u, hu⟩ := h
  have := List.map_eq_append_iff.mp hu.symm
  obtain ⟨a, b, hab, _, hb⟩ := this
  exact ⟨a, b, hab, hb⟩

theorem includesList_iff {α : Type} [DecidableEq α] (t l : List α) :
    includesList t l = true ↔ ∃ a b, l = a ++ t ++ b := by
  induction l with
  | nil =>
    simp only [includesList, List.isEmpty_iff]
    constructor
    · intro h; exact ⟨[], [], by simp [h]⟩
    · rintro ⟨a, b, h⟩
      have := congrArg List.length h
      simp at this
      exact List.length_eq_zero.mp (by omega)
  | cons c cs ih =>
    simp only [includesList, Bool.or_eq_true, List.isPrefixOf_iff_prefix, ih]
    constructor
    · rintro (⟨b, hb⟩ | ⟨a, b, h⟩)
      · exact ⟨[], b, by simp [hb]⟩
      · exact ⟨c :: a, b, by simp [h]⟩
    · rintro ⟨a, b, h⟩
      cases a with
      | nil => left; exact ⟨b, by simpa using h.symm⟩
      | cons x a =>
        right
        simp only [List.cons_append, List.cons.injEq] at h
        exact ⟨a, b, h.2⟩

theorem canon_split_infix (cs : List Char) (t : List Nat)
    (h : includesList t (cs.map canon) = true) :
    ∃ pre mid post, cs = pre ++ mid ++ post ∧ mid.map canon = t := by
  rw [includesList_iff] at h
  obtain ⟨a, b, hab⟩ := h
  obtain ⟨x, post, hx, hxa, _⟩ := List.map_eq_append_iff.mp hab
  obtain ⟨pre, mid, hpm, _, hmid⟩ := List.map_eq_append_iff.mp hxa
  exact ⟨pre, mid, post, by rw [hx, hpm], hmid⟩

/-- The pattern `/L$/i` matches every text that ends with `L`, letter case ignored. -/
theorem test_litEnd_of_endsWithCI (L d : String) (h : endsWithCI d L = true) :
    (RegExp.mk true (Regex.cat [Regex.lit L, Regex.eos])).test d = true := by
  obtain ⟨pre, suf, hd, hs⟩ := canon_split_suffix d.data _ h
  apply test_of_suffix _ d pre suf hd
  have hp := litPrefix_of_canon L.data suf [] hs
  have hlen : suf.length = L.data.length := by
    simpa using congrArg List.length hs
  simp only [List.append_nil] at hp
  simp [Regex.cat, run_seq, run_lit, run_eos, run_empty, hp, ← hlen]

/-- The pattern `/L/i` matches every text that contains `L`, letter case ignored. -/
theorem test_lit_of_includesCI (L d : String) (h : includesCI d L = true) :
    (RegExp.mk true (Regex.lit L)).test d = true := by
  obtain ⟨pre, mid, post, hd, hs⟩ := canon_split_infix d.data _ h
  apply test_of_suffix _ d pre (mid ++ post) (by rw [hd, List.append_assoc])
  have hp := litPrefix_of_canon L.data mid post hs
  simp [run_lit, hp]

theorem test_mozilla (d : String)
    (h : endsWithCI d "mozilla.org" = true ∨ endsWithCI d "mozilla.com" = true) :
    (RegExp.mk true (Regex.cat [Regex.lit "mozilla.",
      Regex.group 1 (Regex.alt (Regex.lit "org") (Regex.lit "com")), Regex.eos])).test d = true := by
  rcases h with h | h
  · obtain ⟨pre, suf, hd, hs⟩ := canon_split_suffix d.data _ h
    have hsplit : ("mozilla.org" : String).data.map canon
        = ("mozilla." : String).data.map canon ++ ("org" : String).data.map canon := by decide
    rw [hsplit] at hs
    obtain ⟨s1, s2, hsuf, h1, h2⟩ := List.map_eq_append_iff.mp hs
    subst hsuf
    apply test_of_suffix _ d pre (s1 ++ s2) hd
    have hp1 := litPrefix_of_canon ("mozilla." : String).data s1 s2 h1
    have hp2 := litPrefix_of_canon ("org" : String).data s2 [] h2
    have hl1 : s1.length = ("mozilla." : String).data.length := by
      simpa using congrArg List.length h1
    have hl2 : s2.length = ("org" : String).data.length := by
      simpa using congrArg List.length h2
    simp only [List.append_nil] at hp2
    simp [Regex.cat, run_seq, run_lit, run_eos, run_empty, run_group, run_alt, hp1, hp2,
      ← hl1, ← hl2]
  · obtain ⟨pre, suf, hd, hs⟩ := canon_split_suffix d.data _ h
    have hsplit : ("mozilla.com" : String).data.map canon
        = ("mozilla." : String).data.map canon ++ ("com" : String).data.map canon := by decide
    rw [hsplit] at hs
    obtain ⟨s1, s2, hsuf, h1, h2⟩ := List.map_eq_append_iff.mp hs
    subst hsuf
    apply test_of_suffix _ d pre (s1 ++ s2) hd
    have hp1 := litPrefix_of_canon ("mozilla." : String).data s1 s2 h1
    have hp2 := litPrefix_of_canon ("com" : String).data s2 [] h2
    have hl1 : s1.length = ("mozilla." : String).data.length := by
      simpa using congrArg List.length h1
    have hl2 : s2.length = ("com" : String).data.length := by
      simpa using congrArg List.length h2
    simp only [List.append_nil] at hp2
    simp [Regex.cat, run_seq, run_lit, run_eos, run_empty, run_group, run_alt, hp1, hp2,
      ← hl1, ← hl2]

/-! ## Domain classification -/

theorem anyLegit_of_mem (domain : String) (res : List RegExp) (re : RegExp)
    (hmem : re ∈ res) (h : re.test domain = true) : anyLegit domain res = true := by
  induction res with
  | nil => cases hmem
  | cons x xs ih =>
    simp only [anyLegit]
    by_cases hx : x.test domain = true
    · simp [hx]
    · simp only [hx]
      rcases List.mem_cons.mp hmem with rfl | hmem
      · exact absurd h hx
      · simpa using ih hmem

theorem anyLegit_of_allowListed (domain : String) (h : allowListed domain = true) :
    anyLegit domain legitimateDomains = true := by
  simp only [allowListed, Bool.or_eq_true] at h
  rcases h with (((((((((h | h) | h) | h) | h) | h) | h) | h) | h) | h) | h
  · exact anyLegit_of_mem domain _ _ (by simp [legitimateDomains]) (test_litEnd_of_endsWithCI "google.com" domain h)
  · exact anyLegit_of_mem domain _ _ (by simp [legitimateDomains]) (test_litEnd_of_endsWithCI "googleapis.com" domain h)
  · exact anyLegit_of_mem domain _ _ (by simp [legitimateDomains]) (test_litEnd_of_endsWithCI "gstatic.com" domain h)
  · exact anyLegit_of_mem domain _ _ (by simp [legitimateDomains]) (test_litEnd_of_endsWithCI "android.com" domain h)
  · exact anyLegit_of_mem domain _ _ (by simp [legitimateDomains]) (test_litEnd_of_endsWithCI "cloudflare.com" domain h)
  · exact anyLegit_of_mem domain _ _ (by simp [legitimateDomains]) (test_lit_of_includesCI "akamai" domain h)
  · exact anyLegit_of_mem domain _ _ (by simp [legitimateDomains]) (test_litEnd_of_endsWithCI "microsoft.com" domain h)
  · exact anyLegit_of_mem domain _ _ (by simp [legitimateDomains]) (test_litEnd_of_endsWithCI "windows.com" domain h)
  · exact anyLegit_of_mem domain _ _ (by simp [legitimateDomains]) (test_litEnd_of_endsWithCI "apple.com" domain h)
  · exact anyLegit_of_mem domain _ _ (by simp [legitimateDomains]) (test_mozilla domain (Or.inl h))
  · exact anyLegit_of_mem domain _ _ (by simp [legitimateDomains]) (test_mozilla domain (Or.inr h))

/-- C1. A domain that matches an entry of the allow-list (some pattern of
`legitimateDomains` tests true on it; in words: it ends, letter case ignored, with
google.com, googleapis.com, gstatic.com, android.com, cloudflare.com, microsoft.com,
windows.com, apple.com, mozilla.org or mozilla.com, or contains akamai) is classified
legitimate with risk none, for every `ip` and `ipInfo`; no suspicious pattern and no IP
risk is consulted. -/
theorem analyzeDomainForC2_allowListed (domain ip : String) (ipInfo : Option IpInfo)
    (h : (∃ re ∈ legitimateDomains, re.test domain = true) ∨ allowListed domain = true) :
    analyzeDomainForC2 domain ip ipInfo =
      { isSuspicious := false, reason := none, category := "legitimate", risk := "none" } := by
  have hl : anyLegit domain legitimateDomains = true := by
    rcases h with ⟨re, hmem, hre⟩ | h
    · exact anyLegit_of_mem domain _ re hmem hre
    · exact anyLegit_of_allowListed domain h
  simp [analyzeDomainForC2, hl]

/-- Witness for C1: `googleapis.com`, and a domain that is allow-listed although a
suspicious pattern matches it and its IP owner is high-risk. -/
theorem analyzeDomainForC2_allowListed_witness :
    allowListed "googleapis.com" = true ∧
    analyzeDomainForC2 "googleapis.com" "" none =
      { isSuspicious := false, reason := none, category := "legitimate", risk := "none" } ∧
    firstSuspicious "tracking.xiaomi.Google.com" suspiciousDomainPatterns ≠ none ∧
    analyzeDomainForC2 "tracking.xiaomi.Google.com" "1.2.3.4" (some { risk := some "high" }) =
      { isSuspicious := false, reason := none, category := "legitimate", risk := "none" } :=
  ⟨by decide!,
   analyzeDomainForC2_allowListed "googleapis.com" "" none (Or.inr (by decide!)),
   by decide!,
   analyzeDomainForC2_allowListed "tracking.xiaomi.Google.com" "1.2.3.4" _ (Or.inr (by decide!))⟩

theorem anyLegit_eq_false (domain : String) (res : List RegExp)
    (h : ∀ re ∈ res, re.test domain = false) : anyLegit domain res = false := by
  induction res with
  | nil => rfl
  | cons x xs ih =>
    have hx := h x (List.mem_cons_self _ _)
    simp only [anyLegit, hx]
    exact ih (fun re hre => h re (List.mem_cons_of_mem _ hre))

theorem firstSuspicious_at (domain : String) (table : List DomainPattern) (i : Nat)
    (hi : i < table.length)
    (hmatch : (table.get ⟨i, hi⟩).pattern.test domain = true)
    (hfirst : ∀ j (hj : j < i), (table.get ⟨j, Nat.lt_trans hj hi⟩).pattern.test domain = false) :
    firstSuspicious domain table =
      some { isSuspicious := (table.get ⟨i, hi⟩).risk == "high" || (table.get ⟨i, hi⟩).risk == "critical",
             reason := some (table.get ⟨i, hi⟩).desc,
             category := (table.get ⟨i, hi⟩).category,
             risk := (table.get ⟨i, hi⟩).risk } := by
  induction table generalizing i with
  | nil => simp at hi
  | cons x xs ih =>
    cases i with
    | zero =>
      simp only [List.get] at hmatch ⊢
      simp [firstSuspicious, hmatch]
    | succ k =>
      have h0 := hfirst 0 (Nat.succ_pos k)
      simp only [List.get] at h0 hmatch ⊢
      simp only [firstSuspicious, h0]
      have hk : k < xs.length := by simpa using hi
      exact ih k hk hmatch (fun j hj => hfirst (j + 1) (Nat.succ_lt_succ hj))

/-- C2. When no allow-list pattern matches the domain and the entry at index `i` of
`suspiciousDomainPatterns` is the earliest whose pattern matches, the verdict carries that
entry's category, risk and description (as reason), whatever later entries match and
whatever `ip` and `ipInfo` are. -/
theorem analyzeDomainForC2_first_match (domain ip : String) (ipInfo : Option IpInfo) (i : Nat)
    (hi : i < suspiciousDomainPatterns.length)
    (hlegit : ∀ re ∈ legitimateDomains, re.test domain = false)
    (hmatch : (suspiciousDomainPatterns.get ⟨i, hi⟩).pattern.test domain = true)
    (hfirst : ∀ j (hj : j < i),
      (suspiciousDomainPatterns.get ⟨j, Nat.lt_trans hj hi⟩).pattern.test domain = false) :
    analyzeDomainForC2 domain ip ipInfo =
      { isSuspicious := (suspiciousDomainPatterns.get ⟨i, hi⟩).risk == "high" ||
                        (suspiciousDomainPatterns.get ⟨i, hi⟩).risk == "critical",
        reason := some (suspiciousDomainPatterns.get ⟨i, hi⟩).desc,
        category := (suspiciousDomainPatterns.get ⟨i, hi⟩).category,
        risk := (suspiciousDomainPatterns.get ⟨i, hi⟩).risk } := by
  unfold analyzeDomainForC2
  rw [anyLegit_eq_false domain _ hlegit,
    firstSuspicious_at domain suspiciousDomainPatterns i hi hmatch hfirst]
  simp

/-- Witness for C2: `tracking.miui.xiaomi.com` is decided by the first table entry
(category telemetry, risk high); `stats.xiaomi.ad.xiaomi.com` is decided by entry 4
although entry 14 matches it too. -/
theorem analyzeDomainForC2_first_match_witness :
    (∀ re ∈ legitimateDomains, re.test "tracking.miui.xiaomi.com" = false) ∧
    analyzeDomainForC2 "tracking.miui.xiaomi.com" "" (some {}) =
      { isSuspicious := true, reason := some "Xiaomi Tracking",
        category := "telemetry", risk := "high" } ∧
    (suspiciousDomainPatterns.get ⟨14, by decide⟩).pattern.test "stats.xiaomi.ad.xiaomi.com" = true ∧
    analyzeDomainForC2 "stats.xiaomi.ad.xiaomi.com" "" none =
      { isSuspicious := true, reason := some "Xiaomi Statistics",
        category := "telemetry", risk := "high" } :=
  ⟨by decide!,
   analyzeDomainForC2_first_match "tracking.miui.xiaomi.com" "" (some {}) 0 (by decide)
     (by decide!) (by decide!) (fun j hj => absurd hj (Nat.not_lt_zero j)),
   by decide!,
   analyzeDomainForC2_first_match "stats.xiaomi.ad.xiaomi.com" "" none 4 (by decide)
     (by decide!) (by decide!) (by decide!)⟩

/-! ## Package criticality -/

theorem ownLookup_eq_none {α : Type} (key : String) (table : List (String × α))
    (h : ∀ row ∈ table, row.1 ≠ key) : ownLookup key table = none := by
  induction table with
  | nil => rfl
  | cons x xs ih =>
    obtain ⟨k, v⟩ := x
    have hk : k ≠ key := h (k, v) (List.mem_cons_self _ _)
    simp only [ownLookup, hk, if_false]
    exact ih (fun row hrow => h row (List.mem_cons_of_mem _ hrow))

theorem criticalDependencies_rows :
    ∀ row ∈ criticalDependencies,
      ownLookup row.1 criticalDependencies = some row.2 ∧
      orElse row.2.impact row.2.description =
        (match row.2.impact with
         | some impact => some impact
         | none => row.2.description) := by
  decide!

/-- C3. For a package id that has a row in `criticalDependencies`, the safety tier is
fixed by the row alone (safe when `safeToRemove` is true, dangerous otherwise), before any
namespace heuristic is looked at, and the rationale is the row's impact statement when it
has one and its description otherwise. -/
theorem packageDependencies_known (pkg : String) (info : DepInfo)
    (h : (pkg, info) ∈ criticalDependencies) :
    packageDependencies.knownInfo pkg = some info ∧
    packageDependencies.safetyLevel pkg =
      (if info.safeToRemove = some true then "safe" else "dangerous") ∧
    packageDependencies.safetyReason pkg =
      (match info.impact with
       | some impact => some impact
       | none => info.description) := by
  obtain ⟨hl, hr⟩ := criticalDependencies_rows (pkg, info) h
  simp only at hl hr
  have hk : packageDependencies.knownInfo pkg = some info := by
    simp [packageDependencies.knownInfo, hl]
  refine ⟨hk, ?_, ?_⟩
  · simp [packageDependencies.safetyLevel, packageDependencies.safety, hk]
  · simp only [packageDependencies.safetyReason, packageDependencies.safety, hk]
    exact hr

/-- Witness for C3: `com.miui.analytics` (a vendor-namespace id) is safe with its impact
statement as rationale; `com.google.android.gms` is dangerous with its description. -/
theorem packageDependencies_known_witness :
    (packageDependencies.safetyLevel "com.miui.analytics" = "safe" ∧
     packageDependencies.safetyReason "com.miui.analytics" =
       some "None - just stops sending data to Xiaomi") ∧
    (packageDependencies.safetyLevel "com.google.android.gms" = "dangerous" ∧
     packageDependencies.safetyReason "com.google.android.gms" =
       some "Google Play Services - Core for Google APIs") :=
  ⟨(packageDependencies_known "com.miui.analytics"
      { description := some "MIUI telemetry/analytics", dependents := some [],
        safeToRemove := some true,
        impact := some "None - just stops sending data to Xiaomi" } (by decide!)).2,
   (packageDependencies_known "com.google.android.gms"
      { description := some "Google Play Services - Core for Google APIs",
        dependents := some ["Most Google apps", "Apps using Google Sign-In",
          "Apps using FCM push", "Apps using Google Maps"],
        safeToRemove := some false, impact := none } (by decide!)).2⟩

theorem objectPrototypeKeys_no_vendor :
    ∀ key ∈ objectPrototypeKeys,
      includes key "miui" = false ∧ includes key "xiaomi" = false := by
  decide!

theorem knownInfo_eq_none (pkg : String)
    (habsent : ∀ row ∈ criticalDependencies, row.1 ≠ pkg)
    (hproto : pkg ∉ objectPrototypeKeys) : packageDependencies.knownInfo pkg = none := by
  simp [packageDependencies.knownInfo, ownLookup_eq_none pkg _ habsent, hproto]

/-- C4. A package id without a row in `criticalDependencies` whose text contains `miui` or
`xiaomi` gets the tier caution (so neither unknown nor dangerous). -/
theorem packageDependencies_vendor_caution (pkg : String)
    (habsent : ∀ row ∈ criticalDependencies, row.1 ≠ pkg)
    (hvendor : includes pkg "miui" = true ∨ includes pkg "xiaomi" = true) :
    packageDependencies.safetyLevel pkg = "caution" := by
  have hproto : pkg ∉ objectPrototypeKeys := by
    intro hmem
    obtain ⟨h1, h2⟩ := objectPrototypeKeys_no_vendor pkg hmem
    rcases hvendor with h | h
    · rw [h1] at h; cases h
    · rw [h2] at h; cases h
  have hk := knownInfo_eq_none pkg habsent hproto
  simp only [packageDependencies.safetyLevel, packageDependencies.safety, hk]
  by_cases hg : includes pkg "google.android" = true
  · simp [hg]
  · rcases hvendor with h | h <;> simp [hg, h]

/-- Witness for C4: `com.miui.unknownapp`. -/
theorem packageDependencies_vendor_caution_witness :
    (∀ row ∈ criticalDependencies, row.1 ≠ "com.miui.unknownapp") ∧
    packageDependencies.safetyLevel "com.miui.unknownapp" = "caution" :=
  ⟨by decide!,
   packageDependencies_vendor_caution "com.miui.unknownapp" (by decide!) (Or.inl (by decide!))⟩

theorem includes_of_startsWith (s t : String) (h : startsWith s t = true) :
    includes s t = true := by
  unfold startsWith at h
  unfold includes
  cases hs : s.data with
  | nil =>
    rw [hs] at h
    cases ht : t.data with
    | nil => simp [includesList]
    | cons x xs => rw [ht] at h; simp [List.isPrefixOf] at h
  | cons c cs =>
    rw [hs] at h
    simp [includesList, h]

/-- C5 (as stated) fails: `com.android.phone` has no row in the table, carries no vendor
or Google marker and begins with `com.android.`, yet its tier is unknown, not dangerous. -/
theorem packageDependencies_core_counterexample :
    (∀ row ∈ criticalDependencies, row.1 ≠ "com.android.phone") ∧
    includes "com.android.phone" "miui" = false ∧
    includes "com.android.phone" "xiaomi" = false ∧
    includes "com.android.phone" "google.android" = false ∧
    startsWith "com.android.phone" "com.android." = true ∧
    packageDependencies.safetyLevel "com.android.phone" = "unknown" ∧
    packageDependencies.safetyLevel "com.android.phone" ≠ "dangerous" := by
  decide!

/-- C5 (amended). For a package id on which the table lookup is undefined (no row in
`criticalDependencies`, not a property name of `Object.prototype`) and which carries no
vendor or Google marker, the tier is dangerous when the id contains `android.` and does
not contain `com.android.`, and unknown otherwise.  In particular an id that begins with
`android.` and does not contain `com.android.` is dangerous, and an id that begins with
`com.android.` is unknown. -/
theorem packageDependencies_core (pkg : String)
    (habsent : ∀ row ∈ criticalDependencies, row.1 ≠ pkg)
    (hproto : pkg ∉ objectPrototypeKeys)
    (hmiui : includes pkg "miui" = false) (hxiaomi : includes pkg "xiaomi" = false)
    (hgoogle : includes pkg "google.android" = false) :
    packageDependencies.safetyLevel pkg =
      (if includes pkg "android." = true ∧ includes pkg "com.android." = false
       then "dangerous" else "unknown") ∧
    (startsWith pkg "android." = true → includes pkg "com.android." = false →
      packageDependencies.safetyLevel pkg = "dangerous") ∧
    (startsWith pkg "com.android." = true →
      packageDependencies.safetyLevel pkg = "unknown") := by
  have hk := knownInfo_eq_none pkg habsent hproto
  have hmain : packageDependencies.safetyLevel pkg =
      (if includes pkg "android." = true ∧ includes pkg "com.android." = false
       then "dangerous" else "unknown") := by
    simp only [packageDependencies.safetyLevel, packageDependencies.safety, hk, hmiui, hxiaomi,
      hgoogle]
    by_cases h1 : includes pkg "android." = true <;>
      by_cases h2 : includes pkg "com.android." = true <;> simp [h1, h2]
  refine ⟨hmain, ?_, ?_⟩
  · intro hs hc
    rw [hmain, if_pos ⟨includes_of_startsWith pkg _ hs, hc⟩]
  · intro hs
    have hc := includes_of_startsWith pkg _ hs
    rw [hmain, if_neg (by simp [hc])]

/-- Witness for C5 (amended): `android.ext.services` is dangerous, `com.android.phone` is
unknown. -/
theorem packageDependencies_core_witness :
    packageDependencies.safetyLevel "android.ext.services" = "dangerous" ∧
    packageDependencies.safetyLevel "com.android.phone" = "unknown" :=
  ⟨(packageDependencies_core "android.ext.services" (by decide!) (by decide!) (by decide!)
      (by decide!) (by decide!)).2.1 (by decide!) (by decide!),
   (packageDependencies_core "com.android.phone" (by decide!) (by decide!) (by decide!)
      (by decide!) (by decide!)).2.2 (by decide!)⟩

/-! ## IP classification -/

theorem firstRange_at (ip : String) (table : List IpInfo) (i : Nat) (hi : i < table.length)
    (hmatch : startsWith ip (templ (table.get ⟨i, hi⟩).range) = true)
    (hfirst : ∀ j (hj : j < i),
      startsWith ip (templ (table.get ⟨j, Nat.lt_trans hj hi⟩).range) = false) :
    firstRange ip table = some (table.get ⟨i, hi⟩) := by
  induction table generalizing i with
  | nil => simp at hi
  | cons x xs ih =>
    cases i with
    | zero =>
      simp only [List.get] at hmatch ⊢
      simp [firstRange, hmatch]
    | succ k =>
      have h0 := hfirst 0 (Nat.succ_pos k)
      simp only [List.get] at h0 hmatch ⊢
      simp only [firstRange, h0]
      have hk : k < xs.length := by simpa using hi
      exact ih k hk hmatch (fun j hj => hfirst (j + 1) (Nat.succ_lt_succ hj))

/-- C6. For an IP string other than the empty string, `*` and `::`, if the entry at index
`i` of `knownIpRanges` is the first whose range is a prefix of the string, then
`getKnownIpInfo` returns that entry. -/
theorem getKnownIpInfo_first_range (ip : String) (i : Nat) (hi : i < knownIpRanges.length)
    (h1 : ip ≠ "") (h2 : ip ≠ "*") (h3 : ip ≠ "::")
    (hmatch : startsWith ip (templ (knownIpRanges.get ⟨i, hi⟩).range) = true)
    (hfirst : ∀ j (hj : j < i),
      startsWith ip (templ (knownIpRanges.get ⟨j, Nat.lt_trans hj hi⟩).range) = false) :
    getKnownIpInfo ip = knownIpRanges.get ⟨i, hi⟩ := by
  unfold getKnownIpInfo
  rw [if_neg (by simp [h1, h2, h3]), firstRange_at ip knownIpRanges i hi hmatch hfirst]

/-- Witness for C6: `127.0.0.1` is Localhost with risk none (entry 39); `161.117.5.5` is
the Xiaomi/Alibaba entry with risk high (entry 4); `52.1.2.3` is answered by the first of
the two entries with range `52.` (entry 27, not entry 32). -/
theorem getKnownIpInfo_first_range_witness :
    getKnownIpInfo "127.0.0.1" =
      IpInfo.entry "127." "Localhost" "LOCAL" "none" "Loopback" ∧
    getKnownIpInfo "161.117.5.5" =
      IpInfo.entry "161.117." "Xiaomi/Alibaba" "SG" "high" "Xiaomi Singapore" ∧
    startsWith "52.1.2.3" (templ (knownIpRanges.get ⟨32, by decide⟩).range) = true ∧
    getKnownIpInfo "52.1.2.3" =
      IpInfo.entry "52." "Microsoft" "US" "low" "Microsoft Azure" :=
  ⟨getKnownIpInfo_first_range "127.0.0.1" 39 (by decide) (by decide!) (by decide!) (by decide!)
      (by decide!) (by decide!),
   getKnownIpInfo_first_range "161.117.5.5" 4 (by decide) (by decide!) (by decide!) (by decide!)
      (by decide!) (by decide!),
   by decide!,
   getKnownIpInfo_first_range "52.1.2.3" 27 (by decide) (by decide!) (by decide!) (by decide!)
      (by decide!) (by decide!)⟩

/-! ## Aggregate scan -/

/-- C10. `fullScan` is a total function of the five sub-scan outcomes (it returns a report
for every combination of successes and thrown errors), and each part of the report is fed
by its own sub-scan only: a succeeding sub-scan contributes its data (device record;
package list and count; disabled count; connection list; process count and the first 50
processes), a failing one contributes its empty default (device `{error}`, count 0 with an
empty list, no connections, count 0 with no processes), whatever the other four did. -/
theorem fullScan_isolates_failures {P : Type} (deviceInfoR : Outcome DeviceReport)
    (listAllR listDisabledR : Outcome PackageList) (netstatR : Outcome NetstatResult)
    (processesR : Outcome (ProcessList P)) :
    (fullScan deviceInfoR listAllR listDisabledR netstatR processesR).device =
      (match deviceInfoR with
       | .ok info => info
       | .error err => DeviceReport.error err.message) ∧
    ((fullScan deviceInfoR listAllR listDisabledR netstatR processesR).packages.total,
     (fullScan deviceInfoR listAllR listDisabledR netstatR processesR).packages.list) =
      (match listAllR with
       | .ok all => (all.count, all.packages)
       | .error _ => (0, [])) ∧
    (fullScan deviceInfoR listAllR listDisabledR netstatR processesR).packages.disabled =
      (match listDisabledR with
       | .ok disabled => disabled.count
       | .error _ => 0) ∧
    (fullScan deviceInfoR listAllR listDisabledR netstatR processesR).network.connections =
      (match netstatR with
       | .ok net => net.connections
       | .error _ => []) ∧
    ((fullScan deviceInfoR listAllR listDisabledR netstatR processesR).processes.count,
     (fullScan deviceInfoR listAllR listDisabledR netstatR processesR).processes.list) =
      (match processesR with
       | .ok ps => (ps.count, ps.processes.take 50)
       | .error _ => (0, [])) ∧
    (∀ (d2 : Outcome DeviceReport) (a2 dis2 : Outcome PackageList) (n2 : Outcome NetstatResult)
        (p2 : Outcome (ProcessList P)),
      (fullScan d2 listAllR dis2 n2 p2).packages.list =
        (fullScan deviceInfoR listAllR listDisabledR netstatR processesR).packages.list ∧
      (fullScan d2 listAllR dis2 n2 p2).packages.total =
        (fullScan deviceInfoR listAllR listDisabledR netstatR processesR).packages.total ∧
      (fullScan d2 a2 listDisabledR n2 p2).packages.disabled =
        (fullScan deviceInfoR listAllR listDisabledR netstatR processesR).packages.disabled ∧
      (fullScan deviceInfoR a2 dis2 n2 p2).device =
        (fullScan deviceInfoR listAllR listDisabledR netstatR processesR).device ∧
      (fullScan d2 a2 dis2 netstatR p2).network =
        (fullScan deviceInfoR listAllR listDisabledR netstatR processesR).network ∧
      (fullScan d2 a2 dis2 n2 processesR).processes.count =
        (fullScan deviceInfoR listAllR listDisabledR netstatR processesR).processes.count ∧
      (fullScan d2 a2 dis2 n2 processesR).processes.list =
        (fullScan deviceInfoR listAllR listDisabledR netstatR processesR).processes.list) := by
  refine ⟨?_, ?_, ?_, ?_, ?_, ?_⟩
  · cases deviceInfoR <;> rfl
  · cases listAllR <;> rfl
  · cases listDisabledR <;> rfl
  · cases netstatR <;> rfl
  · cases processesR <;> rfl
  · intro d2 a2 dis2 n2 p2
    exact ⟨rfl, rfl, rfl, rfl, rfl, rfl, rfl⟩

/-! ## Matcher lemmas: first outcome of a greedy match -/

theorem head?_flatMap_of_head {α β : Type} (l : List α) (f : α → List β) (x : α) (y : β)
    (hl : l.head? = some x) (hf : (f x).head? = some y) : (l.flatMap f).head? = some y := by
  cases l with
  | nil => simp at hl
  | cons a as =>
    simp only [List.head?_cons, Option.some.injEq] at hl
    subst hl
    cases hfa : f a with
    | nil => rw [hfa] at hf; simp at hf
    | cons b bs =>
      rw [hfa] at hf
      simp only [List.head?_cons, Option.some.injEq] at hf
      simp [List.flatMap_cons, hfa, hf]

theorem head_seq (ic : Bool) (a b : Regex) (s s1 s2 : MState)
    (ha : (a.run ic s).head? = some s1) (hb : (b.run ic s1).head? = some s2) :
    ((Regex.seq a b).run ic s).head? = some s2 :=
  head?_flatMap_of_head _ _ s1 s2 ha hb

theorem head_group (ic : Bool) (i : Nat) (a : Regex) (s s1 : MState)
    (ha : (a.run ic s).head? = some s1) :
    ((Regex.group i a).run ic s).head? =
      some { s1 with caps := setCap i (s.rest.take (s1.pos - s.pos)) s1.caps } := by
  rw [run_group]
  cases h : a.run ic s with
  | nil => rw [h] at ha; simp at ha
  | cons x xs =>
    rw [h] at ha
    simp only [List.head?_cons, Option.some.injEq] at ha
    subst ha
    simp

theorem head_chr (ic : Bool) (p c : Char) (pos : Nat) (cs : List Char)
    (caps : List (Nat × List Char)) (h : chrEq ic p c = true) :
    ((Regex.chr p).run ic ⟨pos, c :: cs, caps⟩).head? = some ⟨pos + 1, cs, caps⟩ := by
  simp [run_chr, stepChar, h]

theorem head_lit (ic : Bool) (t : String) (pos : Nat) (pre rest : List Char)
    (caps : List (Nat × List Char)) (hlen : pre.length = t.data.length)
    (h : litPrefix ic t.data (pre ++ rest) = true) :
    ((Regex.lit t).run ic ⟨pos, pre ++ rest, caps⟩).head? =
      some ⟨pos + pre.length, rest, caps⟩ := by
  simp [run_lit, h, ← hlen]

theorem clearCaps_nil (caps : List (Nat × List Char)) : clearCaps [] caps = caps := by
  simp [clearCaps]

/-- Greedy iteration of a one-character step reads a whole run of accepted characters. -/
theorem head_starLoop_chars (q : Char → Bool) (ds rest : List Char)
    (hds : ∀ c ∈ ds, q c = true) (hrest : ∀ c cs, rest = c :: cs → q c = false)
    (fuel pos : Nat) (caps : List (Nat × List Char)) (hfuel : ds.length ≤ fuel) :
    (starLoop true [] (stepChar q) fuel ⟨pos, ds ++ rest, caps⟩).head? =
      some ⟨pos + ds.length, rest, caps⟩ := by
  induction ds generalizing fuel pos with
  | nil =>
    cases fuel with
    | zero => simp [starLoop]
    | succ n =>
      cases rest with
      | nil => simp [starLoop, stepChar, clearCaps_nil]
      | cons c cs =>
        have hc := hrest c cs rfl
        simp [starLoop, stepChar, clearCaps_nil, hc]
  | cons d ds ih =>
    cases fuel with
    | zero => simp at hfuel
    | succ n =>
      have hd : q d = true := hds d (List.mem_cons_self _ _)
      have hn : ds.length ≤ n := by simpa using hfuel
      have ih' := ih (fun c hc => hds c (List.mem_cons_of_mem _ hc)) n (pos + 1) hn
      simp only [starLoop, clearCaps_nil, stepChar, List.cons_append, hd, if_true]
      simp only [List.filter, List.length_cons, Nat.lt_succ_self, decide_True,
        List.flatMap_cons, List.flatMap_nil, List.append_nil]
      cases hl : starLoop true [] (stepChar q) n ⟨pos + 1, ds ++ rest, caps⟩ with
      | nil => rw [hl] at ih'; simp at ih'
      | cons x xs =>
        rw [hl] at ih'
        simp only [List.head?_cons, Option.some.injEq] at ih'
        simp [ih', Nat.add_assoc, Nat.add_comm 1]

/-- The quantifier `[class]+` reads a whole non-empty run of class members, first. -/
theorem head_plus_cls (ic neg : Bool) (ranges : List (Char × Char)) (ds rest : List Char)
    (hne : ds ≠ [])
    (hds : ∀ c ∈ ds, clsMatch ic neg ranges c = true)
    (hrest : ∀ c cs, rest = c :: cs → clsMatch ic neg ranges c = false)
    (pos : Nat) (caps : List (Nat × List Char)) :
    ((Regex.plus (Regex.cls neg ranges)).run ic ⟨pos, ds ++ rest, caps⟩).head? =
      some ⟨pos + ds.length, rest, caps⟩ := by
  cases ds with
  | nil => exact absurd rfl hne
  | cons d ds =>
    have hd : clsMatch ic neg ranges d = true := hds d (List.mem_cons_self _ _)
    have h1 : ((Regex.cls neg ranges).run ic ⟨pos, d :: ds ++ rest, caps⟩).head? =
        some ⟨pos + 1, ds ++ rest, caps⟩ := by
      simp [Regex.run, stepChar, hd]
    have h2 : ((Regex.star true (Regex.cls neg ranges)).run ic ⟨pos + 1, ds ++ rest, caps⟩).head? =
        some ⟨pos + 1 + ds.length, rest, caps⟩ := by
      have := head_starLoop_chars (clsMatch ic neg ranges) ds rest
        (fun c hc => hds c (List.mem_cons_of_mem _ hc)) hrest (ds ++ rest).length (pos + 1) caps
        (by simp)
      simpa [Regex.run, Regex.groups] using this
    have := head_seq ic _ _ _ _ _ h1 h2
    simpa [Regex.plus, Nat.add_assoc, Nat.add_comm 1] using this

theorem digit_clsMatch (ic : Bool) (c : Char) :
    clsMatch ic false [('0', '9')] c = isDigitChar c := by
  have h0 : ('0' : Char).toNat = 48 := by decide
  have h9 : ('9' : Char).toNat = 57 := by decide
  cases ic
  · simp [clsMatch, inRanges, isDigitChar, h0, h9]
  · simp only [clsMatch, inRanges, isDigitChar, h0, h9, swapCase, List.any_cons, List.any_nil,
      Bool.or_false, Bool.true_and, Bool.false_eq_true, if_false]
    by_cases hl : 97 ≤ c.toNat ∧ c.toNat ≤ 122
    · rw [if_pos hl]
      have : ¬ (48 ≤ c.toNat - 32 ∧ c.toNat - 32 ≤ 57) := by omega
      have h2 : ¬ (c.toNat ≤ 57) := by omega
      simp [h2]
      omega
    · rw [if_neg hl]
      by_cases hu : 65 ≤ c.toNat ∧ c.toNat ≤ 90
      · rw [if_pos hu]
        have h2 : ¬ (c.toNat ≤ 57) := by omega
        have h3 : ¬ (c.toNat + 32 ≤ 57) := by omega
        simp [h2, h3]
      · rw [if_neg hu]
        simp

/-- First outcome of `\d+` on a run of digits followed by something that is no digit. -/
theorem head_plus_digit (ic : Bool) (ds rest : List Char) (hne : ds ≠ [])
    (hds : ∀ c ∈ ds, isDigitChar c = true)
    (hrest : ∀ c cs, rest = c :: cs → isDigitChar c = false)
    (pos : Nat) (caps : List (Nat × List Char)) :
    ((Regex.plus Regex.digit).run ic ⟨pos, ds ++ rest, caps⟩).head? =
      some ⟨pos + ds.length, rest, caps⟩ :=
  head_plus_cls ic false _ ds rest hne
    (fun c hc => by rw [digit_clsMatch]; exact hds c hc)
    (fun c cs h => by rw [digit_clsMatch]; exact hrest c cs h) pos caps

theorem head_dot (ic : Bool) (pos : Nat) (cs : List Char) (caps : List (Nat × List Char)) :
    ((Regex.chr '.').run ic ⟨pos, '.' :: cs, caps⟩).head? = some ⟨pos + 1, cs, caps⟩ :=
  head_chr ic '.' '.' pos cs caps (by cases ic <;> simp [chrEq])

theorem head_colon (ic : Bool) (pos : Nat) (cs : List Char) (caps : List (Nat × List Char)) :
    ((Regex.chr ':').run ic ⟨pos, ':' :: cs, caps⟩).head? = some ⟨pos + 1, cs, caps⟩ :=
  head_chr ic ':' ':' pos cs caps (by cases ic <;> simp [chrEq])

theorem not_digit_dot (c : Char) (cs : List Char) (rest : List Char)
    (h : '.' :: rest = c :: cs) : isDigitChar c = false := by
  simp only [List.cons.injEq] at h
  rw [← h.1]; decide

theorem not_digit_colon (c : Char) (cs : List Char) (rest : List Char)
    (h : ':' :: rest = c :: cs) : isDigitChar c = false := by
  simp only [List.cons.injEq] at h
  rw [← h.1]; decide

theorem head_quadBody (ic : Bool) (a b c d rest : List Char)
    (ha : a ≠ [] ∧ ∀ x ∈ a, isDigitChar x = true) (hb : b ≠ [] ∧ ∀ x ∈ b, isDigitChar x = true)
    (hc : c ≠ [] ∧ ∀ x ∈ c, isDigitChar x = true) (hd : d ≠ [] ∧ ∀ x ∈ d, isDigitChar x = true)
    (hrest : ∀ x xs, rest = x :: xs → isDigitChar x = false)
    (pos : Nat) (caps : List (Nat × List Char)) :
    (quadBody.run ic ⟨pos, a ++ '.' :: (b ++ '.' :: (c ++ '.' :: (d ++ rest))), caps⟩).head? =
      some ⟨pos + (a ++ '.' :: (b ++ '.' :: (c ++ '.' :: d))).length, rest, caps⟩ := by
  have e1 := head_plus_digit ic a ('.' :: (b ++ '.' :: (c ++ '.' :: (d ++ rest)))) ha.1 ha.2
    (fun x xs h => not_digit_dot x xs _ h) pos caps
  have e2 := head_dot ic (pos + a.length) (b ++ '.' :: (c ++ '.' :: (d ++ rest))) caps
  have e3 := head_plus_digit ic b ('.' :: (c ++ '.' :: (d ++ rest))) hb.1 hb.2
    (fun x xs h => not_digit_dot x xs _ h) (pos + a.length + 1) caps
  have e4 := head_dot ic (pos + a.length + 1 + b.length) (c ++ '.' :: (d ++ rest)) caps
  have e5 := head_plus_digit ic c ('.' :: (d ++ rest)) hc.1 hc.2
    (fun x xs h => not_digit_dot x xs _ h) (pos + a.length + 1 + b.length + 1) caps
  have e6 := head_dot ic (pos + a.length + 1 + b.length + 1 + c.length) (d ++ rest) caps
  have e7 := head_plus_digit ic d rest hd.1 hd.2 hrest
    (pos + a.length + 1 + b.length + 1 + c.length + 1) caps
  have e8 : (Regex.empty.run ic ⟨pos + a.length + 1 + b.length + 1 + c.length + 1 + d.length,
      rest, caps⟩).head? = some ⟨pos + a.length + 1 + b.length + 1 + c.length + 1 + d.length,
      rest, caps⟩ := rfl
  have := head_seq ic _ _ _ _ _ e1 (head_seq ic _ _ _ _ _ e2 (head_seq ic _ _ _ _ _ e3
    (head_seq ic _ _ _ _ _ e4 (head_seq ic _ _ _ _ _ e5 (head_seq ic _ _ _ _ _ e6
    (head_seq ic _ _ _ _ _ e7 e8))))))
  have hlen : pos + (a ++ '.' :: (b ++ '.' :: (c ++ '.' :: d))).length =
      pos + a.length + 1 + b.length + 1 + c.length + 1 + d.length := by
    simp only [List.length_append, List.length_cons]; omega
  rw [hlen]
  exact this

/-! ## Matcher lemmas: what a match consumes -/

theorem stepChar_mem (q : Char → Bool) (s s1 : MState) (h : s1 ∈ stepChar q s) :
    ∃ c, q c = true ∧ s.rest = c :: s1.rest := by
  unfold stepChar at h
  split at h
  · simp at h
  · next c cs hrest =>
    by_cases hq : q c = true
    · simp only [hq, if_true, List.mem_singleton] at h
      subst h
      exact ⟨c, hq, hrest⟩
    · simp [hq] at h

theorem starLoop_suffix (greedy : Bool) (gs : List Nat) (step : MState → List MState)
    (hstep : ∀ s s1, s1 ∈ step s → s1.rest <:+ s.rest) (fuel : Nat) (s s1 : MState)
    (h : s1 ∈ starLoop greedy gs step fuel s) : s1.rest <:+ s.rest := by
  induction fuel generalizing s s1 with
  | zero =>
    simp only [starLoop, List.mem_singleton] at h
    subst h
    exact List.suffix_refl _
  | succ n ih =>
    simp only [starLoop] at h
    have key : ∀ x, x ∈ ((step { s with caps := clearCaps gs s.caps }).filter
        (fun s2 => decide (s2.rest.length < s.rest.length))).flatMap (starLoop greedy gs step n) →
        x.rest <:+ s.rest := by
      intro x hx
      obtain ⟨s2, hs2, hx2⟩ := List.mem_flatMap.mp hx
      have hs2' := (List.mem_filter.mp hs2).1
      exact (ih s2 x hx2).trans (hstep { s with caps := clearCaps gs s.caps } s2 hs2')
    cases greedy with
    | true =>
      simp only [if_true, List.mem_append, List.mem_singleton] at h
      rcases h with h | h
      · exact key _ h
      · subst h; exact List.suffix_refl _
    | false =>
      simp only [Bool.false_eq_true, if_false, List.mem_cons] at h
      rcases h with h | h
      · subst h; exact List.suffix_refl _
      · exact key _ h

/-- Every outcome of a match leaves a suffix of the text it started from. -/
theorem run_suffix (ic : Bool) (r : Regex) (s s1 : MState) (h : s1 ∈ r.run ic s) :
    s1.rest <:+ s.rest := by
  induction r generalizing s s1 with
  | empty =>
    simp only [Regex.run, List.mem_singleton] at h
    subst h; exact List.suffix_refl _
  | chr p =>
    obtain ⟨c, _, hc⟩ := stepChar_mem _ s s1 h
    rw [hc]; exact List.suffix_cons _ _
  | cls neg ranges =>
    obtain ⟨c, _, hc⟩ := stepChar_mem _ s s1 h
    rw [hc]; exact List.suffix_cons _ _
  | any =>
    obtain ⟨c, _, hc⟩ := stepChar_mem _ s s1 h
    rw [hc]; exact List.suffix_cons _ _
  | bos =>
    simp only [Regex.run] at h
    split at h
    · simp only [List.mem_singleton] at h; subst h; exact List.suffix_refl _
    · simp at h
  | eos =>
    simp only [Regex.run] at h
    split at h
    · simp only [List.mem_singleton] at h; subst h; exact List.suffix_refl _
    · simp at h
  | seq a b iha ihb =>
    rw [run_seq] at h
    obtain ⟨s2, hs2, hs1⟩ := List.mem_flatMap.mp h
    exact (ihb s2 s1 hs1).trans (iha s s2 hs2)
  | alt a b iha ihb =>
    rw [run_alt] at h
    rcases List.mem_append.mp h with h | h
    · exact iha s s1 h
    · exact ihb s s1 h
  | star greedy a ih =>
    simp only [Regex.run] at h
    exact starLoop_suffix greedy _ _ (fun x y hy => ih x y hy) _ s s1 h
  | group i a ih =>
    rw [run_group] at h
    obtain ⟨s2, hs2, rfl⟩ := List.mem_map.mp h
    exact ih s s2 hs2

theorem searchFrom_eq_none (ic : Bool) (r : Regex) (l : List Char) (pos : Nat)
    (h : ∀ pre suf, l = pre ++ suf → r.run ic ⟨pos + pre.length, suf, []⟩ = []) :
    searchFrom ic r pos l = none := by
  induction l generalizing pos with
  | nil =>
    have := h [] [] rfl
    simp only [List.length_nil, Nat.add_zero] at this
    simp [searchFrom, matchAt, this]
  | cons c cs ih =>
    have h0 := h [] (c :: cs) rfl
    simp only [List.length_nil, Nat.add_zero] at h0
    have hm : matchAt ic r pos (c :: cs) = none := by simp [matchAt, h0]
    simp only [searchFrom, hm]
    apply ih
    intro pre suf hps
    have := h (c :: pre) suf (by simp [hps])
    simpa [Nat.add_assoc, Nat.add_comm 1] using this

theorem searchFrom_of_matchAt (ic : Bool) (r : Regex) (l : List Char) (pos : Nat)
    (m : MatchResult) (h : matchAt ic r pos l = some m) : searchFrom ic r pos l = some m := by
  cases l with
  | nil => simpa [searchFrom] using h
  | cons c cs => simp [searchFrom, h]

theorem canon_eq_of_not_letter (n : Nat) (c : Char) (hn : ¬ (65 ≤ n ∧ n ≤ 90))
    (h : canon c = n) : c.toNat = n := by
  unfold canon at h
  split at h <;> omega

theorem chrEq_dot (ic : Bool) (c : Char) (h : chrEq ic '.' c = true) : c = '.' := by
  cases ic with
  | false =>
    simp only [chrEq, Bool.false_eq_true, if_false, beq_iff_eq] at h
    exact h.symm
  | true =>
    simp only [chrEq, if_true, beq_iff_eq] at h
    have hd : canon '.' = 46 := by decide
    rw [hd] at h
    have hn := canon_eq_of_not_letter 46 c (by omega) h.symm
    rw [← Char.ofNat_toNat c, hn]

theorem chrEq_colon (c : Char) (h : chrEq true ':' c = true) : c = ':' := by
  simp only [chrEq, if_true, beq_iff_eq] at h
  have hd : canon ':' = 58 := by decide
  rw [hd] at h
  have hn := canon_eq_of_not_letter 58 c (by omega) h.symm
  rw [← Char.ofNat_toNat c, hn]

/-- A match of `\d+\.\d+\.\d+\.\d+` needs a dot in the text. -/
theorem quadBody_needs_dot (ic : Bool) (s s1 : MState) (h : s1 ∈ quadBody.run ic s) :
    '.' ∈ s.rest := by
  simp only [quadBody, Regex.cat, List.foldr, run_seq] at h
  obtain ⟨s2, hs2, h2⟩ := List.mem_flatMap.mp h
  obtain ⟨s3, hs3, _⟩ := List.mem_flatMap.mp h2
  obtain ⟨c, hc, hrest⟩ := stepChar_mem _ s2 s3 hs3
  have hdot := chrEq_dot ic c hc
  have hsuf := run_suffix ic _ s s2 hs2
  apply hsuf.subset
  rw [hrest, hdot]
  exact List.mem_cons_self _ _

theorem reIpv4_none_of_no_dot (addr : String) (h : '.' ∉ addr.data) : reIpv4.exec addr = none := by
  apply searchFrom_eq_none
  intro pre suf hps
  apply List.eq_nil_iff_forall_not_mem.mpr
  intro x hx
  simp only [reIpv4, Regex.cat, List.foldr, run_seq] at hx
  obtain ⟨s2, hs2, _⟩ := List.mem_flatMap.mp hx
  rw [run_group] at hs2
  obtain ⟨s3, hs3, _⟩ := List.mem_map.mp hs2
  have := quadBody_needs_dot false _ s3 (by simpa [quadBody, Regex.cat] using hs3)
  apply h
  rw [hps]
  exact List.mem_append_right _ this

theorem reIpv6Mapped_none_of_no_dot (addr : String) (h : '.' ∉ addr.data) :
    reIpv6Mapped.exec addr = none := by
  apply searchFrom_eq_none
  intro pre suf hps
  apply List.eq_nil_iff_forall_not_mem.mpr
  intro x hx
  simp only [reIpv6Mapped, Regex.cat, List.foldr, run_seq] at hx
  obtain ⟨s1, hs1, hx1⟩ := List.mem_flatMap.mp hx
  obtain ⟨s2, hs2, _⟩ := List.mem_flatMap.mp hx1
  rw [run_group] at hs2
  obtain ⟨s3, hs3, _⟩ := List.mem_map.mp hs2
  have hdot := quadBody_needs_dot true _ s3 (by simpa [quadBody, Regex.cat] using hs3)
  have hsuf := run_suffix true _ _ s1 hs1
  apply h
  rw [hps]
  exact List.mem_append_right _ (hsuf.subset hdot)

/-! ## Address parsing -/

/-- First outcome of `(\d+\.\d+\.\d+\.\d+):(\d+)` on the text `a.b.c.d:p`. -/
theorem head_quadPort (ic : Bool) (a b c d p : List Char)
    (ha : a ≠ [] ∧ ∀ x ∈ a, isDigitChar x = true) (hb : b ≠ [] ∧ ∀ x ∈ b, isDigitChar x = true)
    (hc : c ≠ [] ∧ ∀ x ∈ c, isDigitChar x = true) (hd : d ≠ [] ∧ ∀ x ∈ d, isDigitChar x = true)
    (hp : p ≠ [] ∧ ∀ x ∈ p, isDigitChar x = true)
    (pos : Nat) (caps : List (Nat × List Char)) :
    ((Regex.cat [Regex.group 1 quadBody, Regex.chr ':',
        Regex.group 2 (Regex.plus Regex.digit)]).run ic
      ⟨pos, a ++ '.' :: (b ++ '.' :: (c ++ '.' :: (d ++ ':' :: p))), caps⟩).head? =
      some ⟨pos + (a ++ '.' :: (b ++ '.' :: (c ++ '.' :: d))).length + 1 + p.length, [],
        setCap 2 p (setCap 1 (a ++ '.' :: (b ++ '.' :: (c ++ '.' :: d))) caps)⟩ := by
  have hform : a ++ '.' :: (b ++ '.' :: (c ++ '.' :: (d ++ ':' :: p))) =
      (a ++ '.' :: (b ++ '.' :: (c ++ '.' :: d))) ++ ':' :: p := by simp
  generalize hq : a ++ '.' :: (b ++ '.' :: (c ++ '.' :: d)) = quad at hform ⊢
  have e0 := head_quadBody ic a b c d (':' :: p) ha hb hc hd
    (fun x xs h => not_digit_colon x xs _ h) pos caps
  rw [hq, hform] at e0
  have e1 := head_group ic 1 quadBody _ _ e0
  have htake : List.take (pos + quad.length - pos) (quad ++ ':' :: p) = quad := by
    rw [Nat.add_sub_cancel_left]; exact List.take_left' rfl
  simp only [htake] at e1
  have e2 := head_colon ic (pos + quad.length) p (setCap 1 quad caps)
  have e3 := head_plus_digit ic p [] hp.1 hp.2 (fun x xs h => by cases h)
    (pos + quad.length + 1) (setCap 1 quad caps)
  have e4 := head_group ic 2 _ _ _ e3
  have htake2 : List.take (pos + quad.length + 1 + p.length - (pos + quad.length + 1)) (p ++ [])
      = p := by
    rw [Nat.add_sub_cancel_left, List.append_nil]; exact List.take_of_length_le (Nat.le_refl _)
  simp only [htake2] at e4
  rw [List.append_nil] at e4
  have e5 : (Regex.empty.run ic ⟨pos + quad.length + 1 + p.length, [],
      setCap 2 p (setCap 1 quad caps)⟩).head? = some ⟨pos + quad.length + 1 + p.length, [],
      setCap 2 p (setCap 1 quad caps)⟩ := rfl
  rw [hform]
  exact head_seq ic _ _ _ _ _ e1 (head_seq ic _ _ _ _ _ e2 (head_seq ic _ _ _ _ _ e4 e5))

theorem exec_of_head (re : RegExp) (addr : String) (s1 : MState)
    (h : (re.pattern.run re.ignoreCase ⟨0, addr.data, []⟩).head? = some s1) :
    ∃ m, re.exec addr = some m ∧ m.caps = s1.caps := by
  refine ⟨⟨0, addr.data.take (s1.pos - 0), s1.caps⟩, ?_, rfl⟩
  apply searchFrom_of_matchAt
  simp [matchAt, h]

theorem cap_eq (m : MatchResult) (p quad : List Char)
    (h : m.caps = setCap 2 p (setCap 1 quad [])) :
    m.cap 1 = some (String.mk quad) ∧ m.cap 2 = some (String.mk p) := by
  simp [MatchResult.cap, h, setCap, List.find?, List.filter]

theorem digits_of_isDigits (s : String) (h : isDigits s = true) :
    s.data ≠ [] ∧ ∀ x ∈ s.data, isDigitChar x = true := by
  simp only [isDigits, Bool.and_eq_true, Bool.not_eq_true', List.isEmpty_eq_false,
    List.all_eq_true] at h
  exact h

theorem exec_ipv4_quad (addr : String) (a b c d p : List Char)
    (ha : a ≠ [] ∧ ∀ x ∈ a, isDigitChar x = true) (hb : b ≠ [] ∧ ∀ x ∈ b, isDigitChar x = true)
    (hc : c ≠ [] ∧ ∀ x ∈ c, isDigitChar x = true) (hd : d ≠ [] ∧ ∀ x ∈ d, isDigitChar x = true)
    (hp : p ≠ [] ∧ ∀ x ∈ p, isDigitChar x = true)
    (haddr : addr.data = a ++ '.' :: (b ++ '.' :: (c ++ '.' :: (d ++ ':' :: p)))) :
    ∃ m, reIpv4.exec addr = some m ∧
      m.caps = setCap 2 p (setCap 1 (a ++ '.' :: (b ++ '.' :: (c ++ '.' :: d))) []) := by
  have h := head_quadPort false a b c d p ha hb hc hd hp 0 []
  rw [← haddr] at h
  exact exec_of_head reIpv4 addr _ h

theorem exec_mapped_quad (addr : String) (a b c d p : List Char)
    (ha : a ≠ [] ∧ ∀ x ∈ a, isDigitChar x = true) (hb : b ≠ [] ∧ ∀ x ∈ b, isDigitChar x = true)
    (hc : c ≠ [] ∧ ∀ x ∈ c, isDigitChar x = true) (hd : d ≠ [] ∧ ∀ x ∈ d, isDigitChar x = true)
    (hp : p ≠ [] ∧ ∀ x ∈ p, isDigitChar x = true)
    (haddr : addr.data =
      ("::ffff:" : String).data ++ (a ++ '.' :: (b ++ '.' :: (c ++ '.' :: (d ++ ':' :: p))))) :
    ∃ m, reIpv6Mapped.exec addr = some m ∧
      m.caps = setCap 2 p (setCap 1 (a ++ '.' :: (b ++ '.' :: (c ++ '.' :: d))) []) := by
  have h1 := head_lit true "::ffff:" 0 ("::ffff:" : String).data
    (a ++ '.' :: (b ++ '.' :: (c ++ '.' :: (d ++ ':' :: p)))) [] rfl
    (litPrefix_of_canon _ _ _ rfl)
  have h2 := head_quadPort true a b c d p ha hb hc hd hp (0 + ("::ffff:" : String).data.length) []
  have h := head_seq true _ _ _ _ _ h1 h2
  rw [← haddr] at h
  exact exec_of_head reIpv6Mapped addr _ h

theorem litPrefix_mapped (suf : List Char)
    (h : litPrefix true ("::ffff:" : String).data suf = true) :
    ∃ t, suf = ':' :: ':' :: t := by
  have hdata : ("::ffff:" : String).data = [':', ':', 'f', 'f', 'f', 'f', ':'] := rfl
  rw [hdata] at h
  cases suf with
  | nil => simp [litPrefix] at h
  | cons c1 t1 =>
    cases t1 with
    | nil => simp [litPrefix] at h
    | cons c2 t =>
      simp only [litPrefix, Bool.and_eq_true] at h
      have e1 := chrEq_colon c1 h.1
      have e2 := chrEq_colon c2 h.2.1
      exact ⟨t, by rw [e1, e2]⟩

theorem reIpv6Mapped_none_of_single_colon (addr : String) (h : addr.data.count ':' ≤ 1) :
    reIpv6Mapped.exec addr = none := by
  apply searchFrom_eq_none
  intro pre suf hps
  have hlit : litPrefix true ("::ffff:" : String).data suf = false := by
    cases hl : litPrefix true ("::ffff:" : String).data suf with
    | false => rfl
    | true =>
      obtain ⟨t, ht⟩ := litPrefix_mapped suf hl
      rw [hps, ht] at h
      simp only [List.count_append, List.count_cons, beq_self_eq_true, if_true] at h
      omega
  simp only [reIpv6Mapped, Regex.cat, List.foldr, run_seq, run_lit, hlit]
  simp

theorem count_colon_digits (ds : List Char) (h : ∀ x ∈ ds, isDigitChar x = true) :
    ds.count ':' = 0 := by
  apply List.count_eq_zero.mpr
  intro hmem
  have := h ':' hmem
  revert this
  decide

theorem count_colon_quadPort (a b c d p : List Char)
    (ha : ∀ x ∈ a, isDigitChar x = true) (hb : ∀ x ∈ b, isDigitChar x = true)
    (hc : ∀ x ∈ c, isDigitChar x = true) (hd : ∀ x ∈ d, isDigitChar x = true)
    (hp : ∀ x ∈ p, isDigitChar x = true) :
    (a ++ '.' :: (b ++ '.' :: (c ++ '.' :: (d ++ ':' :: p)))).count ':' ≤ 1 := by
  have h0 : ('.' == ':') = false := by decide
  simp [List.count_append, List.count_cons, count_colon_digits a ha, count_colon_digits b hb,
    count_colon_digits c hc, count_colon_digits d hd, count_colon_digits p hp, h0]

theorem hexColon_not_bracket (c : Char) (h : isHexColonChar c = true) :
    clsMatch false true [(']', ']')] c = true := by
  have hb : (']' : Char).toNat = 93 := by decide
  have hn : c.toNat ≠ 93 := by
    simp only [isHexColonChar, isDigitChar, Bool.or_eq_true, Bool.and_eq_true, decide_eq_true_eq,
      beq_iff_eq] at h
    rcases h with ((h | h) | h) | h
    · omega
    · omega
    · omega
    · rw [h]; decide
  simp only [clsMatch, inRanges, hb, List.any_cons, List.any_nil, Bool.or_false,
    Bool.false_and, if_true, Bool.not_eq_true', Bool.and_eq_false_iff, decide_eq_false_iff_not]
  omega

theorem hexColon_not_dot (c : Char) (h : isHexColonChar c = true) : c ≠ '.' := by
  intro hc
  rw [hc] at h
  revert h
  decide

theorem digit_not_dot (c : Char) (h : isDigitChar c = true) : c ≠ '.' := by
  intro hc
  rw [hc] at h
  revert h
  decide

theorem hexColons_of_isHexColons (s : String) (h : isHexColons s = true) :
    s.data ≠ [] ∧ ∀ x ∈ s.data, isHexColonChar x = true := by
  simp only [isHexColons, Bool.and_eq_true, Bool.not_eq_true', List.isEmpty_eq_false,
    List.all_eq_true] at h
  exact h

theorem exec_bracket (addr : String) (x p : List Char)
    (hx : x ≠ [] ∧ ∀ c ∈ x, isHexColonChar c = true)
    (hp : p ≠ [] ∧ ∀ c ∈ p, isDigitChar c = true)
    (haddr : addr.data = '[' :: (x ++ ']' :: ':' :: p)) :
    ∃ m, reIpv6Bracket.exec addr = some m ∧ m.caps = setCap 2 p (setCap 1 x []) := by
  have e1 := head_chr false '[' '[' 0 (x ++ ']' :: ':' :: p) [] (by simp [chrEq])
  have e2 := head_plus_cls false true [(']', ']')] x (']' :: ':' :: p) hx.1
    (fun c hc => hexColon_not_bracket c (hx.2 c hc))
    (fun c cs h => by
      simp only [List.cons.injEq] at h
      rw [← h.1]; decide) (0 + 1) []
  have e3 := head_group false 1 _ _ _ e2
  have htake : List.take (0 + 1 + x.length - (0 + 1)) (x ++ ']' :: ':' :: p) = x := by
    rw [Nat.add_sub_cancel_left]; exact List.take_left' rfl
  simp only [htake] at e3
  have e4 := head_lit false "]:" (0 + 1 + x.length) ("]:" : String).data p (setCap 1 x []) rfl
    (by
      have : ("]:" : String).data = [']', ':'] := rfl
      simp [this, litPrefix, chrEq])
  have e5 := head_plus_digit false p [] hp.1 hp.2 (fun c cs h => by cases h)
    (0 + 1 + x.length + ("]:" : String).data.length) (setCap 1 x [])
  have e6 := head_group false 2 _ _ _ e5
  have htake2 : List.take (0 + 1 + x.length + ("]:" : String).data.length + p.length -
      (0 + 1 + x.length + ("]:" : String).data.length)) (p ++ []) = p := by
    rw [Nat.add_sub_cancel_left, List.append_nil]; exact List.take_of_length_le (Nat.le_refl _)
  simp only [htake2] at e6
  rw [List.append_nil] at e6
  have e7 : (Regex.empty.run false ⟨0 + 1 + x.length + ("]:" : String).data.length + p.length, [],
      setCap 2 p (setCap 1 x [])⟩).head? = some ⟨0 + 1 + x.length + ("]:" : String).data.length
      + p.length, [], setCap 2 p (setCap 1 x [])⟩ := rfl
  have hdata : ("]:" : String).data ++ p = ']' :: ':' :: p := rfl
  rw [hdata] at e4
  have h := head_seq false _ _ _ _ _ e1 (head_seq false _ _ _ _ _ e3
    (head_seq false _ _ _ _ _ e4 (head_seq false _ _ _ _ _ e6 e7)))
  rw [← haddr] at h
  exact exec_of_head reIpv6Bracket addr _ h

theorem ne_empty_of_data (addr : String) (c : Char) (cs : List Char)
    (h : addr.data = c :: cs) : addr ≠ "" := by
  intro he
  rw [he] at h
  cases h

theorem parseAddress_mapped (addr : String) (hne : addr ≠ "") (m : MatchResult)
    (hm : reIpv6Mapped.exec addr = some m) :
    parseAddress addr = { ip := m.cap 1, port := m.cap 2 } := by
  simp only [parseAddress, if_neg hne, hm]

theorem parseAddress_ipv4 (addr : String) (hne : addr ≠ "")
    (hmapped : reIpv6Mapped.exec addr = none) (m : MatchResult)
    (hm : reIpv4.exec addr = some m) :
    parseAddress addr = { ip := m.cap 1, port := m.cap 2 } := by
  simp only [parseAddress, if_neg hne, hmapped, hm]

theorem parseAddress_bracket (addr : String) (hne : addr ≠ "")
    (hmapped : reIpv6Mapped.exec addr = none) (hv4 : reIpv4.exec addr = none) (m : MatchResult)
    (hm : reIpv6Bracket.exec addr = some m) :
    parseAddress addr = { ip := m.cap 1, port := m.cap 2 } := by
  simp only [parseAddress, if_neg hne, hmapped, hv4, hm]

/-- C7. `parseAddress` inverts the three renderings of an endpoint: for non-empty decimal
digit strings `a`, `b`, `c`, `d`, `p` the texts `a.b.c.d:p` and `::ffff:a.b.c.d:p` both
parse to ip `a.b.c.d`, port `p`; and for a non-empty text `x` of hexadecimal digits and
colons, `[x]:p` parses to ip `x`, port `p`. -/
theorem parseAddress_roundtrip (a b c d p x : String)
    (ha : isDigits a = true) (hb : isDigits b = true) (hc : isDigits c = true)
    (hd : isDigits d = true) (hp : isDigits p = true) (hx : isHexColons x = true) :
    parseAddress (dottedQuad a b c d ++ ":" ++ p) =
      { ip := some (dottedQuad a b c d), port := some p } ∧
    parseAddress ("::ffff:" ++ dottedQuad a b c d ++ ":" ++ p) =
      { ip := some (dottedQuad a b c d), port := some p } ∧
    parseAddress ("[" ++ x ++ "]:" ++ p) = { ip := some x, port := some p } := by
  have ha' := digits_of_isDigits a ha
  have hb' := digits_of_isDigits b hb
  have hc' := digits_of_isDigits c hc
  have hd' := digits_of_isDigits d hd
  have hp' := digits_of_isDigits p hp
  have hx' := hexColons_of_isHexColons x hx
  have hdot : (".": String).data = ['.'] := rfl
  have hcol : (":": String).data = [':'] := rfl
  have hquad : (dottedQuad a b c d).data =
      a.data ++ '.' :: (b.data ++ '.' :: (c.data ++ '.' :: d.data)) := by
    simp [dottedQuad, String.data_append, hdot]
  refine ⟨?_, ?_, ?_⟩
  · have haddr : (dottedQuad a b c d ++ ":" ++ p).data =
        a.data ++ '.' :: (b.data ++ '.' :: (c.data ++ '.' :: (d.data ++ ':' :: p.data))) := by
      simp [String.data_append, hquad, hcol]
    have hne : dottedQuad a b c d ++ ":" ++ p ≠ "" := by
      obtain ⟨y, ys, hy⟩ := List.exists_cons_of_ne_nil ha'.1
      exact ne_empty_of_data _ y _ (by rw [haddr, hy]; rfl)
    have hmapped := reIpv6Mapped_none_of_single_colon (dottedQuad a b c d ++ ":" ++ p)
      (by rw [haddr]; exact count_colon_quadPort _ _ _ _ _ ha'.2 hb'.2 hc'.2 hd'.2 hp'.2)
    obtain ⟨m, hm, hcaps⟩ := exec_ipv4_quad _ a.data b.data c.data d.data p.data
      ha' hb' hc' hd' hp' haddr
    obtain ⟨h1, h2⟩ := cap_eq m _ _ hcaps
    rw [parseAddress_ipv4 _ hne hmapped m hm, h1, h2, ← hquad]
  · have hpre : ("::ffff:" : String).data = [':', ':', 'f', 'f', 'f', 'f', ':'] := rfl
    have haddr : ("::ffff:" ++ dottedQuad a b c d ++ ":" ++ p).data =
        ("::ffff:" : String).data ++
          (a.data ++ '.' :: (b.data ++ '.' :: (c.data ++ '.' :: (d.data ++ ':' :: p.data)))) := by
      simp [String.data_append, hquad, hcol]
    have hne : "::ffff:" ++ dottedQuad a b c d ++ ":" ++ p ≠ "" :=
      ne_empty_of_data _ ':' _ (by rw [haddr, hpre]; rfl)
    obtain ⟨m, hm, hcaps⟩ := exec_mapped_quad _ a.data b.data c.data d.data p.data
      ha' hb' hc' hd' hp' haddr
    obtain ⟨h1, h2⟩ := cap_eq m _ _ hcaps
    rw [parseAddress_mapped _ hne m hm, h1, h2, ← hquad]
  · have hopen : ("[": String).data = ['['] := rfl
    have hclose : ("]:": String).data = [']', ':'] := rfl
    have haddr : ("[" ++ x ++ "]:" ++ p).data = '[' :: (x.data ++ ']' :: ':' :: p.data) := by
      simp [String.data_append, hopen, hclose]
    have hne : "[" ++ x ++ "]:" ++ p ≠ "" := ne_empty_of_data _ '[' _ haddr
    have hnodot : '.' ∉ ("[" ++ x ++ "]:" ++ p).data := by
      rw [haddr]
      simp only [List.mem_cons, List.mem_append, not_or]
      refine ⟨by decide, fun h => hexColon_not_dot _ (hx'.2 _ h) rfl, by decide, by decide,
        fun h => digit_not_dot _ (hp'.2 _ h) rfl⟩
    have hmapped := reIpv6Mapped_none_of_no_dot _ hnodot
    have hv4 := reIpv4_none_of_no_dot _ hnodot
    obtain ⟨m, hm, hcaps⟩ := exec_bracket _ x.data p.data hx' hp' haddr
    obtain ⟨h1, h2⟩ := cap_eq m _ _ hcaps
    rw [parseAddress_bracket _ hne hmapped hv4 m hm, h1, h2]

/-- Witness for C7: the three renderings `10.0.0.5:443`, `::ffff:192.168.1.5:5555` and
`[::1]:80`. -/
theorem parseAddress_roundtrip_witness :
    parseAddress "10.0.0.5:443" = { ip := some "10.0.0.5", port := some "443" } ∧
    parseAddress "::ffff:192.168.1.5:5555" = { ip := some "192.168.1.5", port := some "5555" } ∧
    parseAddress "[::1]:80" = { ip := some "::1", port := some "80" } :=
  ⟨(parseAddress_roundtrip "10" "0" "0" "5" "443" "::1" (by decide!) (by decide!) (by decide!)
      (by decide!) (by decide!) (by decide!)).1,
   (parseAddress_roundtrip "192" "168" "1" "5" "5555" "::1" (by decide!) (by decide!)
      (by decide!) (by decide!) (by decide!) (by decide!)).2.1,
   (parseAddress_roundtrip "1" "1" "1" "1" "80" "::1" (by decide!) (by decide!) (by decide!)
      (by decide!) (by decide!) (by decide!)).2.2⟩

theorem parseAddress_empty_forms :
    reIpv6Mapped.exec "" = none ∧ reIpv4.exec "" = none ∧ reIpv6Bracket.exec "" = none ∧
    lastColonForm "" = none := by
  decide!

theorem parseAddress_eq_sourceOrder (addr : String) :
    parseAddress addr = parseAddressBy sourceOrder addr := by
  by_cases hne : addr = ""
  · subst hne
    obtain ⟨h1, h2, h3, h4⟩ := parseAddress_empty_forms
    simp [parseAddress, parseAddressBy, sourceOrder, firstForm, patternForm, h1, h2, h3, h4]
  · simp only [parseAddress, if_neg hne, parseAddressBy, sourceOrder, firstForm, patternForm,
      lastColonForm]
    cases reIpv6Mapped.exec addr with
    | some m => rfl
    | none =>
      cases reIpv4.exec addr with
      | some m => rfl
      | none =>
        cases reIpv6Bracket.exec addr with
        | some m => rfl
        | none =>
          simp only [Option.map_none']
          split <;> rfl

theorem sourceOrder_eq_specOrder (addr : String)
    (h : reIpv6Mapped.exec addr = none ∨ reIpv4.exec addr = none) :
    parseAddressBy sourceOrder addr = parseAddressBy specOrder addr := by
  simp only [parseAddressBy, sourceOrder, specOrder, firstForm, patternForm]
  rcases h with h | h
  · rw [h]
    cases reIpv4.exec addr <;> rfl
  · rw [h]
    cases reIpv6Mapped.exec addr <;> rfl

/-- C8 (as stated) fails: on `1.2.3.4:5::ffff:6.7.8.9:10` both the IPv4 form and the
IPv6-mapped form match; the code answers with the mapped form (ip 6.7.8.9, port 10), the
order of the claim would answer with the IPv4 form (ip 1.2.3.4, port 5). -/
theorem parseAddress_specOrder_counterexample :
    parseAddress "1.2.3.4:5::ffff:6.7.8.9:10" = { ip := some "6.7.8.9", port := some "10" } ∧
    parseAddressBy specOrder "1.2.3.4:5::ffff:6.7.8.9:10" =
      { ip := some "1.2.3.4", port := some "5" } ∧
    parseAddress "1.2.3.4:5::ffff:6.7.8.9:10" ≠
      parseAddressBy specOrder "1.2.3.4:5::ffff:6.7.8.9:10" := by
  decide!

/-- C8 (amended). For every address string, `parseAddress` equals trying the four forms
in the order IPv6-mapped IPv4 first, then IPv4 literal, then bracketed IPv6, then the
last-colon fallback (each pattern form matched anywhere in the text), returning the first
form that matches, and the address itself with an empty port when none does.  The order
of the first two forms matters only when both match: whenever one of them does not match,
the IPv4-first order gives the same result. -/
theorem parseAddress_refines_sourceOrder (addr : String) :
    parseAddress addr = parseAddressBy sourceOrder addr ∧
    (reIpv6Mapped.exec addr = none ∨ reIpv4.exec addr = none →
      parseAddress addr = parseAddressBy specOrder addr) :=
  ⟨parseAddress_eq_sourceOrder addr,
   fun h => (parseAddress_eq_sourceOrder addr).trans (sourceOrder_eq_specOrder addr h)⟩

/-- Witness for C8 (amended): `10.0.0.5:443` has no IPv6-mapped match, so both orders give
ip 10.0.0.5, port 443; `foo:bar` falls through to the last colon; `:bar` has no form. -/
theorem parseAddress_refines_sourceOrder_witness :
    reIpv6Mapped.exec "10.0.0.5:443" = none ∧
    parseAddress "10.0.0.5:443" = parseAddressBy specOrder "10.0.0.5:443" ∧
    parseAddressBy sourceOrder "foo:bar" = { ip := some "foo", port := some "bar" } ∧
    parseAddressBy sourceOrder ":bar" = { ip := some ":bar", port := some "" } :=
  ⟨by decide!,
   (parseAddress_refines_sourceOrder "10.0.0.5:443").2 (Or.inl (by decide!)),
   by decide!, by decide!⟩

/-! ## CPU cluster labelling -/

theorem groupOf_addToGroup (f b : Int) (i : Nat) (groups : FreqGroups) :
    groupOf f (addToGroup b i groups) =
      if f = b then groupOf f groups ++ [i] else groupOf f groups := by
  induction groups with
  | nil =>
    by_cases h : f = b
    · simp [addToGroup, groupOf, h]
    · have h' : ¬ b = f := fun e => h e.symm
      simp [addToGroup, groupOf, h, h']
  | cons x xs ih =>
    obtain ⟨k, members⟩ := x
    by_cases hk : k = b
    · subst hk
      by_cases hf : f = k
      · subst hf; simp [addToGroup, groupOf]
      · have hf' : ¬ k = f := fun e => hf e.symm
        simp [addToGroup, groupOf, hf, hf']
    · by_cases hf : k = f
      · subst hf
        have hb : ¬ k = b := hk
        simp [addToGroup, groupOf, hk]
      · simp only [addToGroup, hk, if_false, groupOf, hf, ih]

theorem groupOf_collectGroups (f : Int) (cores : List Core) (i : Nat) (groups : FreqGroups) :
    groupOf f (collectGroups i cores groups) = groupOf f groups ++ positionsOf f i cores := by
  induction cores generalizing i groups with
  | nil => simp [collectGroups, positionsOf]
  | cons c cs ih =>
    simp only [collectGroups, positionsOf, ih, groupOf_addToGroup]
    by_cases h : f = freqBucket c
    · subst h
      simp
    · have h' : ¬ freqBucket c = f := fun e => h e.symm
      simp [h, h']

theorem mem_positionsOf (f : Int) (cores : List Core) (i j : Nat) :
    j ∈ positionsOf f i cores ↔
      i ≤ j ∧ ∃ c, cores[j - i]? = some c ∧ freqBucket c = f := by
  induction cores generalizing i with
  | nil => simp [positionsOf]
  | cons c cs ih =>
    simp only [positionsOf, List.mem_append, ih]
    constructor
    · rintro (h | ⟨hle, c2, hc2, hb⟩)
      · by_cases hc : freqBucket c = f
        · simp only [hc, if_true, List.mem_singleton] at h
          subst h
          exact ⟨Nat.le_refl _, c, by simp, hc⟩
        · simp [hc] at h
      · refine ⟨by omega, c2, ?_, hb⟩
        have : j - i = (j - (i + 1)) + 1 := by omega
        rw [this, List.getElem?_cons_succ]
        exact hc2
    · rintro ⟨hle, c2, hc2, hb⟩
      by_cases hij : j = i
      · left
        subst hij
        simp only [Nat.sub_self, List.getElem?_cons_zero, Option.some.injEq] at hc2
        subst hc2
        simp [hb]
      · right
        refine ⟨by omega, c2, ?_, hb⟩
        have : j - i = (j - (i + 1)) + 1 := by omega
        rw [this, List.getElem?_cons_succ] at hc2
        exact hc2

/-- A core's position is filed under its own bucket and under no other. -/
theorem mem_groupOf_collect (f : Int) (cores : List Core) (j : Nat) :
    j ∈ groupOf f (collectGroups 0 cores []) ↔ ∃ c, cores[j]? = some c ∧ freqBucket c = f := by
  rw [groupOf_collectGroups]
  simp [groupOf, mem_positionsOf]

theorem keys_addToGroup (b : Int) (i : Nat) (groups : FreqGroups) :
    (addToGroup b i groups).map Prod.fst =
      if b ∈ groups.map Prod.fst then groups.map Prod.fst else groups.map Prod.fst ++ [b] := by
  induction groups with
  | nil => simp [addToGroup]
  | cons x xs ih =>
    obtain ⟨k, members⟩ := x
    by_cases hk : k = b
    · subst hk; simp [addToGroup]
    · have hk' : ¬ b = k := fun e => hk e.symm
      simp only [addToGroup, hk, if_false, List.map_cons, ih, List.mem_cons, hk', false_or]
      split <;> simp

theorem keys_collectGroups (cores : List Core) (i : Nat) (groups : FreqGroups)
    (hnd : (groups.map Prod.fst).Nodup) :
    ((collectGroups i cores groups).map Prod.fst).Nodup ∧
    ∀ f, f ∈ (collectGroups i cores groups).map Prod.fst ↔
      f ∈ groups.map Prod.fst ∨ ∃ c ∈ cores, freqBucket c = f := by
  induction cores generalizing i groups with
  | nil => simp [collectGroups, hnd]
  | cons c cs ih =>
    have hnd' : ((addToGroup (freqBucket c) i groups).map Prod.fst).Nodup := by
      rw [keys_addToGroup]
      split
      · exact hnd
      · next hmem =>
        refine List.Nodup.append hnd (List.nodup_singleton _) ?_
        intro a ha hb
        rw [List.mem_singleton] at hb
        exact hmem (hb ▸ ha)
    obtain ⟨h1, h2⟩ := ih (i + 1) (addToGroup (freqBucket c) i groups) hnd'
    refine ⟨h1, fun f => ?_⟩
    simp only [collectGroups, h2, keys_addToGroup]
    constructor
    · rintro (h | ⟨c2, hc2, hb⟩)
      · split at h
        · exact Or.inl h
        · rcases List.mem_append.mp h with h | h
          · exact Or.inl h
          · right
            exact ⟨c, List.mem_cons_self _ _, (List.mem_singleton.mp h).symm⟩
      · exact Or.inr ⟨c2, List.mem_cons_of_mem _ hc2, hb⟩
    · rintro (h | ⟨c2, hc2, hb⟩)
      · left
        split
        · exact h
        · exact List.mem_append_left _ h
      · rcases List.mem_cons.mp hc2 with rfl | hc2
        · left
          split
          · next hmem => rw [← hb]; exact hmem
          · exact List.mem_append_right _ (List.mem_singleton.mpr hb.symm)
        · exact Or.inr ⟨c2, hc2, hb⟩

/-- The array `sortedFreqs` lists the distinct buckets of the cores in ascending order. -/
theorem sortedFreqs_spec (cores : List Core) :
    (sortedFreqs cores).Sorted (· < ·) ∧
    ∀ f, f ∈ sortedFreqs cores ↔ ∃ c ∈ cores, freqBucket c = f := by
  obtain ⟨h1, h2⟩ := keys_collectGroups cores 0 [] (by simp)
  constructor
  · apply List.Sorted.lt_of_le
    · exact List.sorted_insertionSort _ _
    · exact (List.perm_insertionSort _ _).nodup_iff.mpr h1
  · intro f
    simp only [sortedFreqs, sortedFreqsOf, List.mem_insertionSort, h2]
    simp

theorem setTier_setTier (e1 e2 : Bool) (c : Core) : setTier e2 (setTier e1 c) = setTier e2 c := by
  simp [setTier, maxMHz]

theorem labelGroup_length (e : Bool) (members : List Nat) (cores : List Core) :
    (labelGroup e members cores).length = cores.length := by
  induction members generalizing cores with
  | nil => rfl
  | cons i more ih => simp [labelGroup, ih]

theorem labelGroup_get (e : Bool) (members : List Nat) (cores : List Core) (j : Nat) :
    (labelGroup e members cores)[j]? =
      if j ∈ members then (cores[j]?).map (setTier e) else cores[j]? := by
  induction members generalizing cores with
  | nil => simp [labelGroup]
  | cons i more ih =>
    simp only [labelGroup, ih, List.getElem?_modify, List.mem_cons]
    by_cases hij : i = j
    · subst hij
      cases hc : cores[i]? with
      | none => simp
      | some c => simp [setTier_setTier]
    · have hji : ¬ j = i := fun h => hij h.symm
      cases hc : cores[j]? with
      | none => simp
      | some c => simp [hij, hji]

theorem labelLoop_length (groups : FreqGroups) (midpoint : Nat) (freqs : List Int) (idx : Nat)
    (cores : List Core) : (labelLoop groups midpoint idx freqs cores).length = cores.length := by
  induction freqs generalizing idx cores with
  | nil => rfl
  | cons f more ih => simp [labelLoop, ih, labelGroup_length]

theorem labelLoop_get (groups : FreqGroups) (midpoint : Nat) (b : Int) (j : Nat)
    (hG : ∀ f, j ∈ groupOf f groups ↔ f = b) (freqs : List Int) (hnd : freqs.Nodup)
    (idx : Nat) (cores : List Core) :
    (labelLoop groups midpoint idx freqs cores)[j]? =
      if b ∈ freqs then
        (cores[j]?).map (setTier (decide (idx + freqs.indexOf b < midpoint)))
      else cores[j]? := by
  induction freqs generalizing idx cores with
  | nil => simp [labelLoop]
  | cons f more ih =>
    have hnd' := (List.nodup_cons.mp hnd).2
    have hf := (List.nodup_cons.mp hnd).1
    simp only [labelLoop, ih hnd', labelGroup_get, hG]
    by_cases hfb : f = b
    · subst hfb
      simp [hf]
    · have hbf : ¬ b = f := fun h => hfb h.symm
      simp only [hfb, if_false, List.mem_cons, hbf, false_or, List.indexOf_cons_ne _ hfb]
      have : idx + 1 + List.indexOf b more = idx + (List.indexOf b more).succ := by omega
      rw [this]

theorem mem_take_iff_indexOf (b : Int) (l : List Int) (m : Nat) :
    b ∈ l.take m ↔ l.indexOf b < m ∧ b ∈ l := by
  induction l generalizing m with
  | nil => simp
  | cons x xs ih =>
    cases m with
    | zero => simp
    | succ n =>
      by_cases hx : x = b
      · subst hx; simp
      · have hb : ¬ b = x := fun h => hx h.symm
        simp [List.take_succ_cons, List.indexOf_cons_ne _ hx, ih, hb]

theorem assignClusters_get (cores : List Core) (h2 : 2 ≤ (sortedFreqs cores).length) (j : Nat)
    (c : Core) (hc : cores[j]? = some c) :
    (assignClusters cores)[j]? =
      some (setTier (decide (freqBucket c ∈
        (sortedFreqs cores).take ((sortedFreqs cores).length / 2))) c) := by
  obtain ⟨hsorted, hmem⟩ := sortedFreqs_spec cores
  have hb : freqBucket c ∈ sortedFreqs cores :=
    (hmem _).mpr ⟨c, List.getElem?_mem hc, rfl⟩
  have hG : ∀ f, j ∈ groupOf f (collectGroups 0 cores []) ↔ f = freqBucket c := by
    intro f
    rw [mem_groupOf_collect]
    constructor
    · rintro ⟨c2, hc2, hf⟩
      rw [hc] at hc2
      cases hc2
      exact hf.symm
    · intro hf
      exact ⟨c, hc, hf.symm⟩
  have hloop := labelLoop_get (collectGroups 0 cores []) ((sortedFreqs cores).length / 2)
    (freqBucket c) j hG (sortedFreqs cores) hsorted.nodup 0 cores
  have hdec : decide (0 + List.indexOf (freqBucket c) (sortedFreqs cores) <
        (sortedFreqs cores).length / 2) =
      decide (freqBucket c ∈ (sortedFreqs cores).take ((sortedFreqs cores).length / 2)) := by
    apply decide_eq_decide.mpr
    rw [mem_take_iff_indexOf, Nat.zero_add]
    exact ⟨fun h => ⟨h, hb⟩, fun h => h.1⟩
  rw [if_pos hb, hc, hdec] at hloop
  have hunf : assignClusters cores =
      labelLoop (collectGroups 0 cores []) ((sortedFreqs cores).length / 2) 0
        (sortedFreqs cores) cores := by
    have h2' : (sortedFreqsOf (collectGroups 0 cores [])).length ≥ 2 := h2
    simp only [assignClusters, h2', if_true, sortedFreqs]
  rw [hunf, hloop]
  rfl

theorem assignClusters_length (cores : List Core) :
    (assignClusters cores).length = cores.length := by
  unfold assignClusters
  simp only []
  split
  · exact labelLoop_length _ _ _ _ _
  · simp

theorem setTier_cluster (e : Bool) (c : Core) :
    (setTier e c).cluster = if e then "efficiency" else "performance" := rfl

/-! ## Domain classification: the fallback rules -/

theorem firstSuspicious_eq_none (domain : String) (table : List DomainPattern)
    (h : ∀ p ∈ table, p.pattern.test domain = false) : firstSuspicious domain table = none := by
  induction table with
  | nil => rfl
  | cons x xs ih =>
    have hx := h x (List.mem_cons_self _ _)
    simp only [firstSuspicious, hx]
    exact ih (fun p hp => h p (List.mem_cons_of_mem _ hp))

/-- C14. For a domain that no allow-list pattern and no suspicious pattern matches, an
`ipInfo` with risk high gives the verdict ip-based with risk medium and `isSuspicious`
true, whether or not the domain ends with `.cn`: the IP-ownership rule comes first. -/
theorem analyzeDomainForC2_ip_based (domain ip : String) (info : IpInfo)
    (hlegit : ∀ re ∈ legitimateDomains, re.test domain = false)
    (hsusp : ∀ p ∈ suspiciousDomainPatterns, p.pattern.test domain = false)
    (hrisk : info.risk = some "high") :
    analyzeDomainForC2 domain ip (some info) =
      { isSuspicious := true,
        reason := some ("Resolves to " ++ templ info.owner ++ " (" ++ templ info.country ++ ")"),
        category := "ip-based", risk := "medium" } := by
  unfold analyzeDomainForC2
  rw [anyLegit_eq_false domain _ hlegit, firstSuspicious_eq_none domain _ hsusp]
  simp [Option.filter, hrisk]

/-- Witness for C14: `example.cn` resolving to a high-risk Xiaomi address is ip-based, not
geo. -/
theorem analyzeDomainForC2_ip_based_witness :
    endsWith "example.cn" ".cn" = true ∧
    analyzeDomainForC2 "example.cn" "110.43.0.1" (some (getKnownIpInfo "110.43.0.1")) =
      { isSuspicious := true, reason := some "Resolves to Xiaomi (CN)",
        category := "ip-based", risk := "medium" } :=
  ⟨by decide!,
   analyzeDomainForC2_ip_based "example.cn" "110.43.0.1" (getKnownIpInfo "110.43.0.1")
     (by decide!) (by decide!) (by decide!)⟩

/-- C15. For a domain that no allow-list pattern and no suspicious pattern matches, with
`ipInfo` absent or of a risk other than high: a domain ending with `.cn` gets the verdict
geo with risk medium, every other domain gets the default verdict unknown/unknown with
`isSuspicious` false. -/
theorem analyzeDomainForC2_geo_or_default (domain ip : String) (ipInfo : Option IpInfo)
    (hlegit : ∀ re ∈ legitimateDomains, re.test domain = false)
    (hsusp : ∀ p ∈ suspiciousDomainPatterns, p.pattern.test domain = false)
    (hrisk : ∀ info, ipInfo = some info → info.risk ≠ some "high") :
    analyzeDomainForC2 domain ip ipInfo =
      (if endsWith domain ".cn" = true then
        { isSuspicious := true, reason := some "Chinese TLD", category := "geo",
          risk := "medium" }
       else
        { isSuspicious := false, reason := none, category := "unknown", risk := "unknown" }) := by
  unfold analyzeDomainForC2
  rw [anyLegit_eq_false domain _ hlegit, firstSuspicious_eq_none domain _ hsusp]
  have hf : ipInfo.filter (fun info => info.risk == some "high") = none := by
    cases ipInfo with
    | none => rfl
    | some info =>
      have := hrisk info rfl
      simp [Option.filter, this]
  simp only [Bool.false_eq_true, if_false, hf]

/-- Witness for C15: `example.cn` without IP information is geo/medium; with a low-risk
owner `example.org` is unknown/unknown. -/
theorem analyzeDomainForC2_geo_or_default_witness :
    analyzeDomainForC2 "example.cn" "" none =
      { isSuspicious := true, reason := some "Chinese TLD", category := "geo",
        risk := "medium" } ∧
    analyzeDomainForC2 "example.org" "" (some { risk := some "low" }) =
      { isSuspicious := false, reason := none, category := "unknown", risk := "unknown" } :=
  ⟨analyzeDomainForC2_geo_or_default "example.cn" "" none (by decide!) (by decide!)
     (fun _ h => by cases h),
   analyzeDomainForC2_geo_or_default "example.org" "" (some { risk := some "low" })
     (by decide!) (by decide!) (fun info h => by cases h; decide)⟩

/-! ## Port classification -/

theorem suspiciousPorts_rows :
    ∀ row ∈ suspiciousPorts, ownLookup row.1 suspiciousPorts = some row.2 := by
  decide!

theorem getPortInfo_row (port : String) (row : PortInfo) (h : (port, row) ∈ suspiciousPorts) :
    getPortInfo port = row := by
  have := suspiciousPorts_rows (port, row) h
  simp only at this
  simp [getPortInfo, this]

theorem getPortInfo_unlisted (port : String) (habsent : ∀ row ∈ suspiciousPorts, row.1 ≠ port)
    (hproto : port ∉ objectPrototypeKeys) : getPortInfo port = unknownPort := by
  simp [getPortInfo, ownLookup_eq_none port _ habsent, hproto]

/-- C16 (code bug). The port string `constructor` is none of the nine keys of
`suspiciousPorts`, yet `getPortInfo` does not return the fallback object for it: the
property read finds the member inherited from `Object.prototype`, a truthy value without
`service`, `risk` or `desc`.  Such a port string reaches `getPortInfo` from `netstat`
through the last-colon fallback of `parseAddress`. -/
theorem getPortInfo_inherited_key :
    (∀ row ∈ suspiciousPorts, row.1 ≠ "constructor") ∧
    getPortInfo "constructor" = {} ∧
    (getPortInfo "constructor").risk = none ∧
    getPortInfo "constructor" ≠ unknownPort ∧
    parseAddress "host:constructor" = { ip := some "host", port := some "constructor" } := by
  decide!

/-! ## Severity values -/

theorem firstSuspicious_mem (domain : String) (table : List DomainPattern) (v : Verdict)
    (h : firstSuspicious domain table = some v) : ∃ p ∈ table, v.risk = p.risk := by
  induction table with
  | nil => simp [firstSuspicious] at h
  | cons x xs ih =>
    simp only [firstSuspicious] at h
    split at h
    · simp only [Option.some.injEq] at h
      exact ⟨x, List.mem_cons_self _ _, by rw [← h]⟩
    · obtain ⟨p, hp, hv⟩ := ih h
      exact ⟨p, List.mem_cons_of_mem _ hp, hv⟩

theorem firstRange_mem (ip : String) (table : List IpInfo) (e : IpInfo)
    (h : firstRange ip table = some e) : e ∈ table := by
  induction table with
  | nil => simp [firstRange] at h
  | cons x xs ih =>
    simp only [firstRange] at h
    split at h
    · simp only [Option.some.injEq] at h
      rw [← h]; exact List.mem_cons_self _ _
    · exact List.mem_cons_of_mem _ (ih h)

theorem table_risks_graded :
    (∀ p ∈ suspiciousDomainPatterns, p.risk ∈ severityScale) ∧
    (∀ e ∈ knownIpRanges, ∃ r ∈ severityScale, e.risk = some r) ∧
    (∀ row ∈ suspiciousPorts, ∃ r ∈ severityScale, row.2.risk = some r) := by
  decide!

theorem analyzeDomainForC2_risk (domain ip : String) (ipInfo : Option IpInfo) :
    (analyzeDomainForC2 domain ip ipInfo).risk ∈ severityScale ∨
      (analyzeDomainForC2 domain ip ipInfo).risk = "unknown" := by
  unfold analyzeDomainForC2
  split
  · left; decide
  · split
    · next v hv =>
      obtain ⟨p, hp, hr⟩ := firstSuspicious_mem _ _ _ hv
      left
      rw [hr]
      exact table_risks_graded.1 p hp
    · split
      · left; show "medium" ∈ severityScale; decide
      · split
        · left; show "medium" ∈ severityScale; decide
        · right; rfl

theorem getKnownIpInfo_risk (ip : String) :
    ∃ r, (getKnownIpInfo ip).risk = some r ∧ (r ∈ severityScale ∨ r = "unknown") := by
  unfold getKnownIpInfo
  split
  · exact ⟨"none", rfl, Or.inl (by decide)⟩
  · split
    · next e he =>
      obtain ⟨r, hr, her⟩ := table_risks_graded.2.1 e (firstRange_mem _ _ _ he)
      exact ⟨r, her, Or.inl hr⟩
    · simp only []
      split
      · exact ⟨"medium", rfl, Or.inl (by decide)⟩
      · exact ⟨"unknown", rfl, Or.inr rfl⟩

theorem ownLookup_mem {α : Type} (key : String) (table : List (String × α)) (v : α)
    (h : ownLookup key table = some v) : (key, v) ∈ table := by
  induction table with
  | nil => simp [ownLookup] at h
  | cons x xs ih =>
    obtain ⟨k, w⟩ := x
    simp only [ownLookup] at h
    split at h
    · next hk =>
      simp only [Option.some.injEq] at h
      rw [← h, ← hk]; exact List.mem_cons_self _ _
    · exact List.mem_cons_of_mem _ (ih h)

theorem getPortInfo_risk (port : String) (hproto : port ∉ objectPrototypeKeys) :
    ∃ r, (getPortInfo port).risk = some r ∧ (r ∈ severityScale ∨ r = "unknown") := by
  unfold getPortInfo
  split
  · next row hrow =>
    obtain ⟨r, hr, her⟩ := table_risks_graded.2.2 (port, row) (ownLookup_mem _ _ _ hrow)
    exact ⟨r, her, Or.inl hr⟩
  · have hc : objectPrototypeKeys.contains port = false := by simpa using hproto
    rw [hc]
    exact ⟨"unknown", rfl, Or.inr rfl⟩

/-- C13 (as stated) fails: the three classification functions also return the risk value
`unknown`, which is not on the scale none, low, medium, high, critical and has no rank. -/
theorem severity_values_counterexample :
    (analyzeDomainForC2 "example.org" "" none).risk = "unknown" ∧
    (getKnownIpInfo "8.8.8.8").risk = some "unknown" ∧
    (getPortInfo "22").risk = some "unknown" ∧
    "unknown" ∉ severityScale ∧ severityRank "unknown" = none := by
  decide!

/-- C13 (amended). Every risk value returned by `analyzeDomainForC2` and by
`getKnownIpInfo`, for every input, and by `getPortInfo` for every port string that is not
a property name inherited from `Object.prototype`, is one of none, low, medium, high,
critical or the extra value `unknown`.  On the five graded values the order
none < low < medium < high < critical is total, transitive and irreflexive; `unknown`
is not comparable with anything. -/
theorem severity_values :
    (∀ (domain ip : String) (ipInfo : Option IpInfo),
      (analyzeDomainForC2 domain ip ipInfo).risk ∈ severityScale ∨
      (analyzeDomainForC2 domain ip ipInfo).risk = "unknown") ∧
    (∀ ip : String,
      ∃ r, (getKnownIpInfo ip).risk = some r ∧ (r ∈ severityScale ∨ r = "unknown")) ∧
    (∀ port : String, port ∉ objectPrototypeKeys →
      ∃ r, (getPortInfo port).risk = some r ∧ (r ∈ severityScale ∨ r = "unknown")) ∧
    (severityLt "none" "low" ∧ severityLt "low" "medium" ∧ severityLt "medium" "high" ∧
      severityLt "high" "critical") ∧
    (∀ a ∈ severityScale, ∀ b ∈ severityScale, severityLt a b ∨ a = b ∨ severityLt b a) ∧
    (∀ a b c : String, severityLt a b → severityLt b c → severityLt a c) ∧
    (∀ a : String, ¬ severityLt a a) ∧
    (∀ a : String, ¬ severityLt a "unknown" ∧ ¬ severityLt "unknown" a) := by
  refine ⟨analyzeDomainForC2_risk, getKnownIpInfo_risk, getPortInfo_risk, ?_, ?_, ?_, ?_, ?_⟩
  · exact ⟨⟨0, 1, by decide, by decide, by decide⟩, ⟨1, 2, by decide, by decide, by decide⟩,
      ⟨2, 3, by decide, by decide, by decide⟩, ⟨3, 4, by decide, by decide, by decide⟩⟩
  · intro a ha b hb
    have hra : severityRank a = some (severityScale.indexOf a) := by simp [severityRank, ha]
    have hrb : severityRank b = some (severityScale.indexOf b) := by simp [severityRank, hb]
    rcases Nat.lt_trichotomy (severityScale.indexOf a) (severityScale.indexOf b) with h | h | h
    · exact Or.inl ⟨_, _, hra, hrb, h⟩
    · right; left
      have := congrArg (fun i => severityScale.get? i) h
      simp only [List.indexOf_get? ha, List.indexOf_get? hb, Option.some.injEq] at this
      exact this
    · exact Or.inr (Or.inr ⟨_, _, hrb, hra, h⟩)
  · rintro a b c ⟨i, j, hi, hj, hij⟩ ⟨j2, k, hj2, hk, hjk⟩
    rw [hj] at hj2
    cases hj2
    exact ⟨i, k, hi, hk, Nat.lt_trans hij hjk⟩
  · rintro a ⟨i, j, hi, hj, hij⟩
    rw [hi] at hj
    cases hj
    exact Nat.lt_irrefl _ hij
  · intro a
    constructor
    · rintro ⟨i, j, _, hj, _⟩
      have : severityRank "unknown" = none := by decide
      rw [this] at hj; cases hj
    · rintro ⟨i, j, hi, _, _⟩
      have : severityRank "unknown" = none := by decide
      rw [this] at hi; cases hi

/-- Witness for C13 (amended): port `443` (not an inherited property name) has the graded
risk low; port `22` has the extra value unknown. -/
theorem severity_values_witness :
    "443" ∉ objectPrototypeKeys ∧
    (∃ r, (getPortInfo "443").risk = some r ∧ (r ∈ severityScale ∨ r = "unknown")) ∧
    (getPortInfo "443").risk = some "low" ∧ (getPortInfo "22").risk = some "unknown" :=
  ⟨by decide!, severity_values.2.2.1 "443" (by decide!), by decide!, by decide!⟩

/-! ## Command executor -/

theorem trim_spec (s : String) :
    (∃ pre post, s.data = pre ++ (trim s).data ++ post ∧
      (∀ c ∈ pre, isJsWhitespace c = true) ∧ (∀ c ∈ post, isJsWhitespace c = true)) ∧
    (∀ c, (trim s).data.head? = some c → isJsWhitespace c = false) ∧
    (∀ c, (trim s).data.getLast? = some c → isJsWhitespace c = false) := by
  generalize hl : s.data.dropWhile isJsWhitespace = l
  have hpre : s.data = s.data.takeWhile isJsWhitespace ++ l := by
    rw [← hl, List.takeWhile_append_dropWhile]
  generalize hm : l.reverse.dropWhile isJsWhitespace = m
  have hpost : l = m.reverse ++ (l.reverse.takeWhile isJsWhitespace).reverse := by
    rw [← hm, ← List.reverse_append, List.takeWhile_append_dropWhile, List.reverse_reverse]
  have htrim : (trim s).data = m.reverse := by
    simp only [trim, hl, hm]
  have hmhead : ∀ c, m.head? = some c → isJsWhitespace c = false := by
    intro c hc
    rw [← hm] at hc
    have := List.head?_dropWhile_not isJsWhitespace l.reverse
    rw [hc] at this
    simpa using this
  refine ⟨⟨s.data.takeWhile isJsWhitespace, (l.reverse.takeWhile isJsWhitespace).reverse, ?_,
    ?_, ?_⟩, ?_, ?_⟩
  · rw [htrim, List.append_assoc, ← hpost, ← hpre]
  · intro c hc
    exact (List.mem_takeWhile_imp hc)
  · intro c hc
    exact (List.mem_takeWhile_imp (List.mem_reverse.mp hc))
  · intro c hc
    rw [htrim] at hc
    have hlhead : l.head? = some c := by
      rw [hpost]
      cases hmr : m.reverse with
      | nil => rw [hmr] at hc; cases hc
      | cons x xs => rw [hmr] at hc; simpa using hc
    rw [← hl] at hlhead
    have := List.head?_dropWhile_not isJsWhitespace s.data
    rw [hlhead] at this
    simpa using this
  · intro c hc
    rw [htrim, List.getLast?_reverse] at hc
    exact hmhead c hc

/-- C11. For every outcome `(error, stdout, stderr)` of the bridge invocation, `adb`
rejects if and only if an error is present and stdout is empty, and then it rejects with
the error message and the unmodified stderr; in every other case, an error accompanied
by non-empty stdout included, it resolves with stdout and stderr trimmed, where trimming
removes white space at both ends and nothing else. -/
theorem adb_outcome (error : Option ExecError) (stdout stderr : String) :
    ((∃ rejection, adb error stdout stderr = .error rejection) ↔
      (error ≠ none ∧ stdout = "")) ∧
    (∀ err, error = some err → stdout = "" →
      adb error stdout stderr = .error { error := err.message, stderr := stderr }) ∧
    (¬ (error ≠ none ∧ stdout = "") →
      adb error stdout stderr = .ok { stdout := trim stdout, stderr := trim stderr }) ∧
    (∀ s : String,
      (∃ pre post, s.data = pre ++ (trim s).data ++ post ∧
        (∀ c ∈ pre, isJsWhitespace c = true) ∧ (∀ c ∈ post, isJsWhitespace c = true)) ∧
      (∀ c, (trim s).data.head? = some c → isJsWhitespace c = false) ∧
      (∀ c, (trim s).data.getLast? = some c → isJsWhitespace c = false)) := by
  refine ⟨?_, ?_, ?_, trim_spec⟩
  · cases error with
    | none => simp [adb]
    | some err =>
      by_cases hs : stdout = ""
      · simp [adb, hs]
      · simp [adb, hs]
  · intro err he hs
    simp [adb, he, hs]
  · intro h
    cases error with
    | none => simp [adb]
    | some err =>
      have hs : stdout ≠ "" := fun hs => h ⟨by simp, hs⟩
      simp [adb, hs]

/-- Witness for C11: an error without stdout rejects; an error with partial stdout
resolves with the trimmed text. -/
theorem adb_outcome_witness :
    adb (some { message := "Command failed" }) "" "adb: device offline\n" =
      .error { error := "Command failed", stderr := "adb: device offline\n" } ∧
    adb (some { message := "Command failed" }) "  partial output\n" " warn \n" =
      .ok { stdout := trim "  partial output\n", stderr := trim " warn \n" } ∧
    trim "  partial output\n" = "partial output" ∧ trim " warn \n" = "warn" :=
  ⟨(adb_outcome (some { message := "Command failed" }) "" "adb: device offline\n").2.1
      { message := "Command failed" } rfl rfl,
   (adb_outcome (some { message := "Command failed" }) "  partial output\n" " warn \n").2.2.1
      (by decide!),
   by decide!, by decide!⟩

/-! ## Session check -/

/-- C19 (code bug). With two devices in the list, the active one online and another one
offline, the active identifier is listed and not marked offline, yet `isDeviceConnected`
reports not connected: the code looks for the word `offline` anywhere in the output, not
on the line of the active device.  In the other direction, an identifier that is only a
proper part of a listed one is reported connected, and so is the empty identifier. -/
theorem isDeviceConnected_whole_output :
    listedNotOffline "emulator-5554"
      "List of devices attached\nemulator-5554\tdevice\n192.168.1.9:5555\toffline\n" = true ∧
    isDeviceConnected "emulator-5554"
      "List of devices attached\nemulator-5554\tdevice\n192.168.1.9:5555\toffline\n" = false ∧
    listedNotOffline "emulator-555" "List of devices attached\nemulator-5554\tdevice\n" = false ∧
    isDeviceConnected "emulator-555" "List of devices attached\nemulator-5554\tdevice\n" = true ∧
    isDeviceConnected "" "List of devices attached\n" = true := by
  decide!

/-! ## Activity log -/

theorem logAll_eq (calls activityLog : List LogEntry) :
    logAll calls activityLog = activityLog ++ calls := by
  induction calls generalizing activityLog with
  | nil => simp [logAll]
  | cons call more ih => simp [logAll, log, ih]

/-- C20 (as stated) fails: after 101 calls of `log` on an empty log the stored log holds
101 entries, more than the capacity of 100; nothing was dropped. -/
theorem activityLog_unbounded_counterexample :
    (logAll (List.replicate 101 { time := "t", message := "m", type := "info", command := none })
      []).length = 101 ∧
    ¬ ((logAll (List.replicate 101
        { time := "t", message := "m", type := "info", command := none }) []).length ≤ 100) ∧
    (getLog (logAll (List.replicate 101
        { time := "t", message := "m", type := "info", command := none }) [])).length = 100 := by
  decide!

/-- C20 (amended). The stored activity log is append-only: after any sequence of `log`
calls it is the previous log followed by all new entries in call order, nothing dropped.
The bound is applied on retrieval: `getLog` returns at most 100 entries, namely the last
`min 100 n` entries of the stored log, in insertion order. -/
theorem activityLog_retrieval_bounded (calls activityLog : List LogEntry) :
    logAll calls activityLog = activityLog ++ calls ∧
    (getLog (logAll calls activityLog)).length ≤ 100 ∧
    (getLog (logAll calls activityLog)).length = min 100 (logAll calls activityLog).length ∧
    (∃ older, logAll calls activityLog = older ++ getLog (logAll calls activityLog)) := by
  refine ⟨logAll_eq calls activityLog, ?_, ?_, ?_⟩
  · simp only [getLog, List.length_drop]; omega
  · simp only [getLog, List.length_drop]; omega
  · exact ⟨(logAll calls activityLog).take ((logAll calls activityLog).length - 100),
      (List.take_append_drop _ _).symm⟩

/-! ## Purity of classification -/

theorem ofLiteral_test (re : RegExp) (s : String) :
    (RegExpObject.ofLiteral re).test s = (re.test s, RegExpObject.ofLiteral re) := by
  simp only [RegExpObject.test, RegExpObject.ofLiteral, Bool.or_self, Bool.false_eq_true,
    if_false, gt_iff_lt, Nat.not_lt_zero, List.drop_zero]
  unfold RegExp.test RegExp.exec
  cases searchFrom re.ignoreCase re.pattern 0 s.data <;> rfl

theorem anyLegitIn_ofLiteral (domain : String) (res : List RegExp) :
    anyLegitIn domain (res.map RegExpObject.ofLiteral) =
      (anyLegit domain res, res.map RegExpObject.ofLiteral) := by
  induction res with
  | nil => rfl
  | cons x xs ih =>
    simp only [List.map_cons, anyLegitIn, ofLiteral_test, anyLegit, ih]
    split <;> rfl

theorem firstSuspiciousIn_ofLiteral (domain : String) (table : List DomainPattern) :
    firstSuspiciousIn domain (table.map (fun p =>
        ({ pattern := RegExpObject.ofLiteral p.pattern, category := p.category, risk := p.risk,
           desc := p.desc } : DomainPatternObject))) =
      (firstSuspicious domain table, table.map (fun p =>
        ({ pattern := RegExpObject.ofLiteral p.pattern, category := p.category, risk := p.risk,
           desc := p.desc } : DomainPatternObject))) := by
  induction table with
  | nil => rfl
  | cons x xs ih =>
    simp only [List.map_cons, firstSuspiciousIn, ofLiteral_test, firstSuspicious, ih]
    split <;> rfl

theorem run_initialState (call : ClassifierCall) :
    call.run initialState = (call.value, initialState) := by
  cases call with
  | analyzeDomain domain ip ipInfo =>
    simp only [ClassifierCall.run, ClassifierCall.value, analyzeDomainForC2In, initialState,
      anyLegitIn_ofLiteral, firstSuspiciousIn_ofLiteral, analyzeDomainForC2]
    split
    · rfl
    · split
      · rfl
      · split
        · rfl
        · split <;> rfl
  | knownIp ip =>
    simp only [ClassifierCall.run, ClassifierCall.value, getKnownIpInfoIn, initialState,
      getKnownIpInfo]
    split
    · rfl
    · split
      · rfl
      · split <;> rfl
  | portInfo port =>
    simp only [ClassifierCall.run, ClassifierCall.value, getPortInfoIn, initialState,
      getPortInfo]
    split <;> rfl

theorem runCalls_initialState (calls : List ClassifierCall) :
    runCalls initialState calls = initialState := by
  induction calls with
  | nil => rfl
  | cons call more ih => simp only [runCalls, run_initialState, ih]

/-- C12. Classification has no hidden state and ignores the `ip` argument.  The verdict
of `analyzeDomainForC2` is the same for any two `ip` values.  With the module data the
functions read made explicit (the rule tables and the `lastIndex` of every pattern
object), any sequence of calls of `analyzeDomainForC2`, `getKnownIpInfo` and `getPortInfo`
leaves that data as the module created it, every call returns the value determined by
its arguments alone, and so two evaluations on equal arguments return equal values
whatever calls were made before and in between. -/
theorem classification_pure :
    (∀ (domain ip1 ip2 : String) (ipInfo : Option IpInfo),
      analyzeDomainForC2 domain ip1 ipInfo = analyzeDomainForC2 domain ip2 ipInfo) ∧
    (∀ calls : List ClassifierCall, runCalls initialState calls = initialState) ∧
    (∀ (before : List ClassifierCall) (call : ClassifierCall),
      (call.run (runCalls initialState before)).1 = call.value) ∧
    (∀ (before between : List ClassifierCall) (call : ClassifierCall),
      (call.run (runCalls (call.run (runCalls initialState before)).2 between)).1 =
        (call.run (runCalls initialState before)).1) := by
  refine ⟨fun _ _ _ _ => rfl, runCalls_initialState, ?_, ?_⟩
  · intro before call
    rw [runCalls_initialState, run_initialState]
  · intro before between call
    rw [runCalls_initialState, run_initialState, runCalls_initialState, run_initialState]

/-! ## Process names -/

theorem stepChar_step (q : Char → Bool) (s s1 : MState) (h : s1 ∈ stepChar q s) :
    ∃ c, q c = true ∧ s.rest = c :: s1.rest ∧ s1.pos = s.pos + 1 := by
  unfold stepChar at h
  split at h
  · simp at h
  · next c cs hrest =>
    by_cases hq : q c = true
    · simp only [hq, if_true, List.mem_singleton] at h
      subst h
      exact ⟨c, hq, hrest, rfl⟩
    · simp [hq] at h

theorem Reads.refl (P : Char → Prop) (s : MState) : Reads P s s := ⟨[], by simp⟩

theorem Reads.trans {P : Char → Prop} {s s1 s2 : MState} (h1 : Reads P s s1)
    (h2 : Reads P s1 s2) : Reads P s s2 := by
  obtain ⟨c1, e1, p1, q1⟩ := h1
  obtain ⟨c2, e2, p2, q2⟩ := h2
  refine ⟨c1 ++ c2, by rw [e1, e2, List.append_assoc], by rw [p2, p1, List.length_append,
    Nat.add_assoc], ?_⟩
  intro c hc
  rcases List.mem_append.mp hc with hc | hc
  · exact q1 c hc
  · exact q2 c hc

theorem Reads.mono {P Q : Char → Prop} {s s1 : MState} (hPQ : ∀ c, P c → Q c)
    (h : Reads P s s1) : Reads Q s s1 := by
  obtain ⟨c1, e1, p1, q1⟩ := h
  exact ⟨c1, e1, p1, fun c hc => hPQ c (q1 c hc)⟩

theorem starLoop_reads (P : Char → Prop) (greedy : Bool) (gs : List Nat)
    (step : MState → List MState)
    (hstep : ∀ s s1, s1 ∈ step s → Reads P s s1) (fuel : Nat) (s s1 : MState)
    (h : s1 ∈ starLoop greedy gs step fuel s) : Reads P s s1 := by
  induction fuel generalizing s s1 with
  | zero =>
    simp only [starLoop, List.mem_singleton] at h
    subst h
    exact Reads.refl P _
  | succ n ih =>
    simp only [starLoop] at h
    have key : ∀ x, x ∈ ((step { s with caps := clearCaps gs s.caps }).filter
        (fun s2 => decide (s2.rest.length < s.rest.length))).flatMap (starLoop greedy gs step n) →
        Reads P s x := by
      intro x hx
      obtain ⟨s2, hs2, hx2⟩ := List.mem_flatMap.mp hx
      have hs2' := (List.mem_filter.mp hs2).1
      have h1 : Reads P s s2 := hstep { s with caps := clearCaps gs s.caps } s2 hs2'
      exact h1.trans (ih s2 x hx2)
    cases greedy with
    | true =>
      simp only [if_true, List.mem_append, List.mem_singleton] at h
      rcases h with h | h
      · exact key _ h
      · subst h; exact Reads.refl P _
    | false =>
      simp only [Bool.false_eq_true, if_false, List.mem_cons] at h
      rcases h with h | h
      · subst h; exact Reads.refl P _
      · exact key _ h

/-- Every outcome of a match has read a prefix of the text, moved the position by its
length, and read only characters the pattern can read. -/
theorem run_reads (ic : Bool) (r : Regex) (s s1 : MState) (h : s1 ∈ r.run ic s) :
    Reads (fun c => canConsume ic r c = true) s s1 := by
  induction r generalizing s s1 with
  | empty =>
    simp only [Regex.run, List.mem_singleton] at h
    subst h; exact Reads.refl _ _
  | chr p =>
    obtain ⟨c, hq, hc, hp⟩ := stepChar_step _ s s1 h
    exact ⟨[c], by simpa using hc, by simpa using hp, by simpa [canConsume] using hq⟩
  | cls neg ranges =>
    obtain ⟨c, hq, hc, hp⟩ := stepChar_step _ s s1 h
    exact ⟨[c], by simpa using hc, by simpa using hp, by simpa [canConsume] using hq⟩
  | any =>
    obtain ⟨c, hq, hc, hp⟩ := stepChar_step _ s s1 h
    exact ⟨[c], by simpa using hc, by simpa using hp, by simpa [canConsume] using hq⟩
  | bos =>
    simp only [Regex.run] at h
    split at h
    · simp only [List.mem_singleton] at h; subst h; exact Reads.refl _ _
    · simp at h
  | eos =>
    simp only [Regex.run] at h
    split at h
    · simp only [List.mem_singleton] at h; subst h; exact Reads.refl _ _
    · simp at h
  | seq a b iha ihb =>
    rw [run_seq] at h
    obtain ⟨s2, hs2, hs1⟩ := List.mem_flatMap.mp h
    exact ((iha s s2 hs2).mono (fun c hc => by simp [canConsume, hc])).trans
      ((ihb s2 s1 hs1).mono (fun c hc => by simp [canConsume, hc]))
  | alt a b iha ihb =>
    rw [run_alt] at h
    rcases List.mem_append.mp h with h | h
    · exact (iha s s1 h).mono (fun c hc => by simp [canConsume, hc])
    · exact (ihb s s1 h).mono (fun c hc => by simp [canConsume, hc])
  | star greedy a ih =>
    simp only [Regex.run] at h
    exact starLoop_reads _ greedy _ _ (fun x y hy => ih x y hy) _ s s1 h
  | group i a ih =>
    rw [run_group] at h
    obtain ⟨s2, hs2, rfl⟩ := List.mem_map.mp h
    exact ih s s2 hs2

theorem searchFrom_some (ic : Bool) (r : Regex) (l : List Char) (pos : Nat) (m : MatchResult)
    (h : searchFrom ic r pos l = some m) :
    ∃ pre suf, l = pre ++ suf ∧ matchAt ic r (pos + pre.length) suf = some m ∧
      ∀ p1 p2, pre = p1 ++ p2 → p2 ≠ [] → matchAt ic r (pos + p1.length) (p2 ++ suf) = none := by
  induction l generalizing pos with
  | nil =>
    simp only [searchFrom] at h
    exact ⟨[], [], rfl, by simpa using h, by
      intro p1 p2 hp hne
      have h2 : p2 = [] := (List.append_eq_nil.mp hp.symm).2
      exact absurd h2 hne⟩
  | cons c cs ih =>
    simp only [searchFrom] at h
    cases hm : matchAt ic r pos (c :: cs) with
    | some m1 =>
      rw [hm] at h
      simp only [Option.some.injEq] at h
      subst h
      exact ⟨[], c :: cs, rfl, by simpa using hm, by
        intro p1 p2 hp hne
        have h2 : p2 = [] := (List.append_eq_nil.mp hp.symm).2
        exact absurd h2 hne⟩
    | none =>
      rw [hm] at h
      simp only at h
      obtain ⟨pre, suf, hl, hmatch, hnone⟩ := ih (pos + 1) h
      refine ⟨c :: pre, suf, by simp [hl], by
        simpa [Nat.add_assoc, Nat.add_comm 1] using hmatch, ?_⟩
      intro p1 p2 hp hne
      cases p1 with
      | nil =>
        simp only [List.nil_append] at hp
        subst hp
        simpa [hl] using hm
      | cons x p1' =>
        simp only [List.cons_append, List.cons.injEq] at hp
        have := hnone p1' p2 hp.2 hne
        simpa [Nat.add_assoc, Nat.add_comm 1] using this

theorem matchAt_some (ic : Bool) (r : Regex) (pos : Nat) (rest : List Char) (m : MatchResult)
    (h : matchAt ic r pos rest = some m) :
    ∃ s1, (r.run ic ⟨pos, rest, []⟩).head? = some s1 ∧ s1 ∈ r.run ic ⟨pos, rest, []⟩ ∧
      m = ⟨pos, rest.take (s1.pos - pos), s1.caps⟩ := by
  unfold matchAt at h
  cases hr : (r.run ic ⟨pos, rest, []⟩).head? with
  | none => rw [hr] at h; simp at h
  | some s1 =>
    rw [hr] at h
    simp only [Option.map_some', Option.some.injEq] at h
    exact ⟨s1, rfl, List.mem_of_mem_head? hr, h.symm⟩

theorem matchAt_eq_none (ic : Bool) (r : Regex) (pos : Nat) (rest : List Char) :
    matchAt ic r pos rest = none ↔ r.run ic ⟨pos, rest, []⟩ = [] := by
  unfold matchAt
  cases r.run ic ⟨pos, rest, []⟩ <;> simp


theorem replaceFirst_of_exec_none (re : RegExp) (s : String) (h : re.exec s = none) :
    replaceFirst re s = s := by
  simp [replaceFirst, h]

theorem replaceFirst_of_test_false (re : RegExp) (s : String) (h : re.test s = false) :
    replaceFirst re s = s := by
  apply replaceFirst_of_exec_none
  unfold RegExp.test at h
  cases hx : re.exec s with
  | none => rfl
  | some m => rw [hx] at h; simp at h

/-- A replacement whose pattern cannot match at index 0 keeps the first character. -/
theorem replaceFirst_head (re : RegExp) (c : Char) (cs : List Char)
    (h0 : re.pattern.run re.ignoreCase ⟨0, c :: cs, []⟩ = []) :
    ∃ cs1, (replaceFirst re (String.mk (c :: cs))).data = c :: cs1 := by
  unfold replaceFirst
  cases hx : re.exec (String.mk (c :: cs)) with
  | none => exact ⟨cs, rfl⟩
  | some m =>
    simp only
    unfold RegExp.exec at hx
    obtain ⟨pre, suf, hl, hmatch, _⟩ := searchFrom_some _ _ _ _ _ hx
    cases pre with
    | nil =>
      simp only [List.nil_append] at hl
      simp only [List.length_nil, Nat.add_zero] at hmatch
      rw [← hl] at hmatch
      have := (matchAt_eq_none _ _ _ _).mpr h0
      rw [this] at hmatch
      cases hmatch
    | cons x pre1 =>
      obtain ⟨s1, _, _, hm⟩ := matchAt_some _ _ _ _ _ hmatch
      have hidx : m.index = pre1.length + 1 := by rw [hm]; simp
      rw [hidx]
      exact ⟨List.take pre1.length cs ++
        List.drop (pre1.length + 1 + m.matched.length) (c :: cs), by simp [List.take]⟩

theorem chrEq_underscore (c : Char) (h : chrEq true '_' c = true) : c = '_' := by
  simp only [chrEq, if_true, beq_iff_eq] at h
  have hd : canon '_' = 95 := by decide
  rw [hd] at h
  have hn := canon_eq_of_not_letter 95 c (by omega) h.symm
  rw [← Char.ofNat_toNat c, hn]

theorem run_seq_chr_nil (ic : Bool) (p c : Char) (r : Regex) (pos : Nat) (cs : List Char)
    (caps : List (Nat × List Char)) (h : chrEq ic p c = false) :
    (Regex.seq (Regex.chr p) r).run ic ⟨pos, c :: cs, caps⟩ = [] := by
  simp [run_seq, run_chr, stepChar, h]

theorem run_seq_assoc (ic : Bool) (a b c : Regex) (s : MState) :
    (Regex.seq (Regex.seq a b) c).run ic s = (Regex.seq a (Regex.seq b c)).run ic s := by
  simp only [run_seq, List.flatMap_assoc]
  rfl

theorem chrEq_dot_false (c : Char) (h : c ≠ '.') : chrEq true '.' c = false := by
  cases hx : chrEq true '.' c with
  | false => rfl
  | true => exact absurd (chrEq_dot true c hx) h

theorem chrEq_underscore_false (c : Char) (h : c ≠ '_') : chrEq true '_' c = false := by
  cases hx : chrEq true '_' c with
  | false => rfl
  | true => exact absurd (chrEq_underscore c hx) h

theorem stripProcessSuffixes_head (c : Char) (cs : List Char) (h1 : c ≠ '.') (h2 : c ≠ '_') :
    ∃ cs1, (stripProcessSuffixes (String.mk (c :: cs))).data = c :: cs1 := by
  unfold stripProcessSuffixes
  obtain ⟨t1, e1⟩ := replaceFirst_head reMarkerSuffix c cs
    (run_seq_chr_nil true '.' c _ 0 cs [] (chrEq_dot_false c h1))
  have e1' : replaceFirst reMarkerSuffix (String.mk (c :: cs)) = String.mk (c :: t1) := by
    rw [← e1]
  rw [e1']
  obtain ⟨t2, e2⟩ := replaceFirst_head reIsolatedSuffix c t1 (by
    show (Regex.seq (Regex.seq (Regex.chr '.') _) _).run true _ = []
    rw [run_seq_assoc]
    exact run_seq_chr_nil true '.' c _ 0 t1 [] (chrEq_dot_false c h1))
  have e2' : replaceFirst reIsolatedSuffix (String.mk (c :: t1)) = String.mk (c :: t2) := by
    rw [← e2]
  rw [e2']
  obtain ⟨t3, e3⟩ := replaceFirst_head reUnderscoredSuffix c t2
    (run_seq_chr_nil true '.' c _ 0 t2 [] (chrEq_dot_false c h1))
  have e3' : replaceFirst reUnderscoredSuffix (String.mk (c :: t2)) = String.mk (c :: t3) := by
    rw [← e3]
  rw [e3']
  exact replaceFirst_head reZygoteSuffix c t3
    (run_seq_chr_nil true '_' c _ 0 t3 [] (chrEq_underscore_false c h2))


theorem litPrefix_cons (ic : Bool) (p : Char) (ps l : List Char)
    (h : litPrefix ic (p :: ps) l = true) :
    ∃ c cs, l = c :: cs ∧ chrEq ic p c = true ∧ litPrefix ic ps cs = true := by
  cases l with
  | nil => simp [litPrefix] at h
  | cons c cs =>
    simp only [litPrefix, Bool.and_eq_true] at h
    exact ⟨c, cs, rfl, h.1, h.2⟩

theorem cap_setCap (index : Nat) (matched : List Char) (i : Nat) (v : List Char)
    (caps : List (Nat × List Char)) :
    (MatchResult.mk index matched (setCap i v caps)).cap i = some (String.mk v) := by
  simp [MatchResult.cap, setCap, List.find?]

/-- An outcome of `lit L` followed by anything starts with the first character of `L` and
moves the position. -/
theorem run_lit_seq_head (p : Char) (ps : List Char) (r : Regex) (s s1 : MState)
    (h : s1 ∈ (Regex.seq (Regex.lit (String.mk (p :: ps))) r).run false s) :
    ∃ cs, s.rest = p :: cs ∧ s.pos + 1 ≤ s1.pos := by
  rw [run_seq] at h
  obtain ⟨s2, hs2, hs1⟩ := List.mem_flatMap.mp h
  rw [run_lit] at hs2
  split at hs2
  · next hlit =>
    simp only [List.mem_singleton] at hs2
    obtain ⟨c, cs, hl, hc, _⟩ := litPrefix_cons _ _ _ _ hlit
    simp only [chrEq, Bool.false_eq_true, if_false, beq_iff_eq] at hc
    obtain ⟨consumed, _, hpos, _⟩ := run_reads false r s2 s1 hs1
    refine ⟨cs, by rw [hl, hc], ?_⟩
    rw [hpos, hs2]
    simp only [List.length_cons]
    omega
  · simp at hs2

/-- When the package pattern matches, group 1 starts with `c`, `o`, `n` or `i`. -/
theorem rePackagePrefix_cap (name : String) (m : MatchResult)
    (h : rePackagePrefix.exec name = some m) :
    ∃ c cs, m.cap 1 = some (String.mk (c :: cs)) ∧ c ≠ '.' ∧ c ≠ '_' := by
  unfold RegExp.exec at h
  obtain ⟨pre, suf, _, hmatch, _⟩ := searchFrom_some _ _ _ _ _ h
  obtain ⟨s1, _, hs1, hm⟩ := matchAt_some _ _ _ _ _ hmatch
  simp only [rePackagePrefix, Regex.cat, List.foldr, run_seq] at hs1
  obtain ⟨s2, hs2, hs1⟩ := List.mem_flatMap.mp hs1
  simp only [Regex.run] at hs2
  split at hs2
  · next hpos =>
    simp only [List.mem_singleton] at hs2
    subst hs2
    obtain ⟨s3, hs3, hs1⟩ := List.mem_flatMap.mp hs1
    simp only [Regex.run, List.mem_singleton] at hs1
    rw [run_group] at hs3
    obtain ⟨s4, hs4, hs3⟩ := List.mem_map.mp hs3
    have key : ∃ c cs, suf = c :: cs ∧ (0 + pre.length) + 1 ≤ s4.pos ∧ c ≠ '.' ∧ c ≠ '_' := by
      simp only [run_alt, List.mem_append] at hs4
      rcases hs4 with hs4 | hs4 | hs4 | hs4
      · obtain ⟨cs, hcs, hp⟩ := run_lit_seq_head 'c' _ _ _ _ hs4
        exact ⟨'c', cs, hcs, hp, by decide, by decide⟩
      · obtain ⟨cs, hcs, hp⟩ := run_lit_seq_head 'o' _ _ _ _ hs4
        exact ⟨'o', cs, hcs, hp, by decide, by decide⟩
      · obtain ⟨cs, hcs, hp⟩ := run_lit_seq_head 'n' _ _ _ _ hs4
        exact ⟨'n', cs, hcs, hp, by decide, by decide⟩
      · obtain ⟨cs, hcs, hp⟩ := run_lit_seq_head 'i' _ _ _ _ hs4
        exact ⟨'i', cs, hcs, hp, by decide, by decide⟩
    obtain ⟨c, cs, hsuf, hp, hc1, hc2⟩ := key
    refine ⟨c, cs.take (s4.pos - (0 + pre.length) - 1), ?_, hc1, hc2⟩
    rw [hm, hs1, ← hs3]
    simp only
    rw [cap_setCap, hsuf]
    congr 2
    obtain ⟨k, hk⟩ : ∃ k, s4.pos - (0 + pre.length) = k + 1 := ⟨s4.pos - (0 + pre.length) - 1, by omega⟩
    rw [hk]
    simp
  · simp at hs2

theorem packageName_nonempty (name p : String)
    (h : processSecurityReview.packageName name = some p) : p ≠ "" := by
  unfold processSecurityReview.packageName at h
  cases hx : rePackagePrefix.exec name with
  | none => rw [hx] at h; cases h
  | some m =>
    rw [hx] at h
    simp only [Option.some.injEq] at h
    obtain ⟨c, cs, hcap, h1, h2⟩ := rePackagePrefix_cap name m hx
    rw [hcap] at h
    simp only [Option.getD_some] at h
    obtain ⟨cs1, hcs⟩ := stripProcessSuffixes_head c cs h1 h2
    intro hp
    rw [h, hp] at hcs
    cases hcs

theorem replaceText_atStart (pat rep l : List Char) (hne : pat ≠ [])
    (h : pat.isPrefixOf l = true) : replaceText pat rep l = rep ++ l.drop pat.length := by
  cases l with
  | nil =>
    cases pat with
    | nil => exact absurd rfl hne
    | cons p ps => simp [List.isPrefixOf] at h
  | cons c cs => simp [replaceText, h]

theorem packageNameVariants_eq (p : String) :
    processSecurityReview.packageNameVariants (some p) = variantsOf p := by
  unfold processSecurityReview.packageNameVariants variantsOf
  by_cases h : startsWith p "com.android." = true
  · simp only [h, if_true]
    congr 2
    unfold replaceString
    rw [replaceText_atStart _ _ _ (by decide) h]
    rfl
  · simp [h]


/-! ## Process review -/

theorem mem_foldl_setAdd (xs acc : List String) (v : String) :
    v ∈ xs.foldl setAdd acc ↔ v ∈ acc ∨ v ∈ xs := by
  induction xs generalizing acc with
  | nil => simp
  | cons x xs ih =>
    simp only [List.foldl_cons, ih, List.mem_cons]
    unfold setAdd
    by_cases hx : acc.contains x = true
    · simp only [hx, if_true]
      have hmem : x ∈ acc := by simpa using hx
      constructor
      · rintro (h | h)
        · exact Or.inl h
        · exact Or.inr (Or.inr h)
      · rintro (h | h | h)
        · exact Or.inl h
        · subst h; exact Or.inl hmem
        · exact Or.inr h
    · simp only [hx, Bool.false_eq_true, if_false, List.mem_append, List.mem_singleton]
      tauto

theorem mem_installedPackages (pkgStdout disabledStdout v : String) :
    v ∈ installedPackages pkgStdout disabledStdout ↔
      v ∈ packageLines pkgStdout ∨ v ∈ packageLines disabledStdout := by
  simp [installedPackages, mem_foldl_setAdd]

theorem mem_insertBySeverity (p x : ProcessInfo) (l : List ProcessInfo) :
    x ∈ insertBySeverity p l ↔ x = p ∨ x ∈ l := by
  induction l with
  | nil => simp [insertBySeverity]
  | cons q qs ih =>
    simp only [insertBySeverity]
    split
    · simp only [List.mem_cons, ih]; tauto
    · simp only [List.mem_cons]

theorem mem_foldl_insertBySeverity (l acc : List ProcessInfo) (x : ProcessInfo) :
    x ∈ l.foldl (fun sorted p => insertBySeverity p sorted) acc ↔ x ∈ acc ∨ x ∈ l := by
  induction l generalizing acc with
  | nil => simp
  | cons p ps ih =>
    simp only [List.foldl_cons, ih, mem_insertBySeverity, List.mem_cons]
    tauto

theorem mem_sortBySeverity (l : List ProcessInfo) (x : ProcessInfo) :
    x ∈ sortBySeverity l ↔ x ∈ l := by
  simp [sortBySeverity, mem_foldl_insertBySeverity]

theorem reviewLoop_unregistered (installed : List String) (ls : List String)
    (acc : ReviewLists) :
    (reviewLoop installed ls acc).unregisteredProcesses =
      acc.unregisteredProcesses ++
        ((ls.filterMap parseProcessLine).map (reviewProcess installed)).filter
          (fun p => !p.isRegistered) := by
  induction ls generalizing acc with
  | nil => simp [reviewLoop]
  | cons line more ih =>
    simp only [reviewLoop]
    cases hp : parseProcessLine line with
    | none => simp only [ih, List.filterMap_cons, hp]
    | some cols =>
      simp only [ih, List.filterMap_cons, hp, List.map_cons, List.filter_cons]
      cases hr : (reviewProcess installed cols).isRegistered <;> simp

theorem reviewProcess_packageName (installed : List String) (cols : ProcessColumns) :
    (reviewProcess installed cols).packageName = processSecurityReview.packageName cols.name :=
  rfl

theorem reviewProcess_isRegistered (installed : List String) (cols : ProcessColumns) :
    (reviewProcess installed cols).isRegistered =
      !(truthy (processSecurityReview.packageName cols.name) &&
        !(processSecurityReview.packageNameVariants
            (processSecurityReview.packageName cols.name)).any
          (fun variant => installed.contains variant)) := rfl

theorem reviewProcess_flag (installed : List String) (cols : ProcessColumns) :
    (∃ f ∈ (reviewProcess installed cols).flags, f.type = "unregistered") ↔
      (reviewProcess installed cols).isRegistered = false := by
  rw [reviewProcess_isRegistered]
  simp only [reviewProcess]
  generalize (truthy (processSecurityReview.packageName cols.name) &&
    !(processSecurityReview.packageNameVariants
        (processSecurityReview.packageName cols.name)).any
      (fun variant => installed.contains variant)) = u
  cases u with
  | true =>
    simp only [if_true, Bool.not_true, iff_true]
    exact ⟨unregisteredFlag (processSecurityReview.packageName cols.name), by simp, rfl⟩
  | false =>
    simp only [Bool.false_eq_true, if_false, Bool.not_false, List.nil_append]
    constructor
    swap
    · intro h; cases h
    rintro ⟨f, hf, ht⟩
    exfalso
    simp only [List.mem_append, List.mem_map, List.mem_filter] at hf
    rcases hf with (⟨p, _, rfl⟩ | hf) | hf
    · simp at ht
    · split at hf
      · simp only [List.mem_singleton] at hf; subst hf; simp at ht
      · simp at hf
    · split at hf
      · simp only [List.mem_singleton] at hf; subst hf; simp at ht
      · simp at hf

theorem reviewProcess_unregistered_iff (installed : List String) (cols : ProcessColumns)
    (p : String) (hp : processSecurityReview.packageName cols.name = some p) :
    (reviewProcess installed cols).isRegistered = false ↔ ∀ v ∈ variantsOf p, v ∉ installed := by
  rw [reviewProcess_isRegistered, hp, packageNameVariants_eq]
  have hne := packageName_nonempty _ _ hp
  simp [truthy, hne]

theorem reviewProcess_no_package (installed : List String) (cols : ProcessColumns)
    (hp : processSecurityReview.packageName cols.name = none) :
    (reviewProcess installed cols).isRegistered = true := by
  rw [reviewProcess_isRegistered, hp]
  rfl

theorem mem_unregisteredProcesses (pkgStdout disabledStdout psStdout timestamp : String)
    (info : ProcessInfo) :
    info ∈ (reviewReport pkgStdout disabledStdout psStdout timestamp).unregisteredProcesses ↔
      ∃ line ∈ (lines psStdout).drop 1, ∃ cols, parseProcessLine line = some cols ∧
        info = reviewProcess (installedPackages pkgStdout disabledStdout) cols ∧
        info.isRegistered = false := by
  simp only [reviewReport, mem_sortBySeverity, reviewLoop_unregistered, List.nil_append,
    List.mem_filter, List.mem_map, List.mem_filterMap, Bool.not_eq_true']
  constructor
  · rintro ⟨⟨cols, ⟨line, hl, hc⟩, rfl⟩, hr⟩
    exact ⟨line, hl, cols, hc, rfl, hr⟩
  · rintro ⟨line, hl, cols, hc, rfl, hr⟩
    exact ⟨⟨cols, ⟨line, hl, hc⟩, rfl⟩, hr⟩

/-- C18. In `processSecurityReview` the set of installed-or-disabled packages holds the ids
of both listings.  For every process line of the output and the `processInfo` built from
it: it is listed in `unregisteredProcesses` exactly when its `isRegistered` is false, and
exactly then it carries a flag of type `unregistered`; when the process name yields the
package id `p` (which is never empty), this is the case if and only if none of the variants
of `p` is in the set, the variants being `p` and, when `p` begins with `com.android.`, `p`
with that prefix replaced by `com.google.android.`; when the name yields no package id,
the process is registered and so never flagged.  Every member of `unregisteredProcesses`
arises from such a line. -/
theorem unregistered_iff_no_variant
    (pkgStdout disabledStdout psStdout timestamp : String) :
    (∀ v, v ∈ installedPackages pkgStdout disabledStdout ↔
      v ∈ packageLines pkgStdout ∨ v ∈ packageLines disabledStdout) ∧
    (∀ line ∈ (lines psStdout).drop 1, ∀ cols, parseProcessLine line = some cols →
      (reviewProcess (installedPackages pkgStdout disabledStdout) cols ∈
          (reviewReport pkgStdout disabledStdout psStdout timestamp).unregisteredProcesses ↔
        (reviewProcess (installedPackages pkgStdout disabledStdout) cols).isRegistered = false) ∧
      ((∃ f ∈ (reviewProcess (installedPackages pkgStdout disabledStdout) cols).flags,
          f.type = "unregistered") ↔
        (reviewProcess (installedPackages pkgStdout disabledStdout) cols).isRegistered = false) ∧
      (reviewProcess (installedPackages pkgStdout disabledStdout) cols).packageName =
        processSecurityReview.packageName cols.name ∧
      (∀ p, processSecurityReview.packageName cols.name = some p →
        p ≠ "" ∧
        processSecurityReview.packageNameVariants (some p) = variantsOf p ∧
        ((reviewProcess (installedPackages pkgStdout disabledStdout) cols).isRegistered = false ↔
          ∀ v ∈ variantsOf p, v ∉ installedPackages pkgStdout disabledStdout)) ∧
      (processSecurityReview.packageName cols.name = none →
        (reviewProcess (installedPackages pkgStdout disabledStdout) cols).isRegistered = true)) ∧
    (∀ info ∈ (reviewReport pkgStdout disabledStdout psStdout timestamp).unregisteredProcesses,
      ∃ line ∈ (lines psStdout).drop 1, ∃ cols, parseProcessLine line = some cols ∧
        info = reviewProcess (installedPackages pkgStdout disabledStdout) cols ∧
        info.isRegistered = false) := by
  refine ⟨mem_installedPackages pkgStdout disabledStdout, ?_, ?_⟩
  · intro line hline cols hcols
    refine ⟨?_, reviewProcess_flag _ cols, rfl, ?_, reviewProcess_no_package _ cols⟩
    · rw [mem_unregisteredProcesses]
      constructor
      · rintro ⟨_, _, _, _, _, hr⟩
        exact hr
      · intro hr
        exact ⟨line, hline, cols, hcols, rfl, hr⟩
    · intro p hp
      exact ⟨packageName_nonempty _ _ hp, packageNameVariants_eq p,
        reviewProcess_unregistered_iff _ cols p hp⟩
  · intro info hinfo
    exact (mem_unregisteredProcesses _ _ _ _ info).mp hinfo

/-- Witness for C18: with only `com.google.android.gms` installed, the process
`com.android.gms.persistent` is registered through its variant, and the process
`com.evil.app_zygote0` is listed as unregistered. -/
theorem unregistered_iff_no_variant_witness :
    " 77 u0_a9 com.evil.app_zygote0" ∈
      (lines "PID USER NAME\n 12 u0_a1 com.android.gms.persistent\n 77 u0_a9 com.evil.app_zygote0").drop 1 ∧
    parseProcessLine " 77 u0_a9 com.evil.app_zygote0" =
      some { pid := "77", user := "u0_a9", name := "com.evil.app_zygote0", cmdline := some "" } ∧
    processSecurityReview.packageName "com.evil.app_zygote0" = some "com.evil.app" ∧
    (reviewProcess (installedPackages "package:com.google.android.gms\n" "")
        { pid := "77", user := "u0_a9", name := "com.evil.app_zygote0", cmdline := some "" }).isRegistered = false ∧
    processSecurityReview.packageName "com.android.gms.persistent" = some "com.android.gms" ∧
    ¬ (reviewProcess (installedPackages "package:com.google.android.gms\n" "")
        { pid := "12", user := "u0_a1", name := "com.android.gms.persistent",
          cmdline := some "" }).isRegistered = false :=
  ⟨by decide!, by decide!, by decide!,
   ((((unregistered_iff_no_variant "package:com.google.android.gms\n" ""
      "PID USER NAME\n 12 u0_a1 com.android.gms.persistent\n 77 u0_a9 com.evil.app_zygote0" "t").2.1
      " 77 u0_a9 com.evil.app_zygote0" (by decide!)
      { pid := "77", user := "u0_a9", name := "com.evil.app_zygote0", cmdline := some "" }
      (by decide!)).2.2.2.1 "com.evil.app" (by decide!)).2.2).mpr (by decide!),
   by decide!,
   fun h => absurd
     (((((unregistered_iff_no_variant "package:com.google.android.gms\n" ""
      "PID USER NAME\n 12 u0_a1 com.android.gms.persistent\n 77 u0_a9 com.evil.app_zygote0" "t").2.1
      " 12 u0_a1 com.android.gms.persistent" (by decide!)
      { pid := "12", user := "u0_a1", name := "com.android.gms.persistent", cmdline := some "" }
      (by decide!)).2.2.2.1 "com.android.gms" (by decide!)).2.2).mp h
        "com.google.android.gms" (by decide!)) (by decide!)⟩

/-! ## Suffix stripping -/

/-- A pattern that ends in `$` leaves nothing unread. -/
theorem run_cat_eos (ic : Bool) (rs : List Regex) (s s1 : MState)
    (h : s1 ∈ (Regex.cat (rs ++ [Regex.eos])).run ic s) : s1.rest = [] := by
  induction rs generalizing s with
  | nil =>
    simp only [Regex.cat, List.nil_append, List.foldr, run_seq] at h
    obtain ⟨s2, hs2, hs1⟩ := List.mem_flatMap.mp h
    rw [run_eos] at hs2
    rw [run_empty] at hs1
    split at hs2
    · next he =>
      simp only [List.mem_singleton] at hs2 hs1
      subst hs1; subst hs2
      simpa using he
    · simp at hs2
  | cons r rs ih =>
    have : Regex.cat (r :: rs ++ [Regex.eos]) = Regex.seq r (Regex.cat (rs ++ [Regex.eos])) := rfl
    rw [this, run_seq] at h
    obtain ⟨s2, _, hs1⟩ := List.mem_flatMap.mp h
    exact ih s2 hs1

theorem searchFrom_skip (ic : Bool) (r : Regex) (pre suf : List Char) (pos : Nat)
    (h : ∀ p1 p2, pre = p1 ++ p2 → p2 ≠ [] →
      r.run ic ⟨pos + p1.length, p2 ++ suf, []⟩ = []) :
    searchFrom ic r pos (pre ++ suf) = searchFrom ic r (pos + pre.length) suf := by
  induction pre generalizing pos with
  | nil => simp
  | cons c cs ih =>
    have h0 := h [] (c :: cs) rfl (by simp)
    simp only [List.length_nil, Nat.add_zero] at h0
    have hm : matchAt ic r pos (c :: cs ++ suf) = none := (matchAt_eq_none _ _ _ _).mpr h0
    simp only [List.cons_append] at hm ⊢
    simp only [searchFrom, hm]
    rw [ih (pos + 1)]
    · simp [Nat.add_assoc, Nat.add_comm 1]
    · intro p1 p2 hp hne
      have := h (c :: p1) p2 (by simp [hp]) hne
      simpa [Nat.add_assoc, Nat.add_comm 1] using this

/-- Removing the leftmost match when it is the tail of the text: the match starts where
the tail starts, reads all of it, and no match starts earlier. -/
theorem replaceFirst_strip (re : RegExp) (B tail : List Char)
    (hmatch : re.pattern.run re.ignoreCase ⟨B.length, tail, []⟩ ≠ [])
    (hend : ∀ s1 ∈ re.pattern.run re.ignoreCase ⟨B.length, tail, []⟩, s1.rest = [])
    (hnone : ∀ p1 p2, B = p1 ++ p2 → p2 ≠ [] →
      re.pattern.run re.ignoreCase ⟨p1.length, p2 ++ tail, []⟩ = []) :
    replaceFirst re (String.mk (B ++ tail)) = String.mk B := by
  have hskip := searchFrom_skip re.ignoreCase re.pattern B tail 0 (by simpa using hnone)
  simp only [Nat.zero_add] at hskip
  cases hr : re.pattern.run re.ignoreCase ⟨B.length, tail, []⟩ with
  | nil => exact absurd hr hmatch
  | cons s1 more =>
    have hs1 : s1 ∈ re.pattern.run re.ignoreCase ⟨B.length, tail, []⟩ := by simp [hr]
    have hrest := hend s1 hs1
    obtain ⟨consumed, hc, hpos, _⟩ := run_reads _ _ _ _ hs1
    simp only [hrest, List.append_nil] at hc
    have hm : matchAt re.ignoreCase re.pattern B.length tail =
        some ⟨B.length, tail.take (s1.pos - B.length), s1.caps⟩ := by
      simp [matchAt, hr]
    have hx : re.exec (String.mk (B ++ tail)) =
        some ⟨B.length, tail.take (s1.pos - B.length), s1.caps⟩ := by
      unfold RegExp.exec
      simp only
      rw [hskip]
      exact searchFrom_of_matchAt _ _ _ _ _ hm
    have hlen : s1.pos - B.length = tail.length := by
      rw [hpos]; simp only; rw [← hc]; omega
    simp only [replaceFirst, hx, hlen, List.take_length]
    simp

/-- A pattern `p0 r1 … rk $` whose part after `p0` cannot read the character `sep` finds
no match that starts before an occurrence of `sep` and runs across it. -/
theorem run_nil_of_sep (ic : Bool) (p0 : Char) (rs : List Regex) (sep : Char)
    (hsep : canConsume ic (Regex.cat (rs ++ [Regex.eos])) sep = false)
    (x : Char) (mid after : List Char) (pos : Nat) (caps : List (Nat × List Char)) :
    (Regex.seq (Regex.chr p0) (Regex.cat (rs ++ [Regex.eos]))).run ic
      ⟨pos, x :: (mid ++ sep :: after), caps⟩ = [] := by
  apply List.eq_nil_iff_forall_not_mem.mpr
  intro s1 hs1
  rw [run_seq] at hs1
  obtain ⟨s2, hs2, hs1⟩ := List.mem_flatMap.mp hs1
  rw [run_chr] at hs2
  obtain ⟨c, _, hrest, _⟩ := stepChar_step _ _ _ hs2
  simp only [List.cons.injEq] at hrest
  have hend := run_cat_eos ic rs s2 s1 hs1
  obtain ⟨consumed, hc, _, hall⟩ := run_reads _ _ _ _ hs1
  rw [hend, List.append_nil, ← hrest.2] at hc
  have : canConsume ic (Regex.cat (rs ++ [Regex.eos])) sep = true :=
    hall sep (by rw [← hc]; simp)
  rw [hsep] at this
  cases this


/-- A pattern `p0 r1 … rk $` finds no match in a text `B ++ t0 :: T` when `p0` equals no
character of `T` and `T` holds a character that the part after `p0` cannot read. -/
theorem run_nil_of_bad (ic : Bool) (p0 : Char) (rs : List Regex) (B T pre suf : List Char)
    (t0 : Char) (hl : B ++ t0 :: T = pre ++ suf)
    (hp0 : ∀ c ∈ T, chrEq ic p0 c = false)
    (bad : Char) (hmem : bad ∈ T)
    (hbad : canConsume ic (Regex.cat (rs ++ [Regex.eos])) bad = false)
    (pos : Nat) (caps : List (Nat × List Char)) :
    (Regex.seq (Regex.chr p0) (Regex.cat (rs ++ [Regex.eos]))).run ic ⟨pos, suf, caps⟩ = [] := by
  apply List.eq_nil_iff_forall_not_mem.mpr
  intro s1 hs1
  rw [run_seq] at hs1
  obtain ⟨s2, hs2, hs1⟩ := List.mem_flatMap.mp hs1
  rw [run_chr] at hs2
  obtain ⟨c0, hc0, hrest, _⟩ := stepChar_step _ _ _ hs2
  simp only at hrest
  have hend := run_cat_eos ic rs s2 s1 hs1
  obtain ⟨consumed, hc, _, hall⟩ := run_reads _ _ _ _ hs1
  rw [hend, List.append_nil] at hc
  have hno : bad ∉ s2.rest := by
    intro hb
    have : canConsume ic (Regex.cat (rs ++ [Regex.eos])) bad = true :=
      hall bad (by rw [← hc]; exact hb)
    rw [hbad] at this
    cases this
  rcases List.append_eq_append_iff.mp hl with ⟨a, hpre, hT⟩ | ⟨c, hB, hsuf⟩
  · cases a with
    | nil =>
      simp only [List.nil_append] at hT
      rw [hrest] at hT
      simp only [List.cons.injEq] at hT
      exact hno (by rw [← hT.2]; exact hmem)
    | cons y a1 =>
      simp only [List.cons_append, List.cons.injEq] at hT
      have : c0 ∈ T := by rw [hT.2, hrest]; simp
      have := hp0 c0 this
      rw [hc0] at this
      cases this
  · cases c with
    | nil =>
      simp only [List.nil_append] at hsuf
      rw [hrest] at hsuf
      simp only [List.cons.injEq] at hsuf
      exact hno (by rw [hsuf.2]; exact hmem)
    | cons y c1 =>
      rw [hrest] at hsuf
      simp only [List.cons_append, List.cons.injEq] at hsuf
      exact hno (by rw [hsuf.2]; simp [hmem])

theorem exec_none_of_bad (re : RegExp) (p0 : Char) (rs : List Regex)
    (hshape : ∀ s, re.pattern.run re.ignoreCase s =
      (Regex.seq (Regex.chr p0) (Regex.cat (rs ++ [Regex.eos]))).run re.ignoreCase s)
    (B T : List Char) (t0 : Char)
    (hp0 : ∀ c ∈ T, chrEq re.ignoreCase p0 c = false)
    (bad : Char) (hmem : bad ∈ T)
    (hbad : canConsume re.ignoreCase (Regex.cat (rs ++ [Regex.eos])) bad = false) :
    re.exec (String.mk (B ++ t0 :: T)) = none := by
  apply searchFrom_eq_none
  intro pre suf hl
  rw [hshape]
  exact run_nil_of_bad _ p0 rs B T pre suf t0 hl hp0 bad hmem hbad _ _

theorem isDigitChar_cases (c : Char) (h : isDigitChar c = true) : c ∈ digitChars := by
  simp only [isDigitChar, Bool.and_eq_true, decide_eq_true_eq] at h
  have hc : c = Char.ofNat c.toNat := (Char.ofNat_toNat c).symm
  obtain ⟨h1, h2⟩ := h
  generalize c.toNat = k at hc h1 h2
  subst hc
  interval_cases k <;> decide

theorem reIsolatedSuffix_shape (s : MState) :
    reIsolatedSuffix.pattern.run reIsolatedSuffix.ignoreCase s =
      (Regex.seq (Regex.chr '.') (Regex.cat (isolatedBody ++ [Regex.eos]))).run
        reIsolatedSuffix.ignoreCase s :=
  run_seq_assoc true (Regex.chr '.') (Regex.lit "isolated")
    (Regex.cat [Regex.plus Regex.digit, Regex.eos]) s

theorem mem_seq (ic : Bool) (a b : Regex) (s s2 s1 : MState) (ha : s2 ∈ a.run ic s)
    (hb : s1 ∈ b.run ic s2) : s1 ∈ (Regex.seq a b).run ic s := by
  rw [run_seq]
  exact List.mem_flatMap.mpr ⟨s2, ha, hb⟩

theorem mem_chr (ic : Bool) (p c : Char) (pos : Nat) (cs : List Char)
    (caps : List (Nat × List Char)) (h : chrEq ic p c = true) :
    (⟨pos + 1, cs, caps⟩ : MState) ∈ (Regex.chr p).run ic ⟨pos, c :: cs, caps⟩ := by
  simp [run_chr, stepChar, h]

theorem mem_group (ic : Bool) (i : Nat) (a : Regex) (s s1 : MState) (h : s1 ∈ a.run ic s) :
    ({ s1 with caps := setCap i (s.rest.take (s1.pos - s.pos)) s1.caps } : MState) ∈
      (Regex.group i a).run ic s := by
  rw [run_group]
  exact List.mem_map.mpr ⟨s1, h, rfl⟩

theorem mem_lit_self (t : String) (pos : Nat) (rest : List Char)
    (caps : List (Nat × List Char)) :
    (⟨pos + t.data.length, rest, caps⟩ : MState) ∈
      (Regex.lit t).run true ⟨pos, t.data ++ rest, caps⟩ := by
  rw [run_lit]
  have := litPrefix_of_canon t.data t.data rest rfl
  simp [this]

theorem mem_eos_end (ic : Bool) (pos : Nat) (caps : List (Nat × List Char)) :
    (⟨pos, [], caps⟩ : MState) ∈
      (Regex.cat [Regex.eos]).run ic ⟨pos, [], caps⟩ := by
  simp [Regex.cat, run_seq, run_eos, run_empty]

theorem digit_run (ic : Bool) :
    Regex.digit.run ic = stepChar (clsMatch ic false [('0', '9')]) := rfl

theorem mem_star_digits (ic : Bool) (n : List Char) (hn : ∀ c ∈ n, isDigitChar c = true)
    (pos : Nat) (caps : List (Nat × List Char)) :
    (⟨pos + n.length, [], caps⟩ : MState) ∈
      (Regex.star true Regex.digit).run ic ⟨pos, n, caps⟩ := by
  have h := head_starLoop_chars (clsMatch ic false [('0', '9')]) n []
    (fun c hc => by rw [digit_clsMatch]; exact hn c hc) (fun c cs hcs => by cases hcs)
    n.length pos caps (Nat.le_refl _)
  simp only [List.append_nil] at h
  have := List.mem_of_mem_head? h
  simpa [Regex.run, Regex.groups, Regex.digit] using this

theorem mem_plus_digits (ic : Bool) (n : List Char) (hne : n ≠ [])
    (hn : ∀ c ∈ n, isDigitChar c = true) (pos : Nat) (caps : List (Nat × List Char)) :
    (⟨pos + n.length, [], caps⟩ : MState) ∈
      (Regex.plus Regex.digit).run ic ⟨pos, n, caps⟩ := by
  have h := head_plus_digit ic n [] hne hn (fun c cs hcs => by cases hcs) pos caps
  simp only [List.append_nil] at h
  exact List.mem_of_mem_head? h

/-- The marker pattern matches `.s` for each of the six markers. -/
theorem reMarkerSuffix_match (s : String) (hs : s ∈ suffixMarkers) (pos : Nat) :
    reMarkerSuffix.pattern.run reMarkerSuffix.ignoreCase ⟨pos, '.' :: s.data, []⟩ ≠ [] := by
  have hlit := mem_lit_self s (pos + 1) [] []
  simp only [List.append_nil] at hlit
  have halt : (⟨pos + 1 + s.data.length, [], []⟩ : MState) ∈
      markerAlternatives.run true ⟨pos + 1, s.data, []⟩ := by
    simp only [suffixMarkers, List.mem_cons, List.mem_singleton, List.not_mem_nil,
      or_false] at hs
    simp only [markerAlternatives, run_alt, List.mem_append]
    rcases hs with rfl | rfl | rfl | rfl | rfl | rfl
    · exact Or.inl hlit
    · exact Or.inr (Or.inl hlit)
    · exact Or.inr (Or.inr (Or.inl hlit))
    · exact Or.inr (Or.inr (Or.inr (Or.inl hlit)))
    · exact Or.inr (Or.inr (Or.inr (Or.inr (Or.inl hlit))))
    · exact Or.inr (Or.inr (Or.inr (Or.inr (Or.inr hlit))))
  exact List.ne_nil_of_mem
    (mem_seq true _ _ _ _ _ (mem_chr true '.' '.' pos s.data [] (by decide))
      (mem_seq true _ _ _ _ _ (mem_group true 1 _ _ _ halt) (mem_eos_end true _ _)))

/-- The numbered pattern matches `.isolated` followed by one or more digits. -/
theorem reIsolatedSuffix_match (n : List Char) (hne : n ≠ [])
    (hn : ∀ c ∈ n, isDigitChar c = true) (pos : Nat) :
    reIsolatedSuffix.pattern.run reIsolatedSuffix.ignoreCase
      ⟨pos, ".isolated".data ++ n, []⟩ ≠ [] :=
  List.ne_nil_of_mem
    (mem_seq true _ _ _ _ _ (mem_lit_self ".isolated" pos n [])
      (mem_seq true _ _ _ _ _ (mem_plus_digits true n hne hn _ []) (mem_eos_end true _ _)))

/-- The last pattern matches `_w` followed by digits (none included) for each of the three
markers. -/
theorem reZygoteSuffix_match (w : String) (hw : w ∈ zygoteMarkers) (n : List Char)
    (hn : ∀ c ∈ n, isDigitChar c = true) (pos : Nat) :
    reZygoteSuffix.pattern.run reZygoteSuffix.ignoreCase
      ⟨pos, '_' :: (w.data ++ n), []⟩ ≠ [] := by
  have hlit := mem_lit_self w (pos + 1) n []
  have halt : (⟨pos + 1 + w.data.length, n, []⟩ : MState) ∈
      zygoteAlternatives.run true ⟨pos + 1, w.data ++ n, []⟩ := by
    simp only [zygoteMarkers, List.mem_cons, List.mem_singleton, List.not_mem_nil,
      or_false] at hw
    simp only [zygoteAlternatives, run_alt, List.mem_append]
    rcases hw with rfl | rfl | rfl
    · exact Or.inl hlit
    · exact Or.inr (Or.inl hlit)
    · exact Or.inr (Or.inr hlit)
  exact List.ne_nil_of_mem
    (mem_seq true _ _ _ _ _ (mem_chr true '_' '_' pos (w.data ++ n) [] (by decide))
      (mem_seq true _ _ _ _ _ (mem_group true 1 _ _ _ halt)
        (mem_seq true _ _ _ _ _ (mem_star_digits true n hn _ _) (mem_eos_end true _ _))))


theorem chrEq_dot_digit (c : Char) (h : isDigitChar c = true) : chrEq true '.' c = false :=
  (by decide : ∀ c ∈ digitChars, chrEq true '.' c = false) c (isDigitChar_cases c h)

theorem markerBody_digit (c : Char) (h : isDigitChar c = true) :
    canConsume true (Regex.cat (markerBody ++ [Regex.eos])) c = false :=
  (by decide : ∀ c ∈ digitChars,
    canConsume true (Regex.cat (markerBody ++ [Regex.eos])) c = false) c (isDigitChar_cases c h)

theorem underscoredBody_digit (c : Char) (h : isDigitChar c = true) :
    canConsume true (Regex.cat (underscoredBody ++ [Regex.eos])) c = false :=
  (by decide : ∀ c ∈ digitChars,
    canConsume true (Regex.cat (underscoredBody ++ [Regex.eos])) c = false) c
    (isDigitChar_cases c h)

theorem reMarkerSuffix_shape (s : MState) :
    reMarkerSuffix.pattern.run reMarkerSuffix.ignoreCase s =
      (Regex.seq (Regex.chr '.') (Regex.cat (markerBody ++ [Regex.eos]))).run
        reMarkerSuffix.ignoreCase s := rfl

theorem reUnderscoredSuffix_shape (s : MState) :
    reUnderscoredSuffix.pattern.run reUnderscoredSuffix.ignoreCase s =
      (Regex.seq (Regex.chr '.') (Regex.cat (underscoredBody ++ [Regex.eos]))).run
        reUnderscoredSuffix.ignoreCase s := rfl

theorem reZygoteSuffix_shape (s : MState) :
    reZygoteSuffix.pattern.run reZygoteSuffix.ignoreCase s =
      (Regex.seq (Regex.chr '_') (Regex.cat (zygoteBody ++ [Regex.eos]))).run
        reZygoteSuffix.ignoreCase s := rfl

/-- The marker pattern finds nothing in a name that ends in `.isolated` and digits. -/
theorem reMarkerSuffix_isolatedN (B n : List Char) (hne : n ≠ [])
    (hn : ∀ c ∈ n, isDigitChar c = true) :
    reMarkerSuffix.exec (String.mk (B ++ '.' :: ("isolated".data ++ n))) = none := by
  obtain ⟨d, ds, rfl⟩ := List.exists_cons_of_ne_nil hne
  apply exec_none_of_bad reMarkerSuffix '.' markerBody reMarkerSuffix_shape B _ '.' ?_ d
    (by simp) (markerBody_digit d (hn d (by simp)))
  intro c hc
  rcases List.mem_append.mp hc with hc | hc
  · exact (by decide : ∀ c ∈ "isolated".data, chrEq true '.' c = false) c hc
  · exact chrEq_dot_digit c (hn c hc)

theorem zygoteTail_no_dot (w : String) (hw : w ∈ zygoteMarkers) (n : List Char)
    (hn : ∀ c ∈ n, isDigitChar c = true) : ∀ c ∈ w.data ++ n, chrEq true '.' c = false := by
  intro c hc
  rcases List.mem_append.mp hc with hc | hc
  · exact (by decide : ∀ w ∈ zygoteMarkers, ∀ c ∈ w.data, chrEq true '.' c = false) w hw c hc
  · exact chrEq_dot_digit c (hn c hc)

/-- Each of the three markers holds a letter that occurs in none of the six suffix markers
and not in `isolated`. -/
theorem zygoteMarker_letter (w : String) (hw : w ∈ zygoteMarkers) :
    ∃ bad ∈ w.data,
      canConsume true (Regex.cat (markerBody ++ [Regex.eos])) bad = false ∧
      canConsume true (Regex.cat (isolatedBody ++ [Regex.eos])) bad = false := by
  simp only [zygoteMarkers, List.mem_cons, List.mem_singleton, List.not_mem_nil,
    or_false] at hw
  rcases hw with rfl | rfl | rfl
  · exact ⟨'z', by decide, by decide, by decide⟩
  · exact ⟨'x', by decide, by decide, by decide⟩
  · exact ⟨'v', by decide, by decide, by decide⟩

/-- The marker pattern finds nothing in a name that ends in `_w` and digits. -/
theorem reMarkerSuffix_zygote (B : List Char) (w : String) (hw : w ∈ zygoteMarkers)
    (n : List Char) (hn : ∀ c ∈ n, isDigitChar c = true) :
    reMarkerSuffix.exec (String.mk (B ++ '_' :: (w.data ++ n))) = none := by
  obtain ⟨bad, hmem, hbad, _⟩ := zygoteMarker_letter w hw
  exact exec_none_of_bad reMarkerSuffix '.' markerBody reMarkerSuffix_shape B _ '_'
    (zygoteTail_no_dot w hw n hn) bad (List.mem_append_left _ hmem) hbad

/-- The numbered pattern finds nothing in a name that ends in `_w` and digits. -/
theorem reIsolatedSuffix_zygote (B : List Char) (w : String) (hw : w ∈ zygoteMarkers)
    (n : List Char) (hn : ∀ c ∈ n, isDigitChar c = true) :
    reIsolatedSuffix.exec (String.mk (B ++ '_' :: (w.data ++ n))) = none := by
  obtain ⟨bad, hmem, _, hbad⟩ := zygoteMarker_letter w hw
  exact exec_none_of_bad reIsolatedSuffix '.' isolatedBody reIsolatedSuffix_shape B _ '_'
    (zygoteTail_no_dot w hw n hn) bad (List.mem_append_left _ hmem) hbad

theorem litPrefix_getLast (ic : Bool) (ps l : List Char) (hne : ps ≠ [])
    (h : litPrefix ic ps l = true) (hd : l.drop ps.length = []) :
    ∃ c p, l.getLast? = some c ∧ ps.getLast? = some p ∧ chrEq ic p c = true := by
  induction ps generalizing l with
  | nil => exact absurd rfl hne
  | cons p ps ih =>
    obtain ⟨c, cs, rfl, hc, hrest⟩ := litPrefix_cons _ _ _ _ h
    simp only [List.length_cons, List.drop_succ_cons] at hd
    cases ps with
    | nil =>
      simp only [List.length_nil, List.drop_zero] at hd
      subst hd
      exact ⟨c, p, rfl, rfl, hc⟩
    | cons q qs =>
      obtain ⟨c1, p1, h1, h2, h3⟩ := ih cs (by simp) hrest hd
      obtain ⟨x, xs, rfl⟩ : ∃ x xs, cs = x :: xs := by
        cases cs with
        | nil => simp at h1
        | cons x xs => exact ⟨x, xs, rfl⟩
      exact ⟨c1, p1, by rw [List.getLast?_cons_cons]; exact h1,
        by rw [List.getLast?_cons_cons]; exact h2, h3⟩

/-- Every match of the underscored-process pattern ends in the letter `s`. -/
theorem reUnderscoredSuffix_last (s s1 : MState)
    (h : s1 ∈ reUnderscoredSuffix.pattern.run reUnderscoredSuffix.ignoreCase s) :
    ∃ c, s.rest.getLast? = some c ∧ chrEq true 's' c = true := by
  simp only [reUnderscoredSuffix, Regex.cat, List.foldr, run_seq] at h
  obtain ⟨s2, hs2, h⟩ := List.mem_flatMap.mp h
  obtain ⟨s3, hs3, h⟩ := List.mem_flatMap.mp h
  obtain ⟨s4, hs4, h⟩ := List.mem_flatMap.mp h
  obtain ⟨s5, hs5, _⟩ := List.mem_flatMap.mp h
  rw [run_lit] at hs4
  split at hs4
  · next hlit =>
    simp only [List.mem_singleton] at hs4
    rw [run_eos] at hs5
    split at hs5
    · next hempty =>
      rw [hs4] at hempty
      simp only [List.isEmpty_iff] at hempty
      obtain ⟨c, p, hc, hp, hcp⟩ := litPrefix_getLast true _ s3.rest (by decide) hlit hempty
      have hp2 : ("_process" : String).data.getLast? = some 's' := by decide
      rw [hp2] at hp
      simp only [Option.some.injEq] at hp
      subst hp
      have hsuf : s3.rest <:+ s.rest :=
        (run_suffix _ _ _ _ hs3).trans (run_suffix _ _ _ _ hs2)
      obtain ⟨u, hu⟩ := hsuf
      have hne : s3.rest ≠ [] := by
        intro hnil; rw [hnil] at hc; simp at hc
      refine ⟨c, ?_, hcp⟩
      rw [← hu, List.getLast?_append_of_ne_nil _ hne]
      exact hc
    · simp at hs5
  · simp at hs4

/-- The underscored-process pattern finds nothing in a name that ends in `_w` and digits. -/
theorem reUnderscoredSuffix_zygote (B : List Char) (w : String) (hw : w ∈ zygoteMarkers)
    (n : List Char) (hn : ∀ c ∈ n, isDigitChar c = true) :
    reUnderscoredSuffix.exec (String.mk (B ++ '_' :: (w.data ++ n))) = none := by
  cases n with
  | cons d ds =>
    exact exec_none_of_bad reUnderscoredSuffix '.' underscoredBody reUnderscoredSuffix_shape
      B _ '_' (zygoteTail_no_dot w hw (d :: ds) hn) d (by simp)
      (underscoredBody_digit d (hn d (by simp)))
  | nil =>
    apply searchFrom_eq_none
    intro pre suf hl
    apply List.eq_nil_iff_forall_not_mem.mpr
    intro s1 hs1
    obtain ⟨c, hc, hcs⟩ := reUnderscoredSuffix_last _ _ hs1
    simp only at hc
    have hne : suf ≠ [] := by
      intro hnil; rw [hnil] at hc; simp at hc
    have hlast : (pre ++ suf).getLast? = some c := by
      rw [List.getLast?_append_of_ne_nil _ hne]; exact hc
    rw [← hl] at hlast
    simp only [List.append_nil] at hlast
    simp only [zygoteMarkers, List.mem_cons, List.mem_singleton, List.not_mem_nil,
      or_false] at hw
    rcases hw with rfl | rfl | rfl
    all_goals
      rw [List.getLast?_append_of_ne_nil _ (by simp)] at hlast
      simp only [List.getLast?_cons_cons, List.getLast?_singleton, Option.some.injEq] at hlast
      subst hlast
      exact absurd hcs (by decide)


/-! ### The chain of replacements on the named forms -/

theorem strip_marker (b s : String) (hs : s ∈ suffixMarkers)
    (h2 : reIsolatedSuffix.test b = false) (h3 : reUnderscoredSuffix.test b = false)
    (h4 : reZygoteSuffix.test b = false) :
    stripProcessSuffixes (String.mk (b.data ++ '.' :: s.data)) = b := by
  have e1 : replaceFirst reMarkerSuffix (String.mk (b.data ++ '.' :: s.data)) = b := by
    apply replaceFirst_strip reMarkerSuffix b.data ('.' :: s.data)
      (reMarkerSuffix_match s hs _)
    · intro s1 h1
      rw [reMarkerSuffix_shape] at h1
      exact run_cat_eos true (Regex.chr '.' :: markerBody) _ s1 h1
    · intro p1 p2 _ hne
      obtain ⟨x, mid, rfl⟩ := List.exists_cons_of_ne_nil hne
      rw [reMarkerSuffix_shape]
      exact run_nil_of_sep true '.' markerBody '.' (by decide) x mid s.data _ _
  unfold stripProcessSuffixes
  rw [e1, replaceFirst_of_test_false _ _ h2, replaceFirst_of_test_false _ _ h3,
    replaceFirst_of_test_false _ _ h4]

theorem strip_isolatedN (b : String) (n : List Char) (hne : n ≠ [])
    (hn : ∀ c ∈ n, isDigitChar c = true)
    (h3 : reUnderscoredSuffix.test b = false) (h4 : reZygoteSuffix.test b = false) :
    stripProcessSuffixes (String.mk (b.data ++ '.' :: ("isolated".data ++ n))) = b := by
  have e1 : replaceFirst reMarkerSuffix (String.mk (b.data ++ '.' :: ("isolated".data ++ n))) =
      String.mk (b.data ++ '.' :: ("isolated".data ++ n)) :=
    replaceFirst_of_exec_none _ _ (reMarkerSuffix_isolatedN b.data n hne hn)
  have e2 : replaceFirst reIsolatedSuffix
      (String.mk (b.data ++ '.' :: ("isolated".data ++ n))) = b := by
    apply replaceFirst_strip reIsolatedSuffix b.data ('.' :: ("isolated".data ++ n))
      (reIsolatedSuffix_match n hne hn _)
    · intro s1 h1
      rw [reIsolatedSuffix_shape] at h1
      exact run_cat_eos true (Regex.chr '.' :: isolatedBody) _ s1 h1
    · intro p1 p2 _ hne2
      obtain ⟨x, mid, rfl⟩ := List.exists_cons_of_ne_nil hne2
      rw [reIsolatedSuffix_shape]
      exact run_nil_of_sep true '.' isolatedBody '.' (by decide) x mid ("isolated".data ++ n) _ _
  unfold stripProcessSuffixes
  rw [e1, e2, replaceFirst_of_test_false _ _ h3, replaceFirst_of_test_false _ _ h4]

theorem strip_zygote (b w : String) (hw : w ∈ zygoteMarkers) (n : List Char)
    (hn : ∀ c ∈ n, isDigitChar c = true) :
    stripProcessSuffixes (String.mk (b.data ++ '_' :: (w.data ++ n))) = b := by
  have e1 := replaceFirst_of_exec_none _ _ (reMarkerSuffix_zygote b.data w hw n hn)
  have e2 := replaceFirst_of_exec_none _ _ (reIsolatedSuffix_zygote b.data w hw n hn)
  have e3 := replaceFirst_of_exec_none _ _ (reUnderscoredSuffix_zygote b.data w hw n hn)
  have e4 : replaceFirst reZygoteSuffix (String.mk (b.data ++ '_' :: (w.data ++ n))) = b := by
    apply replaceFirst_strip reZygoteSuffix b.data ('_' :: (w.data ++ n))
      (reZygoteSuffix_match w hw n hn _)
    · intro s1 h1
      rw [reZygoteSuffix_shape] at h1
      exact run_cat_eos true (Regex.chr '_' :: zygoteBody) _ s1 h1
    · intro p1 p2 _ hne2
      obtain ⟨x, mid, rfl⟩ := List.exists_cons_of_ne_nil hne2
      rw [reZygoteSuffix_shape]
      exact run_nil_of_sep true '_' zygoteBody '_' (by decide) x mid (w.data ++ n) _ _
  unfold stripProcessSuffixes
  rw [e1, e2, e3, e4]


/-! ### Reading the package part of a process name -/

theorem clsMatch_notColon (c : Char) (h : c ≠ ':') : clsMatch false true [(':', ':')] c = true := by
  have h58 : (':' : Char).toNat = 58 := by decide
  have hne : c.toNat ≠ 58 := by
    intro hc
    apply h
    rw [← Char.ofNat_toNat c, hc]
  simp only [clsMatch, inRanges, h58, List.any_cons, List.any_nil, Bool.or_false,
    Bool.false_and, if_true, Bool.not_eq_true', Bool.and_eq_false_imp, decide_eq_true_eq,
    decide_eq_false_iff_not]
  omega

theorem clsMatch_colon : clsMatch false true [(':', ':')] ':' = false := by decide

theorem litPrefix_self (ps rest : List Char) : litPrefix false ps (ps ++ rest) = true := by
  induction ps with
  | nil => simp [litPrefix]
  | cons p ps ih => simp [litPrefix, chrEq, ih]

/-- One branch `L[^:]+` of the package pattern reads `L` and then everything up to the
first colon. -/
theorem head_prefixBranch (L : String) (body rest : List Char) (hne : body ≠ [])
    (hbody : ∀ c ∈ body, c ≠ ':') (hrest : rest = [] ∨ ∃ t, rest = ':' :: t)
    (pos : Nat) (caps : List (Nat × List Char)) :
    ((Regex.cat [Regex.lit L, Regex.plus (Regex.cls true [(':', ':')])]).run false
      ⟨pos, L.data ++ (body ++ rest), caps⟩).head? =
      some ⟨pos + L.data.length + body.length, rest, caps⟩ := by
  apply head_seq false _ _ _ _ _
    (head_lit false L pos L.data (body ++ rest) caps rfl (litPrefix_self _ _))
  apply head_seq false _ _ _ _ _
    (head_plus_cls false true _ body rest hne (fun c hc => clsMatch_notColon c (hbody c hc))
      ?_ _ caps)
  · rfl
  · intro c cs hcs
    rcases hrest with h | ⟨t, h⟩
    · rw [h] at hcs; cases hcs
    · rw [h] at hcs
      simp only [List.cons.injEq] at hcs
      rw [← hcs.1]
      exact clsMatch_colon

theorem run_prefixBranch_nil (L : String) (l : List Char) (pos : Nat)
    (caps : List (Nat × List Char)) (h : litPrefix false L.data l = false) :
    (Regex.cat [Regex.lit L, Regex.plus (Regex.cls true [(':', ':')])]).run false
      ⟨pos, l, caps⟩ = [] := by
  simp [Regex.cat, run_seq, run_lit, h]

theorem head_alt_left (ic : Bool) (a b : Regex) (s s1 : MState)
    (h : (a.run ic s).head? = some s1) : ((Regex.alt a b).run ic s).head? = some s1 := by
  rw [run_alt]
  cases hr : a.run ic s with
  | nil => rw [hr] at h; simp at h
  | cons x xs => rw [hr] at h; simpa using h

theorem head_alt_right (ic : Bool) (a b : Regex) (s : MState) (h : a.run ic s = []) :
    ((Regex.alt a b).run ic s).head? = (b.run ic s).head? := by
  rw [run_alt, h, List.nil_append]

/-- On a name that begins with one of the four prefixes, goes on without a colon and then
ends or meets a colon, the package pattern captures everything before the colon. -/
theorem rePackagePrefix_exec (P : String) (hP : P ∈ packagePrefixes) (body rest : List Char)
    (hne : body ≠ []) (hbody : ∀ c ∈ body, c ≠ ':') (hrest : rest = [] ∨ ∃ t, rest = ':' :: t)
    (name : String) (hname : name.data = P.data ++ (body ++ rest)) :
    ∃ m, rePackagePrefix.exec name = some m ∧ m.cap 1 = some (String.mk (P.data ++ body)) := by
  have halt : ((Regex.alt (Regex.cat [Regex.lit "com.", Regex.plus (Regex.cls true [(':', ':')])])
      (Regex.alt (Regex.cat [Regex.lit "org.", Regex.plus (Regex.cls true [(':', ':')])])
      (Regex.alt (Regex.cat [Regex.lit "net.", Regex.plus (Regex.cls true [(':', ':')])])
      (Regex.cat [Regex.lit "io.", Regex.plus (Regex.cls true [(':', ':')])])))).run false
      ⟨0, P.data ++ (body ++ rest), []⟩).head? =
      some ⟨0 + P.data.length + body.length, rest, []⟩ := by
    simp only [packagePrefixes, List.mem_cons, List.mem_singleton, List.not_mem_nil,
      or_false] at hP
    rcases hP with rfl | rfl | rfl | rfl
    · exact head_alt_left _ _ _ _ _ (head_prefixBranch "com." body rest hne hbody hrest 0 [])
    · have n1 := run_prefixBranch_nil "com." ("org.".data ++ (body ++ rest)) 0 [] rfl
      rw [head_alt_right _ _ _ _ n1]
      exact head_alt_left _ _ _ _ _ (head_prefixBranch "org." body rest hne hbody hrest 0 [])
    · have n1 := run_prefixBranch_nil "com." ("net.".data ++ (body ++ rest)) 0 [] rfl
      have n2 := run_prefixBranch_nil "org." ("net.".data ++ (body ++ rest)) 0 [] rfl
      rw [head_alt_right _ _ _ _ n1, head_alt_right _ _ _ _ n2]
      exact head_alt_left _ _ _ _ _ (head_prefixBranch "net." body rest hne hbody hrest 0 [])
    · have n1 := run_prefixBranch_nil "com." ("io.".data ++ (body ++ rest)) 0 [] rfl
      have n2 := run_prefixBranch_nil "org." ("io.".data ++ (body ++ rest)) 0 [] rfl
      have n3 := run_prefixBranch_nil "net." ("io.".data ++ (body ++ rest)) 0 [] rfl
      rw [head_alt_right _ _ _ _ n1, head_alt_right _ _ _ _ n2, head_alt_right _ _ _ _ n3]
      exact head_prefixBranch "io." body rest hne hbody hrest 0 []
  have hhead : (rePackagePrefix.pattern.run rePackagePrefix.ignoreCase ⟨0, name.data, []⟩).head? =
      some ⟨0 + P.data.length + body.length, rest,
        setCap 1 ((P.data ++ (body ++ rest)).take (0 + P.data.length + body.length - 0)) []⟩ := by
    rw [hname]
    exact head_seq false Regex.bos _ ⟨0, P.data ++ (body ++ rest), []⟩
      ⟨0, P.data ++ (body ++ rest), []⟩ _ rfl
      (head_seq false _ _ _ _ _ (head_group false 1 _ _ _ halt) rfl)
  obtain ⟨m, hm, hcaps⟩ := exec_of_head rePackagePrefix name _ hhead
  refine ⟨m, hm, ?_⟩
  simp only at hcaps
  have htake : (P.data ++ (body ++ rest)).take (0 + P.data.length + body.length - 0) =
      P.data ++ body := by
    rw [← List.append_assoc]
    have : 0 + P.data.length + body.length - 0 = (P.data ++ body).length := by simp
    rw [this, List.take_left]
  rw [htake] at hcaps
  simp [MatchResult.cap, hcaps, setCap, List.find?]

theorem includes_dot (name : String) (h : '.' ∈ name.data) : includes name "." = true := by
  obtain ⟨a, t, hat⟩ := List.append_of_mem h
  unfold includes
  rw [includesList_iff]
  exact ⟨a, t, by rw [hat]; simp⟩

theorem takeWhile_notColon (X rest : List Char) (hX : ∀ c ∈ X, c ≠ ':')
    (hrest : rest = [] ∨ ∃ t, rest = ':' :: t) :
    (X ++ rest).takeWhile (fun c => c != ':') = X := by
  induction X with
  | nil =>
    rcases hrest with h | ⟨t, h⟩ <;> simp [h]
  | cons x xs ih =>
    have hx : x ≠ ':' := hX x (by simp)
    simp only [List.cons_append, List.takeWhile_cons, bne_iff_ne, ne_eq, hx, not_false_eq_true,
      if_true, List.cons.injEq, true_and]
    exact ih (fun c hc => hX c (by simp [hc]))

theorem startsWith_split (b P : String) (h : startsWith b P = true) :
    ∃ b1, b.data = P.data ++ b1 := by
  unfold startsWith at h
  rw [List.isPrefixOf_iff_prefix] at h
  obtain ⟨t, ht⟩ := h
  exact ⟨t, ht.symm⟩

/-- Both derivations of a package id, on a name made of a package id `b`, a tail without a
colon and possibly a colon part: the suffix chain applied to `b` with the tail. -/
theorem derive_both (b P : String) (hP : P ∈ packagePrefixes) (hstart : startsWith b P = true)
    (hcolon : ':' ∉ b.data) (tail rest : List Char) (hne : tail ≠ [])
    (htail : ∀ c ∈ tail, c ≠ ':') (hrest : rest = [] ∨ ∃ t, rest = ':' :: t)
    (name : String) (hname : name.data = b.data ++ tail ++ rest) :
    processes.packageOf name = some (stripProcessSuffixes (String.mk (b.data ++ tail))) ∧
    processSecurityReview.packageName name =
      some (stripProcessSuffixes (String.mk (b.data ++ tail))) := by
  obtain ⟨b1, hb1⟩ := startsWith_split b P hstart
  have hX : ∀ c ∈ b.data ++ tail, c ≠ ':' := by
    intro c hc
    rcases List.mem_append.mp hc with hc | hc
    · intro h; rw [h] at hc; exact hcolon hc
    · exact htail c hc
  constructor
  · have hdotP : '.' ∈ P.data := by
      exact (by decide : ∀ P ∈ packagePrefixes, '.' ∈ P.data) P hP
    have hdot : '.' ∈ name.data := by
      rw [hname, hb1]; simp [hdotP]
    have hne2 : name ≠ "" := by
      intro h; rw [h] at hdot; simp at hdot
    have hff : firstField ':' name = String.mk (b.data ++ tail) := by
      unfold firstField
      rw [hname, takeWhile_notColon _ _ hX hrest]
    simp [processes.packageOf, includes_dot name hdot, hne2, hff]
  · have hbody : ∀ c ∈ b1 ++ tail, c ≠ ':' := by
      intro c hc
      apply hX c
      rw [hb1]
      rcases List.mem_append.mp hc with hc | hc
      · simp [hc]
      · simp [hc]
    obtain ⟨m, hm, hcap⟩ := rePackagePrefix_exec P hP (b1 ++ tail) rest (by simp [hne]) hbody
      hrest name (by rw [hname, hb1]; simp)
    simp only [processSecurityReview.packageName, hm, hcap, Option.getD_some, hb1,
      List.append_assoc]


theorem digit_ne_colon (c : Char) (h : isDigitChar c = true) : c ≠ ':' :=
  (by decide : ∀ c ∈ digitChars, c ≠ ':') c (isDigitChar_cases c h)

theorem markerTail_no_colon (s : String) (hs : s ∈ suffixMarkers) :
    ∀ c ∈ '.' :: s.data, c ≠ ':' :=
  (by decide : ∀ s ∈ suffixMarkers, ∀ c ∈ '.' :: s.data, c ≠ ':') s hs

theorem zygoteTail_no_colon (w : String) (hw : w ∈ zygoteMarkers) (n : List Char)
    (hn : ∀ c ∈ n, isDigitChar c = true) : ∀ c ∈ '_' :: (w.data ++ n), c ≠ ':' := by
  intro c hc
  rcases List.mem_cons.mp hc with hc | hc
  · rw [hc]; decide
  · rcases List.mem_append.mp hc with hc | hc
    · exact (by decide : ∀ w ∈ zygoteMarkers, ∀ c ∈ w.data, c ≠ ':') w hw c hc
    · exact digit_ne_colon c (hn c hc)

theorem derive_marker (b P s : String) (hP : P ∈ packagePrefixes)
    (hstart : startsWith b P = true) (hcolon : ':' ∉ b.data)
    (h2 : reIsolatedSuffix.test b = false) (h3 : reUnderscoredSuffix.test b = false)
    (h4 : reZygoteSuffix.test b = false) (hs : s ∈ suffixMarkers)
    (rest : List Char) (hrest : rest = [] ∨ ∃ t, rest = ':' :: t)
    (name : String) (hname : name.data = b.data ++ '.' :: s.data ++ rest) :
    processes.packageOf name = some b ∧ processSecurityReview.packageName name = some b := by
  have h := derive_both b P hP hstart hcolon ('.' :: s.data) rest (by simp)
    (markerTail_no_colon s hs) hrest name hname
  rw [strip_marker b s hs h2 h3 h4] at h
  exact h

theorem derive_zygote (b P w : String) (hP : P ∈ packagePrefixes)
    (hstart : startsWith b P = true) (hcolon : ':' ∉ b.data) (hw : w ∈ zygoteMarkers)
    (n : List Char) (hn : ∀ c ∈ n, isDigitChar c = true)
    (name : String) (hname : name.data = b.data ++ '_' :: (w.data ++ n)) :
    processes.packageOf name = some b ∧ processSecurityReview.packageName name = some b := by
  have h := derive_both b P hP hstart hcolon ('_' :: (w.data ++ n)) [] (by simp)
    (zygoteTail_no_colon w hw n hn) (Or.inl rfl) name (by simpa using hname)
  rw [strip_zygote b w hw n hn] at h
  exact h

/-- C17. Let `b` be a package id that begins with `com.`, `org.`, `net.` or `io.`, holds
no colon, and on which none of the four stripped patterns matches (each is anchored at the
end, so `b` ends in none of them).  Then for every marker `s` among persistent, unstable,
remote, process, isolated and ui, every string `n` of decimal digits (the empty one
included) and every text `t`, both derivations of the package id, the one in `processes`
and the one in `processSecurityReview`, return exactly `b` on each of the process names
`b.s`, `b.s:t`, `b.isolated` with `n`, `b_zygote` with `n`, `b_sandboxed` with `n` and
`b_privileged` with `n`. -/
theorem normalisation_strips_suffixes (b s n t : String)
    (hstart : ∃ P ∈ packagePrefixes, startsWith b P = true)
    (hcolon : ':' ∉ b.data)
    (hclean : reMarkerSuffix.test b = false ∧ reIsolatedSuffix.test b = false ∧
      reUnderscoredSuffix.test b = false ∧ reZygoteSuffix.test b = false)
    (hs : s ∈ suffixMarkers) (hn : ∀ c ∈ n.data, isDigitChar c = true) :
    ∀ name ∈ [b ++ "." ++ s, b ++ "." ++ s ++ ":" ++ t, b ++ ".isolated" ++ n,
        b ++ "_zygote" ++ n, b ++ "_sandboxed" ++ n, b ++ "_privileged" ++ n],
      processes.packageOf name = some b ∧ processSecurityReview.packageName name = some b := by
  obtain ⟨P, hP, hpre⟩ := hstart
  obtain ⟨_, h2, h3, h4⟩ := hclean
  intro name hname
  simp only [List.mem_cons, List.mem_singleton, List.not_mem_nil, or_false] at hname
  rcases hname with rfl | rfl | rfl | rfl | rfl | rfl
  · exact derive_marker b P s hP hpre hcolon h2 h3 h4 hs [] (Or.inl rfl) _
      (by simp [String.data_append])
  · exact derive_marker b P s hP hpre hcolon h2 h3 h4 hs (':' :: t.data) (Or.inr ⟨_, rfl⟩) _
      (by simp [String.data_append])
  · cases hnd : n.data with
    | nil =>
      exact derive_marker b P "isolated" hP hpre hcolon h2 h3 h4 (by decide) []
        (Or.inl rfl) _ (by simp [String.data_append, hnd])
    | cons d ds =>
      have hn2 : ∀ c ∈ d :: ds, isDigitChar c = true := by rw [← hnd]; exact hn
      have h := derive_both b P hP hpre hcolon ('.' :: ("isolated".data ++ (d :: ds))) []
        (by simp) (by
          intro c hc
          rcases List.mem_cons.mp hc with hc | hc
          · rw [hc]; decide
          · rcases List.mem_append.mp hc with hc | hc
            · exact (by decide : ∀ c ∈ "isolated".data, c ≠ ':') c hc
            · exact digit_ne_colon c (hn2 c hc))
        (Or.inl rfl) (b ++ ".isolated" ++ n) (by simp [String.data_append, hnd])
      rw [strip_isolatedN b (d :: ds) (by simp) hn2 h3 h4] at h
      exact h
  · exact derive_zygote b P "zygote" hP hpre hcolon (by decide) n.data hn _
      (by simp [String.data_append])
  · exact derive_zygote b P "sandboxed" hP hpre hcolon (by decide) n.data hn _
      (by simp [String.data_append])
  · exact derive_zygote b P "privileged" hP hpre hcolon (by decide) n.data hn _
      (by simp [String.data_append])

/-- Witness for C17: the package id `com.example.app`, with the marker remote, the digits
`12` and the text `push`. -/
theorem normalisation_strips_suffixes_witness :
    (reMarkerSuffix.test "com.example.app" = false ∧
      reIsolatedSuffix.test "com.example.app" = false ∧
      reUnderscoredSuffix.test "com.example.app" = false ∧
      reZygoteSuffix.test "com.example.app" = false) ∧
    processes.packageOf "com.example.app.remote:push" = some "com.example.app" ∧
    processSecurityReview.packageName "com.example.app.remote:push" = some "com.example.app" ∧
    processes.packageOf "com.example.app.isolated12" = some "com.example.app" ∧
    processSecurityReview.packageName "com.example.app_zygote12" = some "com.example.app" :=
  ⟨by decide!,
   (normalisation_strips_suffixes "com.example.app" "remote" "12" "push"
      ⟨"com.", by decide, by decide!⟩ (by decide!) (by decide!) (by decide) (by decide!)
      "com.example.app.remote:push" (by decide!)).1,
   (normalisation_strips_suffixes "com.example.app" "remote" "12" "push"
      ⟨"com.", by decide, by decide!⟩ (by decide!) (by decide!) (by decide) (by decide!)
      "com.example.app.remote:push" (by decide!)).2,
   (normalisation_strips_suffixes "com.example.app" "remote" "12" "push"
      ⟨"com.", by decide, by decide!⟩ (by decide!) (by decide!) (by decide) (by decide!)
      "com.example.app.isolated12" (by decide!)).1,
   (normalisation_strips_suffixes "com.example.app" "remote" "12" "push"
      ⟨"com.", by decide, by decide!⟩ (by decide!) (by decide!) (by decide) (by decide!)
      "com.example.app_zygote12" (by decide!)).2⟩

/-! ## Flag and severity; the allow-list suffix rule -/

/-- C23. The flag `isSuspicious` returned by `analyzeDomainForC2` is not determined by the
returned risk: `abtest.example.org` matches a table pattern of risk medium and is returned
with `isSuspicious = false` (the flag of a table match is true only for high and critical),
while `example.cn` gets the geo verdict, also of risk medium, with `isSuspicious = true`.
So no function of the risk gives the flag. -/
theorem isSuspicious_not_determined_by_risk :
    (analyzeDomainForC2 "abtest.example.org" "" none).risk = "medium" ∧
    (analyzeDomainForC2 "abtest.example.org" "" none).isSuspicious = false ∧
    (analyzeDomainForC2 "example.cn" "" none).risk = "medium" ∧
    (analyzeDomainForC2 "example.cn" "" none).isSuspicious = true ∧
    ¬ ∃ f : String → Bool, ∀ (domain ip : String) (ipInfo : Option IpInfo),
      (analyzeDomainForC2 domain ip ipInfo).isSuspicious =
        f (analyzeDomainForC2 domain ip ipInfo).risk := by
  have h1 : (analyzeDomainForC2 "abtest.example.org" "" none).risk = "medium" := by decide!
  have h2 : (analyzeDomainForC2 "abtest.example.org" "" none).isSuspicious = false := by decide!
  have h3 : (analyzeDomainForC2 "example.cn" "" none).risk = "medium" := by decide!
  have h4 : (analyzeDomainForC2 "example.cn" "" none).isSuspicious = true := by decide!
  refine ⟨h1, h2, h3, h4, ?_⟩
  rintro ⟨f, hf⟩
  have e1 := hf "abtest.example.org" "" none
  have e2 := hf "example.cn" "" none
  rw [h1, h2] at e1
  rw [h3, h4] at e2
  rw [← e1] at e2
  cases e2

theorem endsWithCI_append (s t : String) : endsWithCI (s ++ t) t = true := by
  simp [endsWithCI, String.data_append, List.isSuffixOf_iff_suffix]

/-- C25. The allow-list rule for `google.com` has no label boundary: for every string `s`,
with or without a trailing dot, every `ip` and every `ipInfo`, `analyzeDomainForC2`
returns for `s` followed by `google.com` the verdict legitimate with risk none and
`isSuspicious = false`; so it does for `c2.evilgoogle.com`, and also for a name on which a
suspicious pattern of the table matches. -/
theorem allowList_suffix_no_label_boundary :
    (∀ (s ip : String) (ipInfo : Option IpInfo),
      analyzeDomainForC2 (s ++ "google.com") ip ipInfo =
        { isSuspicious := false, reason := none, category := "legitimate", risk := "none" }) ∧
    analyzeDomainForC2 "c2.evilgoogle.com" "" (some { risk := some "high" }) =
      { isSuspicious := false, reason := none, category := "legitimate", risk := "none" } ∧
    firstSuspicious "tracking.xiaomi.evilgoogle.com" suspiciousDomainPatterns ≠ none ∧
    (analyzeDomainForC2 "tracking.xiaomi.evilgoogle.com" "" none).isSuspicious = false := by
  have key : ∀ (s ip : String) (ipInfo : Option IpInfo),
      analyzeDomainForC2 (s ++ "google.com") ip ipInfo =
        { isSuspicious := false, reason := none, category := "legitimate", risk := "none" } := by
    intro s ip ipInfo
    have hl : anyLegit (s ++ "google.com") legitimateDomains = true :=
      anyLegit_of_allowListed _ (by simp [allowListed, endsWithCI_append])
    simp [analyzeDomainForC2, hl]
  refine ⟨key, key "c2.evil" "" _, by decide!, ?_⟩
  have := key "tracking.xiaomi.evil" "" none
  have e : ("tracking.xiaomi.evil" : String) ++ "google.com" = "tracking.xiaomi.evilgoogle.com" := by
    decide
  rw [e] at this
  rw [this]

/-! ## Removal recommendations -/

/-- C26 (code bug). The list returned by `_getRemovalRecommendation` holds both the action
`DO NOT REMOVE` and the action `Recommended to remove` exactly when the safety tier is
dangerous and the package id contains `analytics`, `msa` or `joyose`: the second test is
made whatever the tier.  The package id `com.vendor.android.analytics` has no table row,
gets the tier dangerous from `packageDependencies` (it contains `android.` and not
`com.android.`), and its recommendations are the two contradictory actions. -/
theorem recommendations_contradictory :
    (∀ (pkg : String) (knownInfo : Option DepInfo) (safetyLevel : String),
      ((∃ r ∈ _getRemovalRecommendation pkg knownInfo safetyLevel, r.action = "DO NOT REMOVE") ∧
       (∃ r ∈ _getRemovalRecommendation pkg knownInfo safetyLevel,
          r.action = "Recommended to remove")) ↔
      (safetyLevel = "dangerous" ∧
        (includes pkg "analytics" = true ∨ includes pkg "msa" = true ∨
          includes pkg "joyose" = true))) ∧
    packageDependencies.knownInfo "com.vendor.android.analytics" = none ∧
    packageDependencies.safetyLevel "com.vendor.android.analytics" = "dangerous" ∧
    (packageDependencies.recommendations "com.vendor.android.analytics").map
      (fun r => r.action) = ["DO NOT REMOVE", "Recommended to remove"] := by
  refine ⟨?_, by decide!, by decide!, by decide!⟩
  intro pkg knownInfo safetyLevel
  unfold _getRemovalRecommendation
  by_cases hd : safetyLevel = "dangerous"
  · subst hd
    by_cases ha : (includes pkg "analytics" || includes pkg "msa" || includes pkg "joyose") = true
    · have ha2 := ha
      simp only [Bool.or_eq_true] at ha2
      simp only [ha, if_true]
      constructor
      · intro _
        exact ⟨by simp, by tauto⟩
      · intro _
        exact ⟨⟨⟨"DO NOT REMOVE", "This package is critical for system operation", ""⟩,
          by simp, rfl⟩, ⟨⟨"Recommended to remove", "Telemetry/advertising package", ""⟩,
          by simp, rfl⟩⟩
    · have ha2 := ha
      simp only [Bool.or_eq_true, not_or] at ha2
      simp only [ha, if_true]
      constructor
      · rintro ⟨_, r, hr, hact⟩
        exfalso
        simp only [Bool.false_eq_true, if_false, List.append_nil, List.mem_append,
          List.mem_singleton, List.not_mem_nil, List.nil_append] at hr
        rcases hr with hr | hr
        · subst hr; simp at hact
        · split at hr
          · simp only [List.mem_singleton] at hr; subst hr; simp at hact
          · simp at hr
      · rintro ⟨_, h⟩
        exfalso
        rcases h with h | h | h
        · exact ha2.1.1 h
        · exact ha2.1.2 h
        · exact ha2.2 h
  · constructor
    · rintro ⟨⟨r, hr, hact⟩, _⟩
      exfalso
      simp only [hd, if_false, List.mem_append] at hr
      rcases hr with (hr | hr) | hr
      · split at hr
        · simp only [List.mem_singleton] at hr; subst hr; simp at hact
        · split at hr
          · simp only [List.mem_singleton] at hr; subst hr; simp at hact
          · simp at hr
      · split at hr
        · simp only [List.mem_singleton] at hr; subst hr; simp at hact
        · simp at hr
      · split at hr
        · simp only [List.mem_singleton] at hr; subst hr; simp at hact
        · simp at hr
    · rintro ⟨h, _⟩
      exact absurd h hd

/-! ## The two result lists of the process review -/

theorem reviewLoop_suspicious (installed : List String) (ls : List String)
    (acc : ReviewLists) :
    (reviewLoop installed ls acc).suspiciousProcesses =
      acc.suspiciousProcesses ++
        ((ls.filterMap parseProcessLine).filter (fun cols =>
          decide ((reviewProcess installed cols).flags.length > 0) &&
            !isKnownSystem cols.name)).map (reviewProcess installed) := by
  induction ls generalizing acc with
  | nil => simp [reviewLoop]
  | cons line more ih =>
    simp only [reviewLoop]
    cases hp : parseProcessLine line with
    | none => simp only [ih, List.filterMap_cons, hp]
    | some cols =>
      simp only [ih, List.filterMap_cons, hp, List.filter_cons]
      split <;> simp

theorem mem_suspiciousProcesses (pkgStdout disabledStdout psStdout timestamp : String)
    (p : ProcessInfo) :
    p ∈ (reviewReport pkgStdout disabledStdout psStdout timestamp).suspiciousProcesses ↔
      (∃ line ∈ (lines psStdout).drop 1, ∃ cols, parseProcessLine line = some cols ∧
        p = reviewProcess (installedPackages pkgStdout disabledStdout) cols ∧
        p.flags.length > 0 ∧ isKnownSystem cols.name = false) ∧
      ((∃ u ∈ (reviewReport pkgStdout disabledStdout psStdout timestamp).unregisteredProcesses,
          samePid u p = true) → ∃ f ∈ p.flags, f.type ≠ "unregistered") := by
  simp only [reviewReport, mem_sortBySeverity, uniqueSuspicious, reviewLoop_suspicious,
    List.nil_append, List.mem_filter, List.mem_map, List.mem_filterMap, Bool.and_eq_true,
    decide_eq_true_eq, Bool.not_eq_true', Bool.or_eq_true, List.any_eq_true, bne_iff_ne, ne_eq,
    List.any_eq_false]
  constructor
  · rintro ⟨⟨cols, ⟨⟨line, hl, hc⟩, hlen, hk⟩, rfl⟩, hor⟩
    refine ⟨⟨line, hl, cols, hc, rfl, hlen, hk⟩, ?_⟩
    rintro ⟨u, hu, hsame⟩
    rcases hor with hno | hflag
    · exact absurd hsame (by simpa using hno u hu)
    · exact hflag
  · rintro ⟨⟨line, hl, cols, hc, rfl, hlen, hk⟩, himp⟩
    refine ⟨⟨cols, ⟨⟨line, hl, hc⟩, hlen, hk⟩, rfl⟩, ?_⟩
    by_cases hex : ∃ u ∈ (reviewLoop (installedPackages pkgStdout disabledStdout)
        ((lines psStdout).drop 1) ⟨[], [], []⟩).unregisteredProcesses,
        samePid u (reviewProcess (installedPackages pkgStdout disabledStdout) cols) = true
    · exact Or.inr (himp hex)
    · left
      intro u hu
      simp only [not_exists, not_and] at hex
      simpa using hex u hu


/-- C24 (as stated) fails: the process `com.evil.app` of pid 77, run by root, is not
installed and not a known system process; it carries the flags unregistered and privilege,
and after the duplicate-removal step it stands in both lists of the report. -/
theorem duplicate_removal_counterexample :
    ((reviewReport "" "" "PID USER NAME\n 77 root com.evil.app" "t").unregisteredProcesses.map
      (fun p => p.pid)) = [some 77] ∧
    ((reviewReport "" "" "PID USER NAME\n 77 root com.evil.app" "t").suspiciousProcesses.map
      (fun p => p.pid)) = [some 77] ∧
    ((reviewReport "" "" "PID USER NAME\n 77 root com.evil.app" "t").suspiciousProcesses.map
      (fun p => p.flags.map (fun f => f.type))) = [["unregistered", "privilege"]] := by
  decide!

/-- C24 (amended). After the duplicate-removal step of `processSecurityReview`, an entry of
`suspiciousProcesses` whose pid also occurs in `unregisteredProcesses` carries a flag of
another type than `unregistered` (a suspicious pattern, privilege or shell): only
processes whose flags are all of type `unregistered` are removed from the suspicious
list. -/
theorem duplicate_removal (pkgStdout disabledStdout psStdout timestamp : String)
    (p : ProcessInfo)
    (hp : p ∈ (reviewReport pkgStdout disabledStdout psStdout timestamp).suspiciousProcesses)
    (hu : ∃ u ∈ (reviewReport pkgStdout disabledStdout psStdout timestamp).unregisteredProcesses,
      samePid u p = true) :
    ∃ f ∈ p.flags, f.type ≠ "unregistered" :=
  ((mem_suspiciousProcesses pkgStdout disabledStdout psStdout timestamp p).mp hp).2 hu

/-- Witness for C24 (amended): the process of pid 77 stands in both lists and carries the
flag privilege. -/
theorem duplicate_removal_witness :
    ∃ f ∈ (reviewProcess []
        { pid := "77", user := "root", name := "com.evil.app", cmdline := some "" }).flags,
      f.type ≠ "unregistered" :=
  duplicate_removal "" "" "PID USER NAME\n 77 root com.evil.app" "t"
    (reviewProcess [] { pid := "77", user := "root", name := "com.evil.app", cmdline := some "" })
    (by decide!)
    ⟨reviewProcess [] { pid := "77", user := "root", name := "com.evil.app", cmdline := some "" },
      by decide!, by decide!⟩

/-- Claim C27 (code defect): the process `/data/local/tmp/sh` is flagged with the pattern
"Running from temp directory" of severity high, yet it is in neither list of the report.
The test for a known system process is a substring test, the name contains `sh`, one of
the entries of `knownSystemProcesses`, and so the flagged process is not put on the
suspicious list; it has no package id, so it is not on the unregistered list either. -/
theorem flagged_process_hidden :
    parseProcessLine " 77 u0_a55 /data/local/tmp/sh" =
      some { pid := "77", user := "u0_a55", name := "/data/local/tmp/sh", cmdline := some "" } ∧
    (reviewProcess []
        { pid := "77", user := "u0_a55", name := "/data/local/tmp/sh", cmdline := some "" }).flags =
      [{ type := "suspicious", severity := "high", reason := "Running from temp directory" }] ∧
    isKnownSystem "/data/local/tmp/sh" = true ∧
    (reviewReport "" "" "PID USER NAME\n 77 u0_a55 /data/local/tmp/sh" "t").suspiciousProcesses
      = [] ∧
    (reviewReport "" "" "PID USER NAME\n 77 u0_a55 /data/local/tmp/sh" "t").unregisteredProcesses
      = [] := by
  decide!

/-! ## Fixed points of the suffix chain -/

/-- What a replacement that fires does: it cuts one non-overlapping piece, the text read
by the first outcome at the leftmost matching position. -/
theorem replaceFirst_cut (re : RegExp) (s : String) (m : MatchResult)
    (h : re.exec s = some m) :
    ∃ pre consumed rest s1, s.data = pre ++ (consumed ++ rest) ∧
      s1 ∈ re.pattern.run re.ignoreCase ⟨pre.length, consumed ++ rest, []⟩ ∧
      s1.pos = pre.length + consumed.length ∧
      (replaceFirst re s).data = pre ++ rest := by
  have h0 := h
  unfold RegExp.exec at h
  obtain ⟨pre, suf, hl, hmatch, _⟩ := searchFrom_some _ _ _ _ _ h
  simp only [Nat.zero_add] at hmatch
  obtain ⟨s1, _, hs1, hm⟩ := matchAt_some _ _ _ _ _ hmatch
  obtain ⟨consumed, hc, hpos, _⟩ := run_reads _ _ _ _ hs1
  simp only at hc hpos
  refine ⟨pre, consumed, s1.rest, s1, by rw [hl, hc], by rw [← hc]; exact hs1, hpos, ?_⟩
  have hlen : m.matched.length = consumed.length := by
    rw [hm]
    simp only [hpos, Nat.add_sub_cancel_left, List.length_take]
    rw [hc]
    simp
  have hidx : m.index = pre.length := by rw [hm]
  simp only [replaceFirst, h0, hidx, hlen, hl, hc]
  rw [List.take_left, ← List.append_assoc, ← List.length_append, List.drop_left]

theorem replaceFirst_length_le (re : RegExp) (s : String) :
    (replaceFirst re s).data.length ≤ s.data.length := by
  cases h : re.exec s with
  | none => rw [replaceFirst_of_exec_none re s h]
  | some m =>
    obtain ⟨pre, consumed, rest, s1, hs, _, _, hr⟩ := replaceFirst_cut re s m h
    rw [hr, hs]
    simp only [List.length_append]
    omega

theorem run_seq_chr_pos (ic : Bool) (p0 : Char) (r : Regex) (s s1 : MState)
    (h : s1 ∈ (Regex.seq (Regex.chr p0) r).run ic s) : s.pos + 1 ≤ s1.pos := by
  rw [run_seq] at h
  obtain ⟨s2, hs2, hs1⟩ := List.mem_flatMap.mp h
  rw [run_chr] at hs2
  obtain ⟨_, _, _, hp⟩ := stepChar_step _ _ _ hs2
  obtain ⟨consumed, _, hpos, _⟩ := run_reads _ _ _ _ hs1
  omega

/-- A replacement whose pattern begins with a literal character shortens the text when it
fires. -/
theorem replaceFirst_length_lt (re : RegExp) (p0 : Char) (r : Regex)
    (hshape : ∀ s, re.pattern.run re.ignoreCase s =
      (Regex.seq (Regex.chr p0) r).run re.ignoreCase s)
    (s : String) (h : re.test s = true) :
    (replaceFirst re s).data.length < s.data.length := by
  unfold RegExp.test at h
  cases hx : re.exec s with
  | none => rw [hx] at h; simp at h
  | some m =>
    obtain ⟨pre, consumed, rest, s1, hs, hs1, hpos, hr⟩ := replaceFirst_cut re s m hx
    rw [hshape] at hs1
    have := run_seq_chr_pos _ _ _ _ _ hs1
    simp only at this
    rw [hr, hs]
    simp only [List.length_append]
    omega

theorem replaceFirst_fixed_iff (re : RegExp) (p0 : Char) (r : Regex)
    (hshape : ∀ s, re.pattern.run re.ignoreCase s =
      (Regex.seq (Regex.chr p0) r).run re.ignoreCase s)
    (s : String) : replaceFirst re s = s ↔ re.test s = false := by
  constructor
  · intro h
    cases ht : re.test s with
    | false => rfl
    | true =>
      have := replaceFirst_length_lt re p0 r hshape s ht
      rw [h] at this
      exact absurd this (Nat.lt_irrefl _)
  · exact replaceFirst_of_test_false re s

/-- C30 (as stated) fails: the chain maps `com.example.app.remote.ui` to
`com.example.app.remote`, and applied to that result it returns `com.example.app`; each
replacement removes one occurrence of its suffix only.  The same holds for the package id
derived by `processSecurityReview` from these names. -/
theorem stripProcessSuffixes_not_idempotent :
    stripProcessSuffixes "com.example.app.remote.ui" = "com.example.app.remote" ∧
    stripProcessSuffixes "com.example.app.remote" = "com.example.app" ∧
    stripProcessSuffixes (stripProcessSuffixes "com.example.app.remote.ui") ≠
      stripProcessSuffixes "com.example.app.remote.ui" ∧
    processSecurityReview.packageName "com.example.app.remote.ui" =
      some "com.example.app.remote" ∧
    processes.packageOf "com.example.app.remote.ui" = some "com.example.app.remote" ∧
    processSecurityReview.packageName "com.example.app.remote" = some "com.example.app" := by
  decide!

/-- C30 (amended). The chain of four replacements returns a text unchanged if and only if
none of the four patterns matches it.  So applying the chain to an already normalised id
(the result of the chain on any name) returns it unchanged exactly when none of the four
patterns matches that id, and the chain never lengthens a text. -/
theorem stripProcessSuffixes_fixed_iff :
    (∀ x : String, stripProcessSuffixes x = x ↔
      (reMarkerSuffix.test x = false ∧ reIsolatedSuffix.test x = false ∧
        reUnderscoredSuffix.test x = false ∧ reZygoteSuffix.test x = false)) ∧
    (∀ name : String,
      stripProcessSuffixes (stripProcessSuffixes name) = stripProcessSuffixes name ↔
      (reMarkerSuffix.test (stripProcessSuffixes name) = false ∧
        reIsolatedSuffix.test (stripProcessSuffixes name) = false ∧
        reUnderscoredSuffix.test (stripProcessSuffixes name) = false ∧
        reZygoteSuffix.test (stripProcessSuffixes name) = false)) ∧
    (∀ x : String, (stripProcessSuffixes x).data.length ≤ x.data.length) := by
  have hle : ∀ (re : RegExp) (s : String), (replaceFirst re s).data.length ≤ s.data.length :=
    replaceFirst_length_le
  have key : ∀ x : String, stripProcessSuffixes x = x ↔
      (reMarkerSuffix.test x = false ∧ reIsolatedSuffix.test x = false ∧
        reUnderscoredSuffix.test x = false ∧ reZygoteSuffix.test x = false) := by
    intro x
    constructor
    · intro h
      have hlen := congrArg (fun s => s.data.length) h
      simp only [stripProcessSuffixes] at hlen
      have l1 := hle reMarkerSuffix x
      have l2 := hle reIsolatedSuffix (replaceFirst reMarkerSuffix x)
      have l3 := hle reUnderscoredSuffix (replaceFirst reIsolatedSuffix
        (replaceFirst reMarkerSuffix x))
      have l4 := hle reZygoteSuffix (replaceFirst reUnderscoredSuffix
        (replaceFirst reIsolatedSuffix (replaceFirst reMarkerSuffix x)))
      have t1 : reMarkerSuffix.test x = false := by
        cases ht : reMarkerSuffix.test x with
        | false => rfl
        | true =>
          have := replaceFirst_length_lt reMarkerSuffix '.' _ reMarkerSuffix_shape x ht
          omega
      have e1 := replaceFirst_of_test_false _ _ t1
      rw [e1] at hlen l2 l3 l4
      have t2 : reIsolatedSuffix.test x = false := by
        cases ht : reIsolatedSuffix.test x with
        | false => rfl
        | true =>
          have := replaceFirst_length_lt reIsolatedSuffix '.' _ reIsolatedSuffix_shape x ht
          omega
      have e2 := replaceFirst_of_test_false _ _ t2
      rw [e2] at hlen l3 l4
      have t3 : reUnderscoredSuffix.test x = false := by
        cases ht : reUnderscoredSuffix.test x with
        | false => rfl
        | true =>
          have := replaceFirst_length_lt reUnderscoredSuffix '.' _ reUnderscoredSuffix_shape x ht
          omega
      have e3 := replaceFirst_of_test_false _ _ t3
      rw [e3] at hlen l4
      have t4 : reZygoteSuffix.test x = false := by
        cases ht : reZygoteSuffix.test x with
        | false => rfl
        | true =>
          have := replaceFirst_length_lt reZygoteSuffix '_' _ reZygoteSuffix_shape x ht
          omega
      exact ⟨t1, t2, t3, t4⟩
    · rintro ⟨t1, t2, t3, t4⟩
      unfold stripProcessSuffixes
      rw [replaceFirst_of_test_false _ _ t1, replaceFirst_of_test_false _ _ t2,
        replaceFirst_of_test_false _ _ t3, replaceFirst_of_test_false _ _ t4]
  refine ⟨key, fun name => key (stripProcessSuffixes name), ?_⟩
  intro x
  unfold stripProcessSuffixes
  exact (hle _ _).trans ((hle _ _).trans ((hle _ _).trans (hle _ _)))

/-! ## Network observations -/

theorem connectivityLoop_eq (ls : List String) (acc : List CacheEntry) :
    connectivityLoop ls acc =
      (ls.flatMap (fun line => (reConnectivityDomain.matchAll line).map toLowerCase)).foldl
        (pushDomain "connectivity" (fun _ => true)) acc := by
  have hf : pushConnectivityDomain =
      fun E y => pushDomain "connectivity" (fun _ => true) E (toLowerCase y) := by
    funext E y
    simp [pushConnectivityDomain, pushDomain]
  induction ls generalizing acc with
  | nil => rfl
  | cons line more ih =>
    simp only [connectivityLoop, ih, List.flatMap_cons, List.foldl_append, List.foldl_map, hf]

theorem logLoop_eq (ls : List String) (acc : List CacheEntry) :
    logLoop ls acc =
      (ls.flatMap (fun line => (reLogDomain.matchAll line).map toLowerCase)).foldl
        (pushDomain "logcat" (fun d => decide (d.data.length > 5))) acc := by
  have hf : pushLogDomain =
      fun E y => pushDomain "logcat" (fun d => decide (d.data.length > 5)) E (toLowerCase y) := by
    funext E y
    simp [pushLogDomain, pushDomain]
  induction ls generalizing acc with
  | nil => rfl
  | cons line more ih =>
    simp only [logLoop, ih, List.flatMap_cons, List.foldl_append, List.foldl_map, hf]

/-- What a domain loop adds: entries built by `domainEntry` for observed domains that were
not yet the `domain` of an entry, each domain once. -/
theorem foldl_pushDomain (source : String) (guard : String → Bool) (ds : List String)
    (acc : List CacheEntry) :
    ∃ added, ds.foldl (pushDomain source guard) acc = acc ++ added ∧
      (∀ e ∈ added, e = domainEntry e.domain source ∧ e.domain ∈ ds ∧
        e.domain ∉ acc.map (fun x => x.domain)) ∧
      (added.map (fun x => x.domain)).Nodup ∧
      (∀ d ∈ ds, guard d = true → d ∈ (acc ++ added).map (fun x => x.domain)) := by
  induction ds generalizing acc with
  | nil => exact ⟨[], by simp⟩
  | cons d ds ih =>
    simp only [List.foldl_cons]
    by_cases hpush : (!acc.any (fun e => e.domain == d) && guard d) = true
    · have hstep : pushDomain source guard acc d = acc ++ [domainEntry d source] := by
        simp only [pushDomain, hpush, if_true]
      have hnot : d ∉ acc.map (fun x => x.domain) := by
        simp only [Bool.and_eq_true, Bool.not_eq_true', List.any_eq_false, beq_iff_eq] at hpush
        intro hmem
        obtain ⟨e, he, hed⟩ := List.mem_map.mp hmem
        exact hpush.1 e he hed
      obtain ⟨added, heq, hall, hnodup, hcover⟩ := ih (acc ++ [domainEntry d source])
      rw [hstep]
      refine ⟨domainEntry d source :: added, by rw [heq]; simp, ?_, ?_, ?_⟩
      · intro e he
        rcases List.mem_cons.mp he with rfl | he
        · exact ⟨rfl, by simp [domainEntry], by simpa [domainEntry] using hnot⟩
        · obtain ⟨h1, h2, h3⟩ := hall e he
          refine ⟨h1, List.mem_cons_of_mem _ h2, ?_⟩
          intro hmem
          exact h3 (by simp only [List.map_append, List.mem_append]; exact Or.inl hmem)
      · simp only [List.map_cons, List.nodup_cons]
        refine ⟨?_, hnodup⟩
        intro hmem
        obtain ⟨e, he, hed⟩ := List.mem_map.mp hmem
        have := (hall e he).2.2
        apply this
        simp only [List.map_append, List.mem_append, List.map_cons, List.map_nil,
          List.mem_singleton]
        right
        rw [hed]
      · intro x hx hg
        rcases List.mem_cons.mp hx with rfl | hx
        · simp [domainEntry]
        · have := hcover x hx hg
          simpa using this
    · have hstep : pushDomain source guard acc d = acc := by
        simp [pushDomain, hpush]
      obtain ⟨added, heq, hall, hnodup, hcover⟩ := ih acc
      rw [hstep]
      refine ⟨added, heq, ?_, hnodup, ?_⟩
      · intro e he
        obtain ⟨h1, h2, h3⟩ := hall e he
        exact ⟨h1, List.mem_cons_of_mem _ h2, h3⟩
      · intro x hx hg
        rcases List.mem_cons.mp hx with rfl | hx
        · simp only [Bool.and_eq_true, Bool.not_eq_true', not_and, Bool.not_eq_true] at hpush
          have hany : acc.any (fun e => e.domain == x) = true := by
            cases hh : acc.any (fun e => e.domain == x) with
            | true => rfl
            | false => have := hpush hh; rw [hg] at this; cases this
          simp only [List.any_eq_true, beq_iff_eq] at hany
          obtain ⟨e, he, hed⟩ := hany
          simp only [List.map_append, List.mem_append, List.mem_map]
          exact Or.inl ⟨e, he, hed⟩
        · exact hcover x hx hg

theorem netstatLoop_filter (ls : List String) (acc : NetstatLists) :
    (netstatLoop ls acc).cacheEntries.filter (fun e => e.source != "netstat") =
      acc.cacheEntries.filter (fun e => e.source != "netstat") := by
  induction ls generalizing acc with
  | nil => rfl
  | cons line more ih =>
    simp only [netstatLoop]
    split
    · exact ih acc
    · rw [ih]
      simp only
      split
      · simp [List.filter_append]
      · rfl

theorem portLoop_filter (conns : List ActiveConnection) (acc : List CacheEntry) :
    (portLoop conns acc).filter (fun e => e.source != "netstat") =
      acc.filter (fun e => e.source != "netstat") := by
  induction conns generalizing acc with
  | nil => rfl
  | cons conn more ih =>
    simp only [portLoop]
    rw [ih]
    split
    · simp [List.filter_append]
    · rfl


/-- The entries of `cacheEntries` that do not come from `netstat`: first those of the
connectivity dump, then those of the network log. -/
theorem cacheEntries_domains (connectivity netstat networkLogs : String) :
    ∃ C L, (dnsAnalysis.cacheEntries connectivity netstat networkLogs).filter
        (fun e => e.source != "netstat") = C ++ L ∧
      (∀ e ∈ C, e = domainEntry e.domain "connectivity" ∧
        e.domain ∈ observedInConnectivity connectivity) ∧
      (∀ e ∈ L, e = domainEntry e.domain "logcat" ∧ e.domain ∈ observedInLog networkLogs ∧
        e.domain ∉ C.map (fun x => x.domain)) ∧
      (C.map (fun x => x.domain)).Nodup ∧ (L.map (fun x => x.domain)).Nodup ∧
      (∀ d ∈ observedInConnectivity connectivity, d ∈ C.map (fun x => x.domain)) := by
  obtain ⟨C, hC, hCall, hCnodup, hCcover⟩ := foldl_pushDomain "connectivity" (fun _ => true)
    (observedInConnectivity connectivity) []
  simp only [List.nil_append] at hC hCcover
  have hCsrc : C.filter (fun e => e.source != "netstat") = C := by
    apply List.filter_eq_self.mpr
    intro e he
    rw [(hCall e he).1]
    show ("connectivity" != "netstat") = true
    decide
  have hN := netstatLoop_filter (lines netstat) ⟨C, []⟩
  simp only [hCsrc] at hN
  obtain ⟨L, hL, hLall, hLnodup, _⟩ := foldl_pushDomain "logcat"
    (fun d => decide (d.data.length > 5)) (observedInLog networkLogs)
    (netstatLoop (lines netstat) ⟨C, []⟩).cacheEntries
  have hLsrc : L.filter (fun e => e.source != "netstat") = L := by
    apply List.filter_eq_self.mpr
    intro e he
    rw [(hLall e he).1]
    show ("logcat" != "netstat") = true
    decide
  have hCsub : ∀ e ∈ C, e ∈ (netstatLoop (lines netstat) ⟨C, []⟩).cacheEntries := by
    intro e he
    have : e ∈ (netstatLoop (lines netstat) ⟨C, []⟩).cacheEntries.filter
        (fun e => e.source != "netstat") := by rw [hN]; exact he
    exact (List.mem_filter.mp this).1
  refine ⟨C, L, ?_, ?_, ?_, hCnodup, hLnodup, ?_⟩
  · simp only [dnsAnalysis.cacheEntries, portLoop_filter, logLoop_eq, connectivityLoop_eq]
    have e1 : (lines connectivity).flatMap (fun line =>
        (reConnectivityDomain.matchAll line).map toLowerCase) =
        observedInConnectivity connectivity := rfl
    have e2 : (lines networkLogs).flatMap (fun line =>
        (reLogDomain.matchAll line).map toLowerCase) = observedInLog networkLogs := rfl
    rw [e1, e2, hC, hL, List.filter_append, hN, hLsrc]
  · intro e he
    exact ⟨(hCall e he).1, (hCall e he).2.1⟩
  · intro e he
    refine ⟨(hLall e he).1, (hLall e he).2.1, ?_⟩
    intro hmem
    obtain ⟨c, hc, hcd⟩ := List.mem_map.mp hmem
    exact (hLall e he).2.2 (List.mem_map.mpr ⟨c, hCsub c hc, hcd⟩)
  · intro d hd
    exact hCcover d hd trivial

/-- C21 (code bug). Two `netstat` lines with the same high-risk remote address give two
entries with the same `domain` and the same `ip`: the loop over the `netstat` lines pushes
without looking for an existing entry.  Likewise two connections on a high-risk port to
different addresses give two entries with the same `domain`. -/
theorem cacheEntries_duplicates :
    (dnsAnalysis.cacheEntries ""
      ("tcp        0      0 192.168.1.5:43210      161.117.1.1:443      ESTABLISHED\n" ++
       "tcp        0      0 192.168.1.5:43212      161.117.1.1:443      ESTABLISHED") "").map
      (fun e => (e.domain, e.ip)) =
      [("[161.117.1.1]", "161.117.1.1"), ("[161.117.1.1]", "161.117.1.1")] ∧
    (dnsAnalysis.entries ""
      ("tcp        0      0 192.168.1.5:43210      161.117.1.1:443      ESTABLISHED\n" ++
       "tcp        0      0 192.168.1.5:43212      161.117.1.1:443      ESTABLISHED") "").map
      (fun e => (e.domain, e.ip)) =
      [("[161.117.1.1]", "161.117.1.1"), ("[161.117.1.1]", "161.117.1.1")] ∧
    getKnownIpInfo "161.117.1.1" =
      IpInfo.entry "161.117." "Xiaomi/Alibaba" "SG" "high" "Xiaomi Singapore" ∧
    (dnsAnalysis.cacheEntries ""
      ("tcp 0 0 192.168.1.5:43210 9.9.9.9:5222 ESTABLISHED\n" ++
       "tcp 0 0 192.168.1.5:43212 9.9.9.10:5222 ESTABLISHED") "").map
      (fun e => e.domain) = ["[Connection:5222]", "[Connection:5222]"] := by
  decide!

/-- C22 (as stated) fails: a domain seen in the connectivity dump and again in the network
log is kept once, with the source `connectivity` alone; the log is not recorded. -/
theorem sources_not_united :
    observedInConnectivity "DnsAddresses for tracking.miui.com" = ["tracking.miui.com"] ∧
    observedInLog "NetworkMonitor: probing Tracking.miui.com" = ["tracking.miui.com"] ∧
    (dnsAnalysis.cacheEntries "DnsAddresses for tracking.miui.com" ""
      "NetworkMonitor: probing Tracking.miui.com").map (fun e => (e.domain, e.source)) =
      [("tracking.miui.com", "connectivity")] ∧
    includes "connectivity" "logcat" = false := by
  decide!

/-- C22 (amended). Among the entries of `cacheEntries` that do not come from `netstat`, no
two have the same domain.  Each of them carries the verdict `analyzeDomainForC2` gives for
its domain and a single source, `connectivity` or `logcat`: the source of the first
observation.  Every domain observed in the connectivity dump has an entry with source
`connectivity`, and an entry for such a domain has that source also when the domain is
observed again in the network log; an entry with source `logcat` is for a domain observed
in the log and not in the connectivity dump. -/
theorem first_source_kept (connectivity netstat networkLogs : String) :
    (((dnsAnalysis.cacheEntries connectivity netstat networkLogs).filter
        (fun e => e.source != "netstat")).map (fun e => e.domain)).Nodup ∧
    (∀ e ∈ dnsAnalysis.cacheEntries connectivity netstat networkLogs, e.source ≠ "netstat" →
      e.suspicious = analyzeDomainForC2 e.domain "" (some {}) ∧
      (e.source = "connectivity" ∨ e.source = "logcat")) ∧
    (∀ d ∈ observedInConnectivity connectivity,
      ∃ e ∈ dnsAnalysis.cacheEntries connectivity netstat networkLogs,
        e.domain = d ∧ e.source = "connectivity") ∧
    (∀ e ∈ dnsAnalysis.cacheEntries connectivity netstat networkLogs,
      e.domain ∈ observedInConnectivity connectivity → e.source ≠ "netstat" →
      e.source = "connectivity") ∧
    (∀ e ∈ dnsAnalysis.cacheEntries connectivity netstat networkLogs, e.source = "logcat" →
      e.domain ∈ observedInLog networkLogs ∧
      e.domain ∉ observedInConnectivity connectivity) := by
  obtain ⟨C, L, hCL, hC, hL, hCnodup, hLnodup, hcover⟩ :=
    cacheEntries_domains connectivity netstat networkLogs
  have hmem : ∀ e ∈ dnsAnalysis.cacheEntries connectivity netstat networkLogs,
      e.source ≠ "netstat" → e ∈ C ∨ e ∈ L := by
    intro e he hs
    have : e ∈ (dnsAnalysis.cacheEntries connectivity netstat networkLogs).filter
        (fun e => e.source != "netstat") := List.mem_filter.mpr ⟨he, by simpa using hs⟩
    rw [hCL] at this
    exact List.mem_append.mp this
  have hsub : ∀ e, e ∈ C ∨ e ∈ L → e ∈ dnsAnalysis.cacheEntries connectivity netstat networkLogs := by
    intro e he
    have : e ∈ (dnsAnalysis.cacheEntries connectivity netstat networkLogs).filter
        (fun e => e.source != "netstat") := by rw [hCL]; exact List.mem_append.mpr he
    exact (List.mem_filter.mp this).1
  have hCsource : ∀ e ∈ C, e.source = "connectivity" := by
    intro e he; rw [(hC e he).1]; rfl
  have hLsource : ∀ e ∈ L, e.source = "logcat" := by
    intro e he; rw [(hL e he).1]; rfl
  have hLnot : ∀ e ∈ L, e.domain ∉ observedInConnectivity connectivity := by
    intro e he hd
    exact (hL e he).2.2 (hcover _ hd)
  refine ⟨?_, ?_, ?_, ?_, ?_⟩
  · rw [hCL, List.map_append, List.nodup_append]
    refine ⟨hCnodup, hLnodup, ?_⟩
    intro d hdC hdL
    obtain ⟨e, he, hed⟩ := List.mem_map.mp hdL
    exact (hL e he).2.2 (by rw [hed]; exact hdC)
  · intro e he hs
    rcases hmem e he hs with h | h
    · refine ⟨?_, Or.inl (hCsource e h)⟩
      have := (hC e h).1
      rw [this]
      rfl
    · refine ⟨?_, Or.inr (hLsource e h)⟩
      have := (hL e h).1
      rw [this]
      rfl
  · intro d hd
    obtain ⟨e, he, hed⟩ := List.mem_map.mp (hcover d hd)
    exact ⟨e, hsub e (Or.inl he), hed, hCsource e he⟩
  · intro e he hd hs
    rcases hmem e he hs with h | h
    · exact hCsource e h
    · exact absurd hd (hLnot e h)
  · intro e he hs
    have hne : e.source ≠ "netstat" := by rw [hs]; decide
    rcases hmem e he hne with h | h
    · have := hCsource e h
      rw [hs] at this
      exact absurd this (by decide)
    · exact ⟨(hL e h).2.1, hLnot e h⟩

/-- Witness for C22 (amended): `tracking.miui.com`, seen in the connectivity dump and in the
log, has the one entry with source `connectivity`. -/
theorem first_source_kept_witness :
    "tracking.miui.com" ∈ observedInConnectivity "DnsAddresses for tracking.miui.com" ∧
    "tracking.miui.com" ∈ observedInLog "NetworkMonitor: probing Tracking.miui.com" ∧
    (domainEntry "tracking.miui.com" "connectivity").source = "connectivity" :=
  ⟨by decide!, by decide!,
   (first_source_kept "DnsAddresses for tracking.miui.com" ""
      "NetworkMonitor: probing Tracking.miui.com").2.2.2.1
      (domainEntry "tracking.miui.com" "connectivity") (by decide!) (by decide!) (by decide!)⟩

/-- Claim C28 (code defect): with `cpu1` missing from both `/proc/stat` samples, the
listing gives 1800000, 2000000 and 300000 under the header `CPU2`, but the record with
id 2 is returned with frequency, maxFrequency and minFrequency 0: the values are stored
by position in the array of records, the record with id 2 stands at position 1 and
receives the values listed under `CPU1`, and the values under `CPU2` are dropped. -/
theorem frequencies_by_position :
    listedUnder 2 (lines "CPU0\n1000000\n1800000\n300000\nCPU1\n0\n0\n0\nCPU2\n1800000\n2000000\n300000")
        = [1800000, 2000000, 300000] ∧
      listedUnder 1 (lines "CPU0\n1000000\n1800000\n300000\nCPU1\n0\n0\n0\nCPU2\n1800000\n2000000\n300000")
        = [0, 0, 0] ∧
      (cpuInfo.cores "3"
          "cpu  10 0 0 0 0 0 0 0 0 0\ncpu0 5 0 0 5 0 0 0 0 0 0\ncpu2 5 0 0 5 0 0 0 0 0 0"
          "cpu  30 0 0 0 0 0 0 0 0 0\ncpu0 34 0 0 176 0 0 0 0 0 0\ncpu2 5 0 0 5 0 0 0 0 0 0"
          "CPU0\n1000000\n1800000\n300000\nCPU1\n0\n0\n0\nCPU2\n1800000\n2000000\n300000").map
        (fun c => (c.id, c.frequency, c.maxFrequency, c.minFrequency))
        = [(0, 1000000, 1800000, 300000), (2, 0, 0, 0)] := by
  decide!

/-- Claim C29 (counterexample): with the irq counter at `2^53`, where the sums of
`parseCpuStats` are rounded to the nearest double, seven non-decreasing counters give a
usage of 109. -/
theorem usage_above_hundred :
    (cpuInfo.cores "1" "cpu0 3 0 2 2 3 9007199254740992 0 0 0 0"
        "cpu0 5 5 4 2 3 9007199254741000 3 0 0 0" "").map
      (fun c => (c.usage, c.userPct, c.systemPct, c.iowaitPct)) = [(109, 9, 9, 0)] := by
  decide!

theorem roundHalfEven_ge (y : ℚ) (z : ℤ) (h : (z : ℚ) ≤ y) : z ≤ roundHalfEven y := by
  have hz : z ≤ ⌊y⌋ := Int.le_floor.mpr h
  unfold roundHalfEven
  split_ifs <;> omega

theorem roundHalfEven_le (y : ℚ) (z : ℤ) (h : y ≤ (z : ℚ)) : roundHalfEven y ≤ z := by
  have hfl : ⌊y⌋ ≤ z := by
    have : ((⌊y⌋ : ℤ) : ℚ) ≤ z := le_trans (Int.floor_le y) h
    exact_mod_cast this
  have hlt : 0 < y - ⌊y⌋ → ⌊y⌋ + 1 ≤ z := by
    intro hpos
    have h1 : ((⌊y⌋ : ℤ) : ℚ) < z := by linarith
    have h2 : ⌊y⌋ < z := by exact_mod_cast h1
    omega
  unfold roundHalfEven
  split_ifs with h1 h2 h3
  · exact hfl
  · exact hlt (by linarith)
  · exact hfl
  · have : y - ⌊y⌋ = 1 / 2 := le_antisymm (not_lt.mp h2) (not_lt.mp h1)
    exact hlt (by rw [this]; norm_num)

theorem scaleToMantissa_small (fuel : Nat) (y : ℚ) (e : ℤ) (h : |y| < 2 ^ 53) :
    ∃ k : ℕ, scaleToMantissa fuel y e = (y * 2 ^ k, e - k) := by
  induction fuel generalizing y e with
  | zero => exact ⟨0, by simp [scaleToMantissa]⟩
  | succ n ih =>
    unfold scaleToMantissa
    split_ifs with h1 h2
    · have h3 : |y * 2| < 2 ^ 53 := by
        rw [abs_mul]; norm_num
        have : |y| * 2 < 2 ^ 52 * 2 := by linarith
        linarith
      obtain ⟨k, hk⟩ := ih (y * 2) (e - 1) h3
      refine ⟨k + 1, ?_⟩
      rw [hk]
      refine Prod.ext ?_ ?_
      · simp only; rw [pow_succ]; ring
      · simp only; push_cast; ring
    · exact absurd h (not_lt.mpr h2)
    · exact ⟨0, by simp⟩

theorem fl64_ge_int (x : ℚ) (z : ℤ) (hz : (z : ℚ) ≤ x) (hx : |x| < 2 ^ 53) :
    (z : ℚ) ≤ fl64 x := by
  obtain ⟨k, hk⟩ := scaleToMantissa_small 2200 x 0 hx
  unfold fl64
  simp only [hk]
  split_ifs with hc
  · have h1 : ((z * 2 ^ k : ℤ) : ℚ) ≤ x * 2 ^ k := by
      push_cast
      exact mul_le_mul_of_nonneg_right hz (by positivity)
    have h2 := roundHalfEven_ge _ _ h1
    have h3 : ((z * 2 ^ k : ℤ) : ℚ) ≤ (roundHalfEven (x * 2 ^ k) : ℚ) := by exact_mod_cast h2
    have h4 : ((0 : ℤ) - (k : ℤ)) = -(k : ℤ) := by ring
    rw [h4, zpow_neg, zpow_natCast]
    rw [le_mul_inv_iff₀ (by positivity)]
    push_cast at h3
    exact h3
  · exact hz

theorem fl64_le_int (x : ℚ) (z : ℤ) (hz : x ≤ (z : ℚ)) (hx : |x| < 2 ^ 53) :
    fl64 x ≤ (z : ℚ) := by
  obtain ⟨k, hk⟩ := scaleToMantissa_small 2200 x 0 hx
  unfold fl64
  simp only [hk]
  split_ifs with hc
  · have h1 : x * 2 ^ k ≤ ((z * 2 ^ k : ℤ) : ℚ) := by
      push_cast
      exact mul_le_mul_of_nonneg_right hz (by positivity)
    have h2 := roundHalfEven_le _ _ h1
    have h3 : (roundHalfEven (x * 2 ^ k) : ℚ) ≤ ((z * 2 ^ k : ℤ) : ℚ) := by exact_mod_cast h2
    have h4 : ((0 : ℤ) - (k : ℤ)) = -(k : ℤ) := by ring
    rw [h4, zpow_neg, zpow_natCast]
    rw [mul_inv_le_iff₀ (by positivity)]
    push_cast at h3
    exact h3
  · exact hz

theorem fl64_int (z : ℤ) (hlo : -2 ^ 53 < z) (hhi : z < 2 ^ 53) : fl64 (z : ℚ) = z := by
  have hz : |(z : ℚ)| < 2 ^ 53 := by
    rw [abs_lt]
    constructor
    · exact_mod_cast hlo
    · exact_mod_cast hhi
  exact le_antisymm (fl64_le_int _ z le_rfl hz) (fl64_ge_int _ z le_rfl hz)

/-- A sum of two integers whose exact value is below `2^53` in magnitude is computed exactly. -/
theorem fl64_add_int (a b : ℤ) (hlo : -2 ^ 53 < a + b) (hhi : a + b < 2 ^ 53) :
    fl64 ((a : ℚ) + b) = ((a + b : ℤ) : ℚ) := by
  rw [← Int.cast_add]; exact fl64_int _ hlo hhi

theorem fl64_sub_int (a b : ℤ) (hlo : -2 ^ 53 < a - b) (hhi : a - b < 2 ^ 53) :
    fl64 ((a : ℚ) - b) = ((a - b : ℤ) : ℚ) := by
  rw [← Int.cast_sub]; exact fl64_int _ hlo hhi

theorem Math.round_range (p : ℚ) (h0 : 0 ≤ p) (h1 : p ≤ 100) :
    0 ≤ Math.round p ∧ Math.round p ≤ 100 := by
  unfold Math.round
  constructor
  · exact Int.floor_nonneg.mpr (by linarith)
  · have : ⌊p + 1 / 2⌋ < 101 := Int.floor_lt.mpr (by push_cast; linarith)
    omega

theorem percentOf_range (d t : ℚ) (h0 : 0 ≤ d) (h1 : d ≤ t) :
    0 ≤ percentOf d t ∧ percentOf d t ≤ 100 := by
  unfold percentOf
  split_ifs with ht
  · have hq0 : 0 ≤ d / t := div_nonneg h0 (le_of_lt ht)
    have hq1 : d / t ≤ 1 := (div_le_one ht).mpr h1
    have hqa : |d / t| < 2 ^ 53 := by
      rw [abs_of_nonneg hq0]; exact lt_of_le_of_lt hq1 (by norm_num)
    have hf0 : (0 : ℚ) ≤ fl64 (d / t) := by
      have := fl64_ge_int (d / t) 0 (by simpa using hq0) hqa
      simpa using this
    have hf1 : fl64 (d / t) ≤ 1 := by
      have := fl64_le_int (d / t) 1 (by simpa using hq1) hqa
      simpa using this
    have hp0 : 0 ≤ fl64 (d / t) * 100 := by positivity
    have hp1 : fl64 (d / t) * 100 ≤ 100 := by linarith
    have hpa : |fl64 (d / t) * 100| < 2 ^ 53 := by
      rw [abs_of_nonneg hp0]; exact lt_of_le_of_lt hp1 (by norm_num)
    have hg0 : (0 : ℚ) ≤ fl64 (fl64 (d / t) * 100) := by
      have := fl64_ge_int _ 0 (by simpa using hp0) hpa
      simpa using this
    have hg1 : fl64 (fl64 (d / t) * 100) ≤ 100 := by
      have := fl64_le_int _ 100 (by simpa using hp1) hpa
      simpa using this
    exact Math.round_range _ hg0 hg1
  · simp

theorem percentOf_zero (d t : ℚ) (ht : ¬ 0 < t) : percentOf d t = 0 := by
  unfold percentOf
  rw [if_neg ht]

/-- The sums of `parseCpuStats` are exact on non-negative integer counters whose total is
below `2^53`. -/
theorem statOf_exact (a1 a2 a3 a4 a5 a6 a7 : ℤ)
    (h1 : 0 ≤ a1) (h2 : 0 ≤ a2) (h3 : 0 ≤ a3) (h4 : 0 ≤ a4) (h5 : 0 ≤ a5) (h6 : 0 ≤ a6)
    (h7 : 0 ≤ a7) (hsum : a1 + a2 + a3 + a4 + a5 + a6 + a7 < 2 ^ 53) :
    (statOf a1 a2 a3 a4 a5 a6 a7).total = ((a1 + a2 + a3 + a4 + a5 + a6 + a7 : ℤ) : ℚ) ∧
    (statOf a1 a2 a3 a4 a5 a6 a7).busy = ((a1 + a2 + a3 + a6 + a7 : ℤ) : ℚ) := by
  have e1 := fl64_add_int a1 a2 (by omega) (by omega)
  have e2 := fl64_add_int (a1 + a2) a3 (by omega) (by omega)
  have e3 := fl64_add_int (a1 + a2 + a3) a4 (by omega) (by omega)
  have e4 := fl64_add_int (a1 + a2 + a3 + a4) a5 (by omega) (by omega)
  have e5 := fl64_add_int (a1 + a2 + a3 + a4 + a5) a6 (by omega) (by omega)
  have e6 := fl64_add_int (a1 + a2 + a3 + a4 + a5 + a6) a7 (by omega) (by omega)
  have e7 := fl64_sub_int (a1 + a2 + a3 + a4 + a5 + a6 + a7) a4 (by omega) (by omega)
  have e8 := fl64_sub_int (a1 + a2 + a3 + a4 + a5 + a6 + a7 - a4) a5 (by omega) (by omega)
  have ht : (statOf a1 a2 a3 a4 a5 a6 a7).total
      = ((a1 + a2 + a3 + a4 + a5 + a6 + a7 : ℤ) : ℚ) := by
    show fl64 (fl64 (fl64 (fl64 (fl64 (fl64 ((a1 : ℚ) + a2) + a3) + a4) + a5) + a6) + a7) = _
    rw [e1, e2, e3, e4, e5, e6]
  refine ⟨ht, ?_⟩
  show fl64 (fl64 ((statOf a1 a2 a3 a4 a5 a6 a7).total - a4) - a5) = _
  rw [ht, e7, e8]
  congr 1
  ring

theorem starLoop_caps (Q : Nat → Char → Prop) (greedy : Bool) (gs : List Nat)
    (step : MState → List MState)
    (hstep : ∀ s s1, s1 ∈ step s → CapsRead Q s.caps → CapsRead Q s1.caps) (fuel : Nat)
    (s s1 : MState) (h : s1 ∈ starLoop greedy gs step fuel s) (hs : CapsRead Q s.caps) :
    CapsRead Q s1.caps := by
  induction fuel generalizing s s1 with
  | zero =>
    simp only [starLoop, List.mem_singleton] at h
    subst h
    exact hs
  | succ n ih =>
    simp only [starLoop] at h
    have key : ∀ x, x ∈ ((step { s with caps := clearCaps gs s.caps }).filter
        (fun s2 => decide (s2.rest.length < s.rest.length))).flatMap (starLoop greedy gs step n) →
        CapsRead Q x.caps := by
      intro x hx
      obtain ⟨s2, hs2, hx2⟩ := List.mem_flatMap.mp hx
      have hs2' := (List.mem_filter.mp hs2).1
      have hclear : CapsRead Q (clearCaps gs s.caps) := by
        intro kv hkv
        exact hs kv (List.mem_filter.mp hkv).1
      exact ih s2 x hx2 (hstep _ s2 hs2' hclear)
    cases greedy with
    | true =>
      simp only [if_true, List.mem_append, List.mem_singleton] at h
      rcases h with h | h
      · exact key _ h
      · subst h; exact hs
    | false =>
      simp only [Bool.false_eq_true, if_false, List.mem_cons] at h
      rcases h with h | h
      · subst h; exact hs
      · exact key _ h

theorem stepChar_caps (q : Char → Bool) (s s1 : MState) (h : s1 ∈ stepChar q s) :
    s1.caps = s.caps := by
  unfold stepChar at h
  split at h
  · simp at h
  · split at h
    · simp only [List.mem_singleton] at h; subst h; rfl
    · simp at h

/-- The captures of an outcome hold only characters their groups can read. -/
theorem run_caps (ic : Bool) (Q : Nat → Char → Prop) (r : Regex) (hr : GroupsRead ic Q r)
    (s s1 : MState) (h : s1 ∈ r.run ic s) (hs : CapsRead Q s.caps) : CapsRead Q s1.caps := by
  induction r generalizing s s1 with
  | empty =>
    simp only [Regex.run, List.mem_singleton] at h
    subst h; exact hs
  | chr p => rw [stepChar_caps _ s s1 h]; exact hs
  | cls neg ranges => rw [stepChar_caps _ s s1 h]; exact hs
  | any => rw [stepChar_caps _ s s1 h]; exact hs
  | bos =>
    simp only [Regex.run] at h
    split at h
    · simp only [List.mem_singleton] at h; subst h; exact hs
    · simp at h
  | eos =>
    simp only [Regex.run] at h
    split at h
    · simp only [List.mem_singleton] at h; subst h; exact hs
    · simp at h
  | seq a b iha ihb =>
    rw [run_seq] at h
    obtain ⟨s2, hs2, hs1⟩ := List.mem_flatMap.mp h
    exact ihb hr.2 s2 s1 hs1 (iha hr.1 s s2 hs2 hs)
  | alt a b iha ihb =>
    rw [run_alt] at h
    rcases List.mem_append.mp h with h | h
    · exact iha hr.1 s s1 h hs
    · exact ihb hr.2 s s1 h hs
  | star greedy a ih =>
    simp only [Regex.run] at h
    exact starLoop_caps Q greedy _ _ (fun x y hy hx => ih hr x y hy hx) _ s s1 h hs
  | group i a ih =>
    rw [run_group] at h
    obtain ⟨s2, hs2, rfl⟩ := List.mem_map.mp h
    have h2 := ih hr.2 s s2 hs2 hs
    obtain ⟨consumed, hrest, hpos, hcons⟩ := run_reads ic a s s2 hs2
    intro kv hkv c hc
    simp only [setCap, List.mem_cons] at hkv
    rcases hkv with rfl | hkv
    · simp only at hc ⊢
      rw [hrest, hpos] at hc
      simp only [Nat.add_sub_cancel_left, List.take_left'] at hc
      exact hr.1 c (hcons c hc)
    · exact h2 kv (List.mem_filter.mp hkv).1 c hc

theorem exec_caps (re : RegExp) (Q : Nat → Char → Prop)
    (hr : GroupsRead re.ignoreCase Q re.pattern) (s : String) (m : MatchResult)
    (h : re.exec s = some m) (i : Nat) (t : String) (ht : m.cap i = some t) :
    ∀ c ∈ t.data, Q i c := by
  unfold RegExp.exec at h
  obtain ⟨pre, suf, _, hm, _⟩ := searchFrom_some _ _ _ _ _ h
  obtain ⟨s1, _, hs1, rfl⟩ := matchAt_some _ _ _ _ _ hm
  have hcaps := run_caps _ Q _ hr _ s1 hs1 (by intro kv hkv; simp at hkv)
  unfold MatchResult.cap at ht
  simp only [Option.map_eq_some'] at ht
  obtain ⟨kv, hfind, rfl⟩ := ht
  have hmem := List.mem_of_find?_eq_some hfind
  have hk := List.find?_some hfind
  simp only [beq_iff_eq] at hk
  intro c hc
  have := hcaps kv hmem c hc
  rwa [hk] at this


theorem scaleToMantissa_large (fuel : Nat) (y : ℚ) (e : ℤ) (h : 2 ^ 52 ≤ |y|) :
    ∃ k : ℕ, scaleToMantissa fuel y e = (y / 2 ^ k, e + k) := by
  induction fuel generalizing y e with
  | zero => exact ⟨0, by simp [scaleToMantissa]⟩
  | succ n ih =>
    unfold scaleToMantissa
    split_ifs with h1 h2
    · exact absurd h1 (not_lt.mpr h)
    · have h3 : 2 ^ 52 ≤ |y / 2| := by
        rw [abs_div]; norm_num
        rw [le_div_iff₀ (by norm_num)]
        linarith
      obtain ⟨k, hk⟩ := ih (y / 2) (e + 1) h3
      refine ⟨k + 1, ?_⟩
      rw [hk]
      refine Prod.ext ?_ ?_
      · simp only; rw [pow_succ, div_div, mul_comm]
      · simp only; push_cast; ring
    · exact ⟨0, by simp⟩

theorem fl64_counter (z : ℤ) (hz : 0 ≤ z) : IsCounter (fl64 (z : ℚ)) := by
  by_cases hsmall : z < 2 ^ 53
  · exact ⟨z, hz, fl64_int z (by omega) hsmall⟩
  · have hbig : (2 : ℚ) ^ 52 ≤ |(z : ℚ)| := by
      have h1 : (2 : ℤ) ^ 52 ≤ z := by omega
      have h2 : ((2 ^ 52 : ℤ) : ℚ) ≤ (z : ℚ) := by exact_mod_cast h1
      rw [abs_of_nonneg (by exact_mod_cast hz)]
      simpa using h2
    obtain ⟨k, hk⟩ := scaleToMantissa_large 2200 z 0 hbig
    unfold fl64
    simp only [hk]
    split_ifs with hc
    · have h0 : (0 : ℤ) ≤ roundHalfEven ((z : ℚ) / 2 ^ k) :=
        roundHalfEven_ge _ 0 (by
          have : (0 : ℚ) ≤ (z : ℚ) := by exact_mod_cast hz
          simp only [Int.cast_zero]
          positivity)
      refine ⟨roundHalfEven ((z : ℚ) / 2 ^ k) * 2 ^ k, by positivity, ?_⟩
      rw [zero_add, zpow_natCast]
      push_cast
      rfl
    · exact ⟨z, hz, rfl⟩

theorem reCpuStat_groups :
    GroupsRead reCpuStat.ignoreCase (fun i c => 2 ≤ i → isDigitChar c = true)
      reCpuStat.pattern := by
  simp [reCpuStat, Regex.cat, Regex.plus, Regex.lit, Regex.digit, GroupsRead, canConsume,
    digit_clsMatch]

theorem parseInt_digits_nonneg (t : String) (h : ∀ c ∈ t.data, isDigitChar c = true) (n : Int)
    (hn : parseInt t = some n) : 0 ≤ n := by
  unfold parseInt at hn
  have hsub : ∀ c ∈ t.data.dropWhile isJsWhitespace, isDigitChar c = true :=
    fun c hc => h c ((List.dropWhile_sublist _).subset hc)
  generalize t.data.dropWhile isJsWhitespace = l at hn hsub
  simp only [] at hn
  split at hn
  · next hsign =>
    split at hsign
    · have hc := hsub '-' (List.mem_cons_self _ _)
      exact absurd hc (by decide)
    · simp at hsign
    · simp at hsign
  · generalize readDigits _ _ _ = rd at hn
    cases rd with
    | none => simp at hn
    | some k =>
      simp at hn
      rw [← hn]
      exact Int.natCast_nonneg k

theorem parseCounter_counter (m : MatchResult) (line : String)
    (h : reCpuStat.exec line = some m) (i : Nat) (hi : 2 ≤ i) :
    IsCounter (parseCounter (m.cap i)) := by
  unfold parseCounter
  apply fl64_counter
  cases hcap : m.cap i with
  | none => exact le_refl (0 : ℤ)
  | some t =>
    have hd := exec_caps reCpuStat _ reCpuStat_groups line m h i t hcap
    cases hp : parseInt t with
    | none =>
      show (0 : ℤ) ≤ ((some t).bind parseInt).getD 0
      rw [Option.some_bind, hp]
      exact le_refl (0 : ℤ)
    | some n =>
      show (0 : ℤ) ≤ ((some t).bind parseInt).getD 0
      rw [Option.some_bind, hp]
      exact parseInt_digits_nonneg t (fun c hc => hd c hc hi) n hp

theorem mem_setStat (name : String) (value : CpuStat) (stats : List (String × CpuStat))
    (kv : String × CpuStat) (h : kv ∈ setStat name value stats) :
    kv.2 = value ∨ kv ∈ stats := by
  induction stats with
  | nil =>
    simp only [setStat, List.mem_singleton] at h
    subst h; exact Or.inl rfl
  | cons x xs ih =>
    obtain ⟨k, v⟩ := x
    simp only [setStat] at h
    split at h
    · rcases List.mem_cons.mp h with rfl | h
      · exact Or.inl rfl
      · exact Or.inr (List.mem_cons_of_mem _ h)
    · rcases List.mem_cons.mp h with rfl | h
      · exact Or.inr (List.mem_cons_self _ _)
      · rcases ih h with h | h
        · exact Or.inl h
        · exact Or.inr (List.mem_cons_of_mem _ h)

theorem parseCpuStatsLoop_parsed (ls : List String) (stats : List (String × CpuStat))
    (hstats : ∀ kv ∈ stats, IsParsedStat kv.2) :
    ∀ kv ∈ parseCpuStatsLoop ls stats, IsParsedStat kv.2 := by
  induction ls generalizing stats with
  | nil => exact hstats
  | cons line more ih =>
    unfold parseCpuStatsLoop
    cases hm : reCpuStat.exec line with
    | none => exact ih stats hstats
    | some m =>
      apply ih
      intro kv hkv
      rcases mem_setStat _ _ _ _ hkv with h | h
      · rw [h]
        exact ⟨_, _, _, _, _, _, _, parseCounter_counter m line hm 2 (by omega),
          parseCounter_counter m line hm 3 (by omega), parseCounter_counter m line hm 4 (by omega),
          parseCounter_counter m line hm 5 (by omega), parseCounter_counter m line hm 6 (by omega),
          parseCounter_counter m line hm 7 (by omega), parseCounter_counter m line hm 8 (by omega),
          rfl⟩
      · exact hstats kv h

/-- Every record of `parseCpuStats` is built from seven non-negative integer counters. -/
theorem parseCpuStats_parsed (output name : String) (s : CpuStat)
    (h : ownLookup name (parseCpuStats output) = some s) : IsParsedStat s :=
  parseCpuStatsLoop_parsed _ [] (by simp) (name, s) (ownLookup_mem _ _ _ h)

theorem assignClusters_same (cores : List Core) (c : Core) (hc : c ∈ assignClusters cores) :
    ∃ c0 ∈ cores, SameUsage c0 c := by
  by_cases h2 : 2 ≤ (sortedFreqs cores).length
  · obtain ⟨j, hj⟩ := List.mem_iff_getElem?.mp hc
    have hlt : j < cores.length := by
      have := (List.getElem?_eq_some_iff.mp hj).1
      rwa [assignClusters_length] at this
    have hc0 : cores[j]? = some cores[j] := List.getElem?_eq_getElem hlt
    have hget := assignClusters_get cores h2 j _ hc0
    rw [hj] at hget
    simp only [Option.some.injEq] at hget
    refine ⟨cores[j], List.getElem_mem hlt, ?_⟩
    rw [hget]
    exact ⟨rfl, rfl, rfl, rfl, rfl⟩
  · have h2' : ¬ (sortedFreqsOf (collectGroups 0 cores [])).length ≥ 2 := h2
    simp only [assignClusters, h2', if_false, List.mem_map] at hc
    obtain ⟨c0, hc0, rfl⟩ := hc
    exact ⟨c0, hc0, rfl, rfl, rfl, rfl, rfl⟩

theorem updateAt_same (f : Core → Core) (k : Nat) (l : List Core) (c : Core)
    (hc : c ∈ updateAt f k l) (hf : ∀ x, SameUsage x (f x)) : ∃ c0 ∈ l, SameUsage c0 c := by
  induction l generalizing k with
  | nil => simp [updateAt] at hc
  | cons x xs ih =>
    cases k with
    | zero =>
      simp only [updateAt, List.mem_cons] at hc
      rcases hc with rfl | hc
      · exact ⟨x, List.mem_cons_self _ _, hf x⟩
      · exact ⟨c, List.mem_cons_of_mem _ hc, rfl, rfl, rfl, rfl, rfl⟩
    | succ k =>
      simp only [updateAt, List.mem_cons] at hc
      rcases hc with rfl | hc
      · exact ⟨c, List.mem_cons_self _ _, rfl, rfl, rfl, rfl, rfl⟩
      · obtain ⟨c0, h0, hs⟩ := ih k hc
        exact ⟨c0, List.mem_cons_of_mem _ h0, hs⟩

theorem sameUsage_trans {a b c : Core} (h1 : SameUsage a b) (h2 : SameUsage b c) :
    SameUsage a c :=
  ⟨h2.1.trans h1.1, h2.2.1.trans h1.2.1, h2.2.2.1.trans h1.2.2.1,
    h2.2.2.2.1.trans h1.2.2.2.1, h2.2.2.2.2.trans h1.2.2.2.2⟩

theorem freqStep_same (st : FreqState) (line : String) (c : Core)
    (hc : c ∈ (freqStep st line).cores) : ∃ c0 ∈ st.cores, SameUsage c0 c := by
  have hid : ∀ c ∈ st.cores, ∃ c0 ∈ st.cores, SameUsage c0 c :=
    fun c h => ⟨c, h, rfl, rfl, rfl, rfl, rfl⟩
  unfold freqStep at hc
  split at hc
  · exact hid c hc
  · split at hc
    · simp only at hc
      split at hc
      · exact updateAt_same _ _ _ c hc (fun x => ⟨rfl, rfl, rfl, rfl, rfl⟩)
      · split at hc
        · exact updateAt_same _ _ _ c hc (fun x => ⟨rfl, rfl, rfl, rfl, rfl⟩)
        · split at hc
          · exact updateAt_same _ _ _ c hc (fun x => ⟨rfl, rfl, rfl, rfl, rfl⟩)
          · exact hid c hc
    · exact hid c hc

theorem foldl_freqStep_same (ls : List String) (st : FreqState) (c : Core)
    (hc : c ∈ (ls.foldl freqStep st).cores) : ∃ c0 ∈ st.cores, SameUsage c0 c := by
  induction ls generalizing st with
  | nil => exact ⟨c, hc, rfl, rfl, rfl, rfl, rfl⟩
  | cons line more ih =>
    rw [List.foldl_cons] at hc
    obtain ⟨c1, h1, hs1⟩ := ih _ hc
    obtain ⟨c0, h0, hs0⟩ := freqStep_same st line c1 h1
    exact ⟨c0, h0, sameUsage_trans hs0 hs1⟩

theorem buildCores_mem (numCores : Int) (stats1 stats2 : List (String × CpuStat)) (c : Core)
    (hc : c ∈ buildCores numCores stats1 stats2) :
    ∃ i s1 s2, ownLookup ("cpu" ++ toString i) stats1 = some s1 ∧
      ownLookup ("cpu" ++ toString i) stats2 = some s2 ∧ c = coreRecord i s1 s2 := by
  unfold buildCores at hc
  obtain ⟨i, _, hi⟩ := List.mem_filterMap.mp hc
  cases h1 : ownLookup ("cpu" ++ toString i) stats1 with
  | none => simp [h1] at hi
  | some s1 =>
    cases h2 : ownLookup ("cpu" ++ toString i) stats2 with
    | none => simp [h1, h2] at hi
    | some s2 =>
      simp only [h1, h2, Option.some.injEq] at hi
      exact ⟨i, s1, s2, h1, h2, hi.symm⟩

/-- Every returned record carries the percentages computed from the two samples of the
core of its id. -/
theorem cores_mem (coreCount stat1 stat2 freqResult : String) (c : Core)
    (hc : c ∈ cpuInfo.cores coreCount stat1 stat2 freqResult) :
    ∃ s1 s2, ownLookup ("cpu" ++ toString c.id) (parseCpuStats stat1) = some s1 ∧
      ownLookup ("cpu" ++ toString c.id) (parseCpuStats stat2) = some s2 ∧
      SameUsage (coreRecord c.id s1 s2) c := by
  unfold cpuInfo.cores at hc
  obtain ⟨c1, h1, hs1⟩ := assignClusters_same _ c hc
  unfold parseFrequencies at h1
  obtain ⟨c0, h0, hs0⟩ := foldl_freqStep_same _ _ c1 h1
  obtain ⟨i, s1, s2, hl1, hl2, rfl⟩ := buildCores_mem _ _ _ c0 h0
  have hs := sameUsage_trans hs0 hs1
  have hid : c.id = i := hs.1
  rw [hid]
  exact ⟨s1, s2, hl1, hl2, hs⟩

/-- On parsed records with non-decreasing counters and a second-sample total below `2^53`
the four percentages lie between 0 and 100. -/
theorem coreRecord_range (i : Nat) (s1 s2 : CpuStat) (hp1 : IsParsedStat s1)
    (hp2 : IsParsedStat s2) (h1 : s1.user ≤ s2.user) (h2 : s1.nice ≤ s2.nice)
    (h3 : s1.system ≤ s2.system) (h4 : s1.idle ≤ s2.idle) (h5 : s1.iowait ≤ s2.iowait)
    (h6 : s1.irq ≤ s2.irq) (h7 : s1.softirq ≤ s2.softirq)
    (hsum : s2.user + s2.nice + s2.system + s2.idle + s2.iowait + s2.irq + s2.softirq < 2 ^ 53) :
    (0 ≤ (coreRecord i s1 s2).usage ∧ (coreRecord i s1 s2).usage ≤ 100) ∧
    (0 ≤ (coreRecord i s1 s2).userPct ∧ (coreRecord i s1 s2).userPct ≤ 100) ∧
    (0 ≤ (coreRecord i s1 s2).systemPct ∧ (coreRecord i s1 s2).systemPct ≤ 100) ∧
    (0 ≤ (coreRecord i s1 s2).iowaitPct ∧ (coreRecord i s1 s2).iowaitPct ≤ 100) := by
  obtain ⟨_, _, _, _, _, _, _, ⟨a1, ha1, rfl⟩, ⟨a2, ha2, rfl⟩, ⟨a3, ha3, rfl⟩, ⟨a4, ha4, rfl⟩,
    ⟨a5, ha5, rfl⟩, ⟨a6, ha6, rfl⟩, ⟨a7, ha7, rfl⟩, rfl⟩ := hp1
  obtain ⟨_, _, _, _, _, _, _, ⟨b1, hb1, rfl⟩, ⟨b2, hb2, rfl⟩, ⟨b3, hb3, rfl⟩, ⟨b4, hb4, rfl⟩,
    ⟨b5, hb5, rfl⟩, ⟨b6, hb6, rfl⟩, ⟨b7, hb7, rfl⟩, rfl⟩ := hp2
  have q1 : (a1 : ℚ) ≤ b1 := h1
  have h1 : a1 ≤ b1 := by exact_mod_cast q1
  have q2 : (a2 : ℚ) ≤ b2 := h2
  have h2 : a2 ≤ b2 := by exact_mod_cast q2
  have q3 : (a3 : ℚ) ≤ b3 := h3
  have h3 : a3 ≤ b3 := by exact_mod_cast q3
  have q4 : (a4 : ℚ) ≤ b4 := h4
  have h4 : a4 ≤ b4 := by exact_mod_cast q4
  have q5 : (a5 : ℚ) ≤ b5 := h5
  have h5 : a5 ≤ b5 := by exact_mod_cast q5
  have q6 : (a6 : ℚ) ≤ b6 := h6
  have h6 : a6 ≤ b6 := by exact_mod_cast q6
  have q7 : (a7 : ℚ) ≤ b7 := h7
  have h7 : a7 ≤ b7 := by exact_mod_cast q7
  have qsum : (b1 : ℚ) + b2 + b3 + b4 + b5 + b6 + b7 < 2 ^ 53 := hsum
  have hsum : b1 + b2 + b3 + b4 + b5 + b6 + b7 < 2 ^ 53 := by exact_mod_cast qsum
  obtain ⟨hta, hba⟩ := statOf_exact a1 a2 a3 a4 a5 a6 a7 ha1 ha2 ha3 ha4 ha5 ha6 ha7 (by omega)
  obtain ⟨htb, hbb⟩ := statOf_exact b1 b2 b3 b4 b5 b6 b7 hb1 hb2 hb3 hb4 hb5 hb6 hb7 hsum
  have hT : fl64 ((statOf b1 b2 b3 b4 b5 b6 b7).total - (statOf a1 a2 a3 a4 a5 a6 a7).total)
      = ((b1 + b2 + b3 + b4 + b5 + b6 + b7 - (a1 + a2 + a3 + a4 + a5 + a6 + a7) : ℤ) : ℚ) := by
    rw [hta, htb]; exact fl64_sub_int _ _ (by omega) (by omega)
  have hB : fl64 ((statOf b1 b2 b3 b4 b5 b6 b7).busy - (statOf a1 a2 a3 a4 a5 a6 a7).busy)
      = ((b1 + b2 + b3 + b6 + b7 - (a1 + a2 + a3 + a6 + a7) : ℤ) : ℚ) := by
    rw [hba, hbb]; exact fl64_sub_int _ _ (by omega) (by omega)
  have hU : fl64 ((b1 : ℚ) - a1) = ((b1 - a1 : ℤ) : ℚ) := fl64_sub_int _ _ (by omega) (by omega)
  have hS : fl64 ((b3 : ℚ) - a3) = ((b3 - a3 : ℤ) : ℚ) := fl64_sub_int _ _ (by omega) (by omega)
  have hI : fl64 ((b5 : ℚ) - a5) = ((b5 - a5 : ℤ) : ℚ) := fl64_sub_int _ _ (by omega) (by omega)
  have hrange : ∀ d : ℤ, 0 ≤ d →
      d ≤ b1 + b2 + b3 + b4 + b5 + b6 + b7 - (a1 + a2 + a3 + a4 + a5 + a6 + a7) →
      0 ≤ percentOf (d : ℚ) (fl64 ((statOf b1 b2 b3 b4 b5 b6 b7).total -
        (statOf a1 a2 a3 a4 a5 a6 a7).total)) ∧
      percentOf (d : ℚ) (fl64 ((statOf b1 b2 b3 b4 b5 b6 b7).total -
        (statOf a1 a2 a3 a4 a5 a6 a7).total)) ≤ 100 := by
    intro d hd0 hd1
    rw [hT]
    exact percentOf_range _ _ (by exact_mod_cast hd0) (by exact_mod_cast hd1)
  refine ⟨?_, ?_, ?_, ?_⟩
  · have := hrange _ (by omega : (0 : ℤ) ≤ b1 + b2 + b3 + b6 + b7 - (a1 + a2 + a3 + a6 + a7))
      (by omega)
    rw [← hB] at this
    exact this
  · have := hrange _ (by omega : (0 : ℤ) ≤ b1 - a1) (by omega)
    rw [← hU] at this
    exact this
  · have := hrange _ (by omega : (0 : ℤ) ≤ b3 - a3) (by omega)
    rw [← hS] at this
    exact this
  · have := hrange _ (by omega : (0 : ℤ) ≤ b5 - a5) (by omega)
    rw [← hI] at this
    exact this

/-- Claim C29 (amended): every record returned by `cpuInfo` stems from the two parsed
samples of the core of its id; its usage, userPct, systemPct and iowaitPct are all 0 when
the total delta is not positive, and they are integers between 0 and 100 when each of the
seven counters is non-decreasing from the first sample to the second and the counters of
the second sample add up to less than `2^53` (the range in which the sums and differences
of doubles are exact). -/
theorem usage_percentages (coreCount stat1 stat2 freqResult : String) (c : Core)
    (hc : c ∈ cpuInfo.cores coreCount stat1 stat2 freqResult) :
    ∃ s1 s2, ownLookup ("cpu" ++ toString c.id) (parseCpuStats stat1) = some s1 ∧
      ownLookup ("cpu" ++ toString c.id) (parseCpuStats stat2) = some s2 ∧
      (¬ 0 < fl64 (s2.total - s1.total) →
        c.usage = 0 ∧ c.userPct = 0 ∧ c.systemPct = 0 ∧ c.iowaitPct = 0) ∧
      (s1.user ≤ s2.user ∧ s1.nice ≤ s2.nice ∧ s1.system ≤ s2.system ∧ s1.idle ≤ s2.idle ∧
          s1.iowait ≤ s2.iowait ∧ s1.irq ≤ s2.irq ∧ s1.softirq ≤ s2.softirq ∧
          s2.user + s2.nice + s2.system + s2.idle + s2.iowait + s2.irq + s2.softirq < 2 ^ 53 →
        (0 ≤ c.usage ∧ c.usage ≤ 100) ∧ (0 ≤ c.userPct ∧ c.userPct ≤ 100) ∧
          (0 ≤ c.systemPct ∧ c.systemPct ≤ 100) ∧ (0 ≤ c.iowaitPct ∧ c.iowaitPct ≤ 100)) := by
  obtain ⟨s1, s2, hl1, hl2, hid, hu, hus, hsy, hio⟩ := cores_mem _ _ _ _ c hc
  refine ⟨s1, s2, hl1, hl2, ?_, ?_⟩
  · intro hT
    rw [hu, hus, hsy, hio]
    exact ⟨percentOf_zero _ _ hT, percentOf_zero _ _ hT, percentOf_zero _ _ hT,
      percentOf_zero _ _ hT⟩
  · rintro ⟨h1, h2, h3, h4, h5, h6, h7, hsum⟩
    rw [hu, hus, hsy, hio]
    exact coreRecord_range c.id s1 s2 (parseCpuStats_parsed _ _ _ hl1)
      (parseCpuStats_parsed _ _ _ hl2) h1 h2 h3 h4 h5 h6 h7 hsum

/-- Claim C29 (amended), at two samples of one core: user 5 to 34 and idle 5 to 176 give a
usage of 14. -/
theorem usage_percentages_witness :
    (∃ c ∈ cpuInfo.cores "1" "cpu0 5 0 0 5 0 0 0 0 0 0" "cpu0 34 0 0 176 0 0 0 0 0 0" "",
      c.id = 0 ∧ c.usage = 14) ∧
    ∀ c ∈ cpuInfo.cores "1" "cpu0 5 0 0 5 0 0 0 0 0 0" "cpu0 34 0 0 176 0 0 0 0 0 0" "",
      (0 ≤ c.usage ∧ c.usage ≤ 100) ∧ (0 ≤ c.userPct ∧ c.userPct ≤ 100) ∧
        (0 ≤ c.systemPct ∧ c.systemPct ≤ 100) ∧ (0 ≤ c.iowaitPct ∧ c.iowaitPct ≤ 100) := by
  have hcores : (cpuInfo.cores "1" "cpu0 5 0 0 5 0 0 0 0 0 0" "cpu0 34 0 0 176 0 0 0 0 0 0"
      "").map (fun c => (c.id, c.usage)) = [(0, 14)] := by decide!
  have hl1 : ownLookup "cpu0" (parseCpuStats "cpu0 5 0 0 5 0 0 0 0 0 0")
      = some (statOf 5 0 0 5 0 0 0) := by decide!
  have hl2 : ownLookup "cpu0" (parseCpuStats "cpu0 34 0 0 176 0 0 0 0 0 0")
      = some (statOf 34 0 0 176 0 0 0) := by decide!
  constructor
  · cases hlist : cpuInfo.cores "1" "cpu0 5 0 0 5 0 0 0 0 0 0" "cpu0 34 0 0 176 0 0 0 0 0 0" ""
      with
    | nil => rw [hlist] at hcores; simp at hcores
    | cons c0 more =>
      rw [hlist] at hcores
      simp only [List.map_cons, List.cons.injEq, Prod.mk.injEq] at hcores
      exact ⟨c0, List.mem_cons_self _ _, hcores.1.1, hcores.1.2⟩
  · intro c hc
    have hid : c.id = 0 := by
      have hm : (c.id, c.usage) ∈ (cpuInfo.cores "1" "cpu0 5 0 0 5 0 0 0 0 0 0"
          "cpu0 34 0 0 176 0 0 0 0 0 0" "").map (fun c => (c.id, c.usage)) :=
        List.mem_map.mpr ⟨c, hc, rfl⟩
      rw [hcores] at hm
      simp only [List.mem_singleton, Prod.mk.injEq] at hm
      exact hm.1
    obtain ⟨s1, s2, h1, h2, _, hr⟩ := usage_percentages _ _ _ _ c hc
    rw [hid] at h1 h2
    have e1 : s1 = statOf 5 0 0 5 0 0 0 := by
      have := h1.symm.trans hl1
      exact Option.some.inj this
    have e2 : s2 = statOf 34 0 0 176 0 0 0 := by
      have := h2.symm.trans hl2
      exact Option.some.inj this
    apply hr
    rw [e1, e2]
    decide!

theorem roundHalfEven_near (y : ℚ) : |(roundHalfEven y : ℚ) - y| ≤ 1 / 2 := by
  have h0 : ((⌊y⌋ : ℤ) : ℚ) ≤ y := Int.floor_le y
  have h1 : y < ((⌊y⌋ : ℤ) : ℚ) + 1 := Int.lt_floor_add_one y
  unfold roundHalfEven
  rw [abs_le]
  split_ifs with ha hb hc
  · constructor <;> linarith
  · push_cast; constructor <;> linarith
  · constructor <;> linarith
  · push_cast; constructor <;> linarith

/-- Below `2^52 / 2^k0` in magnitude the rounding error is at most `1 / 2^(k0+2)`. -/
theorem fl64_near (x : ℚ) (k0 : ℕ) (hx : |x| * 2 ^ k0 < 2 ^ 52) :
    |fl64 x - x| ≤ 1 / 2 ^ (k0 + 2) := by
  have hpos : (0 : ℚ) < 1 / 2 ^ (k0 + 2) := by positivity
  have hsmall : |x| < 2 ^ 53 := by
    have h1 : (1 : ℚ) ≤ 2 ^ k0 := one_le_pow₀ (by norm_num)
    have h2 : |x| ≤ |x| * 2 ^ k0 := le_mul_of_one_le_right (abs_nonneg x) h1
    linarith
  obtain ⟨k, hk⟩ := scaleToMantissa_small 2200 x 0 hsmall
  unfold fl64
  simp only [hk]
  split_ifs with hc
  · obtain ⟨_, hlo, _, _, _⟩ := hc
    have hkk : k0 < k := by
      by_contra hle
      push_neg at hle
      have h3 : (2 : ℚ) ^ k ≤ 2 ^ k0 := pow_le_pow_right₀ (by norm_num) hle
      have h4 : |x * 2 ^ k| ≤ |x| * 2 ^ k0 := by
        rw [abs_mul, abs_of_pos (by positivity : (0 : ℚ) < 2 ^ k)]
        exact mul_le_mul_of_nonneg_left h3 (abs_nonneg x)
      linarith
    have h5 : ((0 : ℤ) - (k : ℤ)) = -(k : ℤ) := by ring
    rw [h5, zpow_neg, zpow_natCast]
    have h6 : (roundHalfEven (x * 2 ^ k) : ℚ) * (2 ^ k)⁻¹ - x =
        ((roundHalfEven (x * 2 ^ k) : ℚ) - x * 2 ^ k) * (2 ^ k)⁻¹ := by
      field_simp
      ring
    rw [h6, abs_mul, abs_of_pos (by positivity : (0 : ℚ) < (2 ^ k)⁻¹)]
    have h7 := roundHalfEven_near (x * 2 ^ k)
    have h8 : (2 : ℚ) ^ (k0 + 1) ≤ 2 ^ k := pow_le_pow_right₀ (by norm_num) hkk
    have h9 : ((2 : ℚ) ^ k)⁻¹ ≤ (2 ^ (k0 + 1))⁻¹ := inv_anti₀ (by positivity) h8
    calc |(roundHalfEven (x * 2 ^ k) : ℚ) - x * 2 ^ k| * (2 ^ k)⁻¹
        ≤ (1 / 2) * (2 ^ (k0 + 1))⁻¹ :=
          mul_le_mul h7 h9 (by positivity) (by norm_num)
      _ = 1 / 2 ^ (k0 + 2) := by
          rw [pow_succ 2 (k0 + 1)]; field_simp
          ring
  · simp only [sub_self, abs_zero]; exact le_of_lt hpos

/-- Rounding does not cross a half-integer below `2^52`. -/
theorem fl64_ge_half (x : ℚ) (w : ℤ) (hw : (w : ℚ) / 2 ≤ x) (hx : |x| < 2 ^ 52) :
    (w : ℚ) / 2 ≤ fl64 x := by
  obtain ⟨k, hk⟩ := scaleToMantissa_small 2200 x 0 (lt_trans hx (by norm_num))
  unfold fl64
  simp only [hk]
  split_ifs with hc
  · obtain ⟨_, hlo, _, _, _⟩ := hc
    have hk1 : 1 ≤ k := by
      by_contra h0
      have hk0 : k = 0 := by omega
      rw [hk0] at hlo
      simp only [pow_zero, mul_one] at hlo
      linarith
    obtain ⟨j, rfl⟩ : ∃ j, k = j + 1 := ⟨k - 1, by omega⟩
    have h1 : ((w * 2 ^ j : ℤ) : ℚ) ≤ x * 2 ^ (j + 1) := by
      push_cast
      have := mul_le_mul_of_nonneg_right hw (by positivity : (0 : ℚ) ≤ 2 ^ (j + 1))
      calc (w : ℚ) * 2 ^ j = (w : ℚ) / 2 * 2 ^ (j + 1) := by rw [pow_succ]; ring
        _ ≤ x * 2 ^ (j + 1) := this
    have h2 := roundHalfEven_ge _ _ h1
    have h3 : ((w * 2 ^ j : ℤ) : ℚ) ≤ (roundHalfEven (x * 2 ^ (j + 1)) : ℚ) := by
      exact_mod_cast h2
    have h4 : ((0 : ℤ) - ((j + 1 : ℕ) : ℤ)) = -((j + 1 : ℕ) : ℤ) := by ring
    rw [h4, zpow_neg, zpow_natCast]
    rw [le_mul_inv_iff₀ (by positivity)]
    push_cast at h3
    calc (w : ℚ) / 2 * 2 ^ (j + 1) = (w : ℚ) * 2 ^ j := by rw [pow_succ]; ring
      _ ≤ _ := h3
  · exact hw

theorem toNumber_exact (z : ℤ) (hlo : -2 ^ 53 < z) (hhi : z < 2 ^ 53) : toNumber z = z := by
  unfold toNumber
  rw [fl64_int z hlo hhi]
  exact Int.floor_intCast z

/-- Below `2^53` in magnitude `Math.round(x / 100000)` is the exact quotient rounded to the
nearest integer, ties upwards. -/
theorem roundDiv_exact (x : ℤ) (hlo : -2 ^ 53 < x) (hhi : x < 2 ^ 53) :
    roundDiv x 100000 = (2 * x + 100000) / 200000 := by
  have hn0 : 100000 * ((2 * x + 100000) / 200000) ≤ x + 50000 := by omega
  have hn1 : x + 50000 ≤ 100000 * ((2 * x + 100000) / 200000) + 99999 := by omega
  generalize (2 * x + 100000) / 200000 = n at hn0 hn1
  have hq0 : (n : ℚ) - 1 / 2 ≤ (x : ℚ) / 100000 := by
    have : ((100000 * n : ℤ) : ℚ) ≤ ((x + 50000 : ℤ) : ℚ) := by exact_mod_cast hn0
    push_cast at this
    rw [le_div_iff₀ (by norm_num)]
    linarith
  have hq1 : (x : ℚ) / 100000 ≤ (n : ℚ) + 49999 / 100000 := by
    have : ((x + 50000 : ℤ) : ℚ) ≤ ((100000 * n + 99999 : ℤ) : ℚ) := by exact_mod_cast hn1
    push_cast at this
    rw [div_le_iff₀ (by norm_num)]
    linarith
  have hxa : |(x : ℚ)| < 2 ^ 53 := by
    rw [abs_lt]
    constructor
    · exact_mod_cast hlo
    · exact_mod_cast hhi
  have hqa : |(x : ℚ) / 100000| * 2 ^ 15 < 2 ^ 52 := by
    rw [abs_div, abs_of_pos (by norm_num : (0 : ℚ) < 100000)]
    rw [div_mul_eq_mul_div, div_lt_iff₀ (by norm_num)]
    have : |(x : ℚ)| * 2 ^ 15 < 2 ^ 53 * 2 ^ 15 := by
      apply mul_lt_mul_of_pos_right hxa (by norm_num)
    linarith [show (2 : ℚ) ^ 53 * 2 ^ 15 ≤ 2 ^ 52 * 100000 by norm_num]
  have hqs : |(x : ℚ) / 100000| < 2 ^ 52 := by
    have h1 : |(x : ℚ) / 100000| ≤ |(x : ℚ) / 100000| * 2 ^ 15 :=
      le_mul_of_one_le_right (abs_nonneg _) (by norm_num)
    linarith
  have herr := fl64_near _ 15 hqa
  rw [abs_le] at herr
  have hlow : (n : ℚ) - 1 / 2 ≤ fl64 ((x : ℚ) / 100000) := by
    have h := fl64_ge_half ((x : ℚ) / 100000) (2 * n - 1) (by push_cast; linarith) hqs
    push_cast at h
    linarith
  unfold roundDiv Math.round
  rw [Int.floor_eq_iff]
  push_cast
  constructor
  · linarith
  · have : (1 : ℚ) / 2 ^ (15 + 2) < 1 / 100000 := by norm_num
    linarith [herr.2]

/-- Below `2^53` in magnitude the bucket is the nearest multiple of 100000, ties upwards. -/
theorem freqBucket_nearest (c : Core) (h : |c.maxFrequency| < 2 ^ 53) :
    (100000 : Int) ∣ freqBucket c ∧ c.maxFrequency - 50000 < freqBucket c ∧
      freqBucket c ≤ c.maxFrequency + 50000 := by
  obtain ⟨hlo, hhi⟩ := abs_lt.mp h
  have hb : freqBucket c = (2 * c.maxFrequency + 100000) / 200000 * 100000 := by
    unfold freqBucket
    rw [roundDiv_exact _ hlo hhi]
    exact toNumber_exact _ (by omega) (by omega)
  rw [hb]
  refine ⟨⟨_, mul_comm _ _⟩, by omega, by omega⟩

/-- Claim C9 (counterexample): a maximum frequency of 219902325555249984 is filed under
the bucket 219902325555300000, although 219902325555200000 is the nearer multiple of
100000: the quotient by 100000 is rounded to the double 2199023255552.5 before
`Math.round` is applied.  With a second core at 219902325555300000 the two cores share one
bucket and are both labelled standard. -/
theorem bucket_not_nearest :
    freqBucket
      { id := 0, name := "Core 0", cluster := "unknown", clusterName := "Unknown", usage := 0,
        userPct := 0, systemPct := 0, iowaitPct := 0, frequency := 0,
        maxFrequency := 219902325555249984, minFrequency := 0 } = 219902325555300000 ∧
    (cpuInfo.cores "2" "cpu0 5 0 0 5 0 0 0 0 0 0\ncpu1 5 0 0 5 0 0 0 0 0 0"
        "cpu0 6 0 0 9 0 0 0 0 0 0\ncpu1 6 0 0 9 0 0 0 0 0 0"
        "CPU0\n0\n219902325555249984\n0\nCPU1\n0\n219902325555300000\n0").map
      (fun c => (c.id, c.maxFrequency, freqBucket c, c.cluster)) =
      [(0, 219902325555249984, 219902325555300000, "standard"),
       (1, 219902325555300000, 219902325555300000, "standard")] := by
  decide!

/-- Claim C9 (amended). Cluster labelling of `cpuInfo` for maximum frequencies below `2^53`
in magnitude.  Each core's maximum frequency is bucketed to the nearest multiple of 100000
(ties upward); `sortedFreqs` lists the distinct buckets in ascending order.  When there are
`k ≥ 2` buckets, every core is relabelled in place: efficiency when its bucket is among the
`k / 2` lowest, performance otherwise; no core keeps another label and both clusters have a
core.  When `k ≤ 1`, every core is labelled standard. -/
theorem cpuInfo_cluster_labelling (cores : List Core)
    (hbound : ∀ c ∈ cores, |c.maxFrequency| < 2 ^ 53) :
    (∀ c ∈ cores, (100000 : Int) ∣ freqBucket c ∧ c.maxFrequency - 50000 < freqBucket c ∧
      freqBucket c ≤ c.maxFrequency + 50000) ∧
    (sortedFreqs cores).Sorted (· < ·) ∧
    (∀ f, f ∈ sortedFreqs cores ↔ ∃ c ∈ cores, freqBucket c = f) ∧
    (assignClusters cores).length = cores.length ∧
    (2 ≤ (sortedFreqs cores).length →
      (∀ (j : Nat) (c : Core), cores[j]? = some c →
        (assignClusters cores)[j]? =
          some (setTier (decide (freqBucket c ∈
            (sortedFreqs cores).take ((sortedFreqs cores).length / 2))) c)) ∧
      (∀ c ∈ assignClusters cores, c.cluster = "efficiency" ∨ c.cluster = "performance") ∧
      (∃ c ∈ assignClusters cores, c.cluster = "efficiency") ∧
      (∃ c ∈ assignClusters cores, c.cluster = "performance")) ∧
    ((sortedFreqs cores).length ≤ 1 → ∀ c ∈ assignClusters cores, c.cluster = "standard") := by
  obtain ⟨hsorted, hmem⟩ := sortedFreqs_spec cores
  refine ⟨fun c hc => freqBucket_nearest c (hbound c hc), hsorted, hmem,
    assignClusters_length cores, ?_, ?_⟩
  · intro h2
    have hget := fun (j : Nat) (c : Core) => assignClusters_get cores h2 j c
    refine ⟨hget, ?_, ?_, ?_⟩
    · intro c hc
      obtain ⟨j, hj⟩ := List.mem_iff_getElem?.mp hc
      have hjlt : j < cores.length := by
        have := (List.getElem?_eq_some_iff.mp hj).1
        rwa [assignClusters_length] at this
      have hcj : cores[j]? = some cores[j] := List.getElem?_eq_getElem hjlt
      rw [hget j _ hcj] at hj
      cases hj
      rw [setTier_cluster]
      split
      · exact Or.inl rfl
      · exact Or.inr rfl
    · -- the lowest bucket is an efficiency bucket
      have hpos : 0 < (sortedFreqs cores).length := by omega
      have hf0 : (sortedFreqs cores)[0] ∈ sortedFreqs cores := List.getElem_mem _
      obtain ⟨c, hc, hcb⟩ := (hmem _).mp hf0
      obtain ⟨j, hj⟩ := List.mem_iff_getElem?.mp hc
      refine ⟨_, List.getElem?_mem (hget j c hj), ?_⟩
      rw [setTier_cluster, if_pos]
      rw [decide_eq_true_eq, hcb, mem_take_iff_indexOf]
      refine ⟨?_, hf0⟩
      rw [List.indexOf_getElem hsorted.nodup]
      omega
    · -- the highest bucket is a performance bucket
      have hlast : (sortedFreqs cores).length - 1 < (sortedFreqs cores).length := by omega
      have hfl : (sortedFreqs cores)[(sortedFreqs cores).length - 1] ∈ sortedFreqs cores :=
        List.getElem_mem _
      obtain ⟨c, hc, hcb⟩ := (hmem _).mp hfl
      obtain ⟨j, hj⟩ := List.mem_iff_getElem?.mp hc
      refine ⟨_, List.getElem?_mem (hget j c hj), ?_⟩
      rw [setTier_cluster, if_neg]
      rw [decide_eq_true_eq, hcb, mem_take_iff_indexOf]
      intro h
      rw [List.indexOf_getElem hsorted.nodup] at h
      omega
  · intro h1 c hc
    have h2 : ¬ (sortedFreqsOf (collectGroups 0 cores [])).length ≥ 2 := by
      have : (sortedFreqs cores).length ≤ 1 := h1
      unfold sortedFreqs at this
      omega
    simp only [assignClusters, h2, if_false, List.mem_map] at hc
    obtain ⟨c0, _, rfl⟩ := hc
    rfl

/-- Witness for C9 (amended): four cores at 1800000 and four at 2800000 give exactly the
clusters efficiency (cores 0..3) and performance (cores 4..7), and no standard cluster. -/
theorem cpuInfo_cluster_labelling_witness :
    (∀ c ∈ exampleCores, |c.maxFrequency| < 2 ^ 53) ∧
    sortedFreqs exampleCores = [1800000, 2800000] ∧
    (∃ c ∈ assignClusters exampleCores, c.cluster = "efficiency") ∧
    ((clusterInfoOf (assignClusters exampleCores)).efficiency.map (fun s => s.cores)) =
      some [0, 1, 2, 3] ∧
    ((clusterInfoOf (assignClusters exampleCores)).performance.map (fun s => s.cores)) =
      some [4, 5, 6, 7] ∧
    (clusterInfoOf (assignClusters exampleCores)).standard = none :=
  ⟨by decide!, by decide!,
   ((cpuInfo_cluster_labelling exampleCores (by decide!)).2.2.2.2.1 (by decide!)).2.2.1,
   by decide!, by decide!, by decide!⟩

end AndroidSlim
